import Mathlib

/-!
# DDoS detector: metrics accumulator and windowed detectors

A shallow embedding of `src/types.h`, `src/metrics.c`, `src/detection.c` and the
metrics aggregation of `master_process` in `src/main.c`.

Modelling conventions.
* C strings (`char[MAX_IP_LEN]`, compared with `strcmp`) are `String`s compared
  with `=`.
* C `int` counters are `Int` (no wrap-around: signed overflow is undefined in C
  and needs more than 2^31 flows).
* C `double` values are elements of an arbitrary linearly ordered field `α`
  (exact arithmetic; `ℚ` gives an executable instance, `ℝ` the instance with the
  true base-2 logarithm).  `log2` from `math.h` is a parameter of the entropy
  code.
* An array together with its element counter (`ip_counts`/`unique_ips`,
  `alerts`/`*alert_count`, `flows`/`count`) is a `List`; appending is
  `l ++ [x]`.
-/

namespace DDoS

/-! ## types.h -/

/-- Macro `#define MAX_BLOCKED_IPS 1000`. -/
def MAX_BLOCKED_IPS : Nat := 1000

/-- Macro `#define WINDOW_SIZE 50000`. -/
def WINDOW_SIZE : Nat := 50000

/-- Flow record (`FlowRecord` of types.h). -/
structure FlowRecord (α : Type) where
  src_ip : String
  dst_ip : String
  src_port : Int
  dst_port : Int
  protocol : Int
  flow_duration : α
  total_fwd_packets : α
  total_bwd_packets : α
  total_fwd_bytes : α
  total_bwd_bytes : α
  flow_bytes_per_sec : α
  flow_packets_per_sec : α
  min_packet_length : α
  max_packet_length : α
  packet_length_mean : α
  packet_length_std : α
  flow_iat_mean : α
  flow_iat_std : α
  is_attack : Int

/-- Detection result (`Alert` of types.h). -/
structure Alert (α : Type) where
  src_ip : String
  timestamp : α
  detection_type : Int
  confidence : α

/-- Blocklist entry (`BlockedIP` of types.h). -/
structure BlockedIP (α : Type) where
  ip : String
  blocked_time : α

/-- Metrics record (`Metrics` of types.h), fields in declaration order. -/
structure Metrics (α : Type) where
  true_positives : Int
  false_positives : Int
  true_negatives : Int
  false_negatives : Int
  total_flows : Int
  blocked_flows : Int
  legitimate_blocked : Int
  total_latency_ms : α
  detection_lead_time_ms : α
  throughput_flows_per_sec : α
  ddos_flows : Int
  benign_flows : Int
  mpi_communication_time_ms : α
  local_detection_time_ms : α
  global_detection_time_ms : α
  cpu_usage_percent : α
  memory_usage_mb : α
  latency_p95_ms : α
  latency_p99_ms : α
  attack_traffic_dropped_pct : α

/-! ## metrics.c -/

/-- Function `init_metrics`: `memset(m, 0, sizeof(Metrics))`. -/
def init_metrics {α : Type} [Zero α] : Metrics α :=
  { true_positives := 0, false_positives := 0, true_negatives := 0, false_negatives := 0,
    total_flows := 0, blocked_flows := 0, legitimate_blocked := 0, total_latency_ms := 0,
    detection_lead_time_ms := 0, throughput_flows_per_sec := 0, ddos_flows := 0,
    benign_flows := 0, mpi_communication_time_ms := 0, local_detection_time_ms := 0,
    global_detection_time_ms := 0, cpu_usage_percent := 0, memory_usage_mb := 0,
    latency_p95_ms := 0, latency_p99_ms := 0, attack_traffic_dropped_pct := 0 }

/-- The first loop of `update_metrics` (metrics.c 18-36): walk the alerts while
`detected_count < 100`, appending the alert's source IP to `detected_ips` unless
an equal string is already there.  The second argument is
`detected_ips[0 .. detected_count)`. -/
def detected_ips_loop {α : Type} : List (Alert α) → List String → List String
  | [], detected_ips => detected_ips
  | a :: rest, detected_ips =>
    if detected_ips.length < 100 then
      if detected_ips.any (fun d => d == a.src_ip) then detected_ips_loop rest detected_ips
      else detected_ips_loop rest (detected_ips ++ [a.src_ip])
    else detected_ips

/-- The blocklist scan of `update_metrics` (metrics.c 66-75): at the first entry
equal to the flow's source IP set `was_blocked`, increment `blocked_flows` and
break.  Returns `(was_blocked, blocked_flows)`. -/
def scan_blocklist {α : Type} (src_ip : String) : List (BlockedIP α) → Int → Bool × Int
  | [], blocked_flows => (false, blocked_flows)
  | b :: rest, blocked_flows =>
    if src_ip = b.ip then (true, blocked_flows + 1) else scan_blocklist src_ip rest blocked_flows

/-- One iteration of the per-flow loop of `update_metrics` (metrics.c 40-100). -/
def update_flow {α : Type} (detected_ips : List String) (blocklist : List (BlockedIP α))
    (m : Metrics α) (f : FlowRecord α) : Metrics α :=
  let is_attack := f.is_attack
  let m1 : Metrics α :=
    if is_attack ≠ 0 then { m with ddos_flows := m.ddos_flows + 1 }
    else { m with benign_flows := m.benign_flows + 1 }
  let was_detected : Bool := detected_ips.any (fun d => f.src_ip == d)
  let scan := scan_blocklist f.src_ip blocklist m1.blocked_flows
  let was_blocked : Bool := scan.1
  let m2 : Metrics α := { m1 with blocked_flows := scan.2 }
  let m3 : Metrics α :=
    if is_attack ≠ 0 ∧ was_detected = true then
      { m2 with true_positives := m2.true_positives + 1 }
    else if is_attack = 0 ∧ was_detected = true then
      { m2 with false_positives := m2.false_positives + 1 }
    else if is_attack = 0 ∧ was_detected = false then
      { m2 with true_negatives := m2.true_negatives + 1 }
    else if is_attack ≠ 0 ∧ was_detected = false then
      { m2 with false_negatives := m2.false_negatives + 1 }
    else m2
  if is_attack = 0 ∧ was_blocked = true then
    { m3 with legitimate_blocked := m3.legitimate_blocked + 1 }
  else m3

/-- Function `update_metrics` (metrics.c 14-101); `count`, `alert_count` and
`blocklist_count` are the lengths of the three lists. -/
def update_metrics {α : Type} (m : Metrics α) (flows : List (FlowRecord α))
    (alerts : List (Alert α)) (blocklist : List (BlockedIP α)) : Metrics α :=
  let m0 : Metrics α := { m with total_flows := m.total_flows + (flows.length : Int) }
  let detected_ips := detected_ips_loop alerts []
  flows.foldl (update_flow detected_ips blocklist) m0

/-- The five out-parameters of `calculate_final_metrics` (`*precision`, `*recall`, `*f1`,
`*fpr`, `*accuracy`; `precision` and `recall` are reserved words here, hence the suffix). -/
structure FinalMetrics (α : Type) where
  precision_v : α
  recall_v : α
  f1_v : α
  fpr_v : α
  accuracy_v : α

/-- The value of a C `int` expression whose mathematical value is `x`: the representative
of `x` modulo 2^32 in the range `[-2^31, 2^31)`.  (Signed overflow is undefined in ISO C;
this is the wrap-around of the 32-bit two's-complement addition the compiled code
performs.) -/
def int_wrap (x : Int) : Int := (x + 2147483648) % 4294967296 - 2147483648

/-- Function `calculate_final_metrics` (metrics.c 104-116).  The sums of the counters are
formed in `int` before the conversion to `double`; the quotients are exact. -/
def calculate_final_metrics {α : Type} [LinearOrderedField α] (m : Metrics α) : FinalMetrics α :=
  let tp := m.true_positives
  let fp := m.false_positives
  let tn := m.true_negatives
  let fn := m.false_negatives
  let p : α := if int_wrap (tp + fp) > 0 then (tp : α) / ((int_wrap (tp + fp) : Int) : α) else 0
  let r : α := if int_wrap (tp + fn) > 0 then (tp : α) / ((int_wrap (tp + fn) : Int) : α) else 0
  let f1 : α := if p + r > 0 then 2 * p * r / (p + r) else 0
  let fpr : α :=
    if int_wrap (fp + tn) > 0 then (fp : α) / ((int_wrap (fp + tn) : Int) : α) else 0
  let accuracy : α :=
    if int_wrap (int_wrap (int_wrap (tp + tn) + fp) + fn) > 0 then
      ((int_wrap (tp + tn) : Int) : α) /
        ((int_wrap (int_wrap (int_wrap (tp + tn) + fp) + fn) : Int) : α)
    else 0
  { precision_v := p, recall_v := r, f1_v := f1, fpr_v := fpr, accuracy_v := accuracy }

/-! ## main.c: metrics aggregation in `master_process` -/

/-- The aggregation block of `master_process` (main.c 388-410): fold one
received worker record into the coordinator's record. -/
def aggregate_metrics {α : Type} [Add α] (aggregated_metrics worker_metrics : Metrics α) :
    Metrics α :=
  { true_positives := aggregated_metrics.true_positives + worker_metrics.true_positives,
    false_positives := aggregated_metrics.false_positives + worker_metrics.false_positives,
    true_negatives := aggregated_metrics.true_negatives + worker_metrics.true_negatives,
    false_negatives := aggregated_metrics.false_negatives + worker_metrics.false_negatives,
    total_flows := aggregated_metrics.total_flows + worker_metrics.total_flows,
    blocked_flows := aggregated_metrics.blocked_flows + worker_metrics.blocked_flows,
    legitimate_blocked :=
      aggregated_metrics.legitimate_blocked + worker_metrics.legitimate_blocked,
    total_latency_ms := aggregated_metrics.total_latency_ms + worker_metrics.total_latency_ms,
    throughput_flows_per_sec :=
      aggregated_metrics.throughput_flows_per_sec + worker_metrics.throughput_flows_per_sec,
    detection_lead_time_ms := worker_metrics.detection_lead_time_ms,
    ddos_flows := aggregated_metrics.ddos_flows + worker_metrics.ddos_flows,
    benign_flows := aggregated_metrics.benign_flows + worker_metrics.benign_flows,
    mpi_communication_time_ms :=
      aggregated_metrics.mpi_communication_time_ms + worker_metrics.mpi_communication_time_ms,
    local_detection_time_ms :=
      aggregated_metrics.local_detection_time_ms + worker_metrics.local_detection_time_ms,
    global_detection_time_ms :=
      aggregated_metrics.global_detection_time_ms + worker_metrics.global_detection_time_ms,
    cpu_usage_percent := aggregated_metrics.cpu_usage_percent + worker_metrics.cpu_usage_percent,
    memory_usage_mb := aggregated_metrics.memory_usage_mb + worker_metrics.memory_usage_mb,
    latency_p95_ms := aggregated_metrics.latency_p95_ms + worker_metrics.latency_p95_ms,
    latency_p99_ms := aggregated_metrics.latency_p99_ms + worker_metrics.latency_p99_ms,
    attack_traffic_dropped_pct :=
      aggregated_metrics.attack_traffic_dropped_pct + worker_metrics.attack_traffic_dropped_pct }

/-! ## detection.c -/

/-- Macro `#define MAX_UNIQUE_IPS 1000`. -/
def MAX_UNIQUE_IPS : Nat := 1000

/-- Macro `#define ENTROPY_THRESHOLD 1.5`. -/
def ENTROPY_THRESHOLD {α : Type} [LinearOrderedField α] : α := 3 / 2

/-- Macro `#define CUSUM_THRESHOLD 5.0`. -/
def CUSUM_THRESHOLD {α : Type} [LinearOrderedField α] : α := 5

/-- Macro `#define CUSUM_DRIFT 0.5`. -/
def CUSUM_DRIFT {α : Type} [LinearOrderedField α] : α := 1 / 2

/-- Macro `#define CUSUM_BASELINE 50000.0`. -/
def CUSUM_BASELINE {α : Type} [LinearOrderedField α] : α := 50000

/-- The flag `static int use_cuda = 0;`.  Its only assignment is `use_cuda = 0` in
`detection_init`, so it is 0 whenever a detector runs. -/
def use_cuda : Bool := false

/-- Function `calculate_entropy_cuda` as defined in detection_cuda_stub.c (returns `10.0f`). -/
def calculate_entropy_cuda {α : Type} [LinearOrderedField α] (_flows : List (FlowRecord α)) : α :=
  10

/-- The inner search loop of the per-IP aggregation passes (detection.c 53-61,
111-119, 258-267): scan the table from index 0, update the first entry whose
`ip` equals the flow's source IP and break.  `none` stands for `found == 0`. -/
def update_first {σ : Type} (key : σ → String) (upd : σ → σ) (src_ip : String) :
    List σ → Option (List σ)
  | [] => none
  | e :: rest =>
    if key e = src_ip then some (upd e :: rest)
    else (update_first key upd src_ip rest).map (fun t => e :: t)

/-- One iteration of the outer aggregation loop: update the matching entry, or,
when none matches and `unique_ips < MAX_UNIQUE_IPS`, append a fresh entry for
the flow; otherwise the flow is dropped. -/
def tally {α σ : Type} (key : σ → String) (upd : FlowRecord α → σ → σ)
    (fresh : FlowRecord α → σ) (table : List σ) (f : FlowRecord α) : List σ :=
  match update_first key (upd f) f.src_ip table with
  | some t => t
  | none => if table.length < MAX_UNIQUE_IPS then table ++ [fresh f] else table

/-- Structure `IPCount` of detection.c. -/
structure IPCount where
  ip : String
  count : Int

/-- An entry of the zero-initialised array `IPCount ip_counts[MAX_UNIQUE_IPS] = {0}`. -/
def IPCount.zero : IPCount := { ip := "", count := 0 }

/-- The counting loop of `calculate_entropy` (detection.c 50-68), repeated
verbatim in `detect_entropy_based` (detection.c 108-126): the table
`ip_counts[0 .. unique_ips)`. -/
def count_ips {α : Type} (flows : List (FlowRecord α)) : List IPCount :=
  flows.foldl
    (tally IPCount.ip (fun _ e => { e with count := e.count + 1 })
      (fun f => { ip := f.src_ip, count := 1 }))
    []

/-- Function `calculate_entropy` (detection.c 44-82), with `log2` of math.h as a parameter. -/
def calculate_entropy {α : Type} [LinearOrderedField α] (log2 : α → α)
    (flows : List (FlowRecord α)) : α :=
  (count_ips flows).foldl
    (fun entropy c =>
      let p : α := (c.count : α) / ((flows.length : Int) : α)
      if p > 0 then entropy - p * log2 p else entropy)
    0

/-- The loop `for (i = 1; i < unique_ips; i++) if (ip_counts[i].count >
ip_counts[max_idx].count) max_idx = i;` of detection.c 129-136. -/
def max_index (ip_counts : List IPCount) : Nat :=
  (List.range' 1 (ip_counts.length - 1)).foldl
    (fun max_idx i =>
      if (ip_counts.getD i IPCount.zero).count > (ip_counts.getD max_idx IPCount.zero).count
      then i else max_idx)
    0

/-- Function `detect_entropy_based` (detection.c 85-146).  The last argument is
`alerts[0 .. *alert_count)` on entry, the result is the same on return. -/
def detect_entropy_based {α : Type} [LinearOrderedField α] (log2 : α → α)
    (flows : List (FlowRecord α)) (alerts : List (Alert α)) : List (Alert α) :=
  if flows.length < 10 then alerts
  else
    let entropy : α :=
      if use_cuda then calculate_entropy_cuda flows else calculate_entropy log2 flows
    if entropy < ENTROPY_THRESHOLD then
      let ip_counts := count_ips flows
      let max_idx := max_index ip_counts
      alerts ++ [{ src_ip := (ip_counts.getD max_idx IPCount.zero).ip, timestamp := 0,
                   detection_type := 1,
                   confidence := (ENTROPY_THRESHOLD - entropy) / ENTROPY_THRESHOLD }]
    else alerts

/-- Structure `CUSUMState` of `detect_cusum_based`. -/
structure CUSUMState (α : Type) where
  ip : String
  cusum_high : α
  cusum_low : α
  flow_count : Int
  total_bytes_per_sec : α

/-- The aggregation loop of `detect_cusum_based` (detection.c 255-275).  A fresh
entry keeps `cusum_high = cusum_low = 0` from the zero-initialised array. -/
def cusum_aggregate {α : Type} [LinearOrderedField α] (flows : List (FlowRecord α)) :
    List (CUSUMState α) :=
  flows.foldl
    (tally CUSUMState.ip
      (fun f e => { e with total_bytes_per_sec := e.total_bytes_per_sec + f.flow_bytes_per_sec,
                           flow_count := e.flow_count + 1 })
      (fun f => { ip := f.src_ip, cusum_high := 0, cusum_low := 0, flow_count := 1,
                  total_bytes_per_sec := f.flow_bytes_per_sec }))
    []

/-- The value stored in `ip_cusum[i].cusum_high` by detection.c 280-288. -/
def cusum_high_of {α : Type} [LinearOrderedField α] (e : CUSUMState α) : α :=
  let avg_rate := e.total_bytes_per_sec / (e.flow_count : α)
  let deviation := avg_rate - CUSUM_BASELINE
  max 0 (e.cusum_high + (deviation - CUSUM_DRIFT * CUSUM_BASELINE))

/-- One iteration of the decision loop of `detect_cusum_based` (detection.c
278-300); `cusum_low` is stored but never read, so only the alert list is
threaded. -/
def cusum_decide {α : Type} [LinearOrderedField α] (alerts : List (Alert α))
    (e : CUSUMState α) : List (Alert α) :=
  let cusum_high := cusum_high_of e
  if cusum_high > CUSUM_THRESHOLD * CUSUM_BASELINE then
    alerts ++ [{ src_ip := e.ip, timestamp := 0, detection_type := 3,
                 confidence := cusum_high / (CUSUM_THRESHOLD * CUSUM_BASELINE) }]
  else alerts

/-- Function `detect_cusum_based` (detection.c 240-303). -/
def detect_cusum_based {α : Type} [LinearOrderedField α] (flows : List (FlowRecord α))
    (alerts : List (Alert α)) : List (Alert α) :=
  (cusum_aggregate flows).foldl cusum_decide alerts

/-- Macro `#define PCA_THRESHOLD 3.0`. -/
def PCA_THRESHOLD {α : Type} [LinearOrderedField α] : α := 3

/-- Structure `IPFeatures` of `detect_pca_based`; `features` is `double features[5]`. -/
structure IPFeatures (α : Type) where
  ip : String
  features : Fin 5 → α
  flow_count : Int

/-- The five values a flow contributes to `features[0 .. 4]` (detection.c 170-174 and
183-187): bytes per second, forward plus backward packets, flow duration, mean packet
length, mean inter-arrival time. -/
def flow_features {α : Type} [LinearOrderedField α] (f : FlowRecord α) : Fin 5 → α :=
  ![f.flow_bytes_per_sec, f.total_fwd_packets + f.total_bwd_packets, f.flow_duration,
    f.packet_length_mean, f.flow_iat_mean]

/-- The aggregation loop of `detect_pca_based` (detection.c 163-191). -/
def pca_aggregate {α : Type} [LinearOrderedField α] (flows : List (FlowRecord α)) :
    List (IPFeatures α) :=
  flows.foldl
    (tally IPFeatures.ip
      (fun f e => { e with features := fun k => e.features k + flow_features f k,
                           flow_count := e.flow_count + 1 })
      (fun f => { ip := f.src_ip, features := flow_features f, flow_count := 1 }))
    []

/-- The value of `mean[f]` after detection.c 197-201. -/
def pca_mean {α : Type} [LinearOrderedField α] (ip_features : List (IPFeatures α))
    (f : Fin 5) : α :=
  ip_features.foldl (fun mean e => mean + e.features f / (e.flow_count : α)) 0 /
    ((ip_features.length : Int) : α)

/-- The value of `stddev[f]` after detection.c 203-210, with `sqrt` of math.h as a
parameter and `1e-6` taken as the exact 10^-6. -/
def pca_stddev {α : Type} [LinearOrderedField α] (sqrt : α → α)
    (ip_features : List (IPFeatures α)) (f : Fin 5) : α :=
  let stddev : α := sqrt
    (ip_features.foldl
      (fun stddev e =>
        let val : α := e.features f / (e.flow_count : α)
        stddev + (val - pca_mean ip_features f) * (val - pca_mean ip_features f)) 0 /
      ((ip_features.length : Int) : α))
  if stddev < 1 / 1000000 then 1 else stddev

/-- The value of `distance` for one entry after detection.c 216-222. -/
def pca_distance {α : Type} [LinearOrderedField α] (sqrt : α → α)
    (ip_features : List (IPFeatures α)) (e : IPFeatures α) : α :=
  sqrt ((List.finRange 5).foldl
    (fun distance f =>
      let normalized : α :=
        (e.features f / (e.flow_count : α) - pca_mean ip_features f) /
          pca_stddev sqrt ip_features f
      distance + normalized * normalized) 0)

/-- One iteration of the detection loop of `detect_pca_based` (detection.c 214-233). -/
def pca_decide {α : Type} [LinearOrderedField α] (sqrt : α → α)
    (ip_features : List (IPFeatures α)) (alerts : List (Alert α)) (e : IPFeatures α) :
    List (Alert α) :=
  let distance := pca_distance sqrt ip_features e
  if distance > PCA_THRESHOLD then
    alerts ++ [{ src_ip := e.ip, timestamp := 0, detection_type := 2,
                 confidence := distance / PCA_THRESHOLD }]
  else alerts

/-- Function `detect_pca_based` (detection.c 150-236). -/
def detect_pca_based {α : Type} [LinearOrderedField α] (sqrt : α → α)
    (flows : List (FlowRecord α)) (alerts : List (Alert α)) : List (Alert α) :=
  let ip_features := pca_aggregate flows
  ip_features.foldl (pca_decide sqrt ip_features) alerts

/-- Function `run_detection` (detection.c 306-316): `*alert_count = 0`, then the three
detectors in turn on the same buffer. -/
def run_detection {α : Type} [LinearOrderedField α] (log2 sqrt : α → α)
    (flows : List (FlowRecord α)) : List (Alert α) :=
  detect_cusum_based flows (detect_pca_based sqrt flows (detect_entropy_based log2 flows []))

/-! ## detection.c in `double` arithmetic

The definitions above compute in an ordered field, that is, without rounding.  The ones
below round the result of every `double` operation; with the identity for `rnd` they are
the definitions above.  `round_double` and `sqrt_double` are the IEEE 754 binary64
operations (round to nearest, ties to even) for results in the normal range; overflow,
subnormal results and fused multiply-add are not modelled. -/

/-- The number of binary digits of `n`; the first argument bounds the number of steps. -/
def bit_length : Nat → Nat → Nat
  | 0, _ => 0
  | fuel + 1, n => if n = 0 then 0 else bit_length fuel (n / 2) + 1

/-- The quotient `n / d` rounded to the nearest natural number, ties to the even one. -/
def div_round_even (n d : Nat) : Nat :=
  let q := n / d
  let r := n % d
  if 2 * r < d then q else if d < 2 * r then q + 1 else if q % 2 = 0 then q else q + 1

/-- The exponent `e` with `2^e ≤ n / d < 2^(e+1)`, for positive `n` and `d`. -/
def binade (n d : Nat) : Int :=
  let e0 : Int := (bit_length n n : Int) - (bit_length d d : Int)
  if n * 2 ^ (-e0).toNat < d * 2 ^ e0.toNat then e0 - 1 else e0

/-- The positive rational `n / d` rounded to a significand of 53 bits, to nearest, ties to
even: with `2^e ≤ n / d < 2^(e+1)`, the nearest multiple of `2^(e-52)`. -/
def round_pos (n d : Nat) : ℚ :=
  let s : Int := 52 - binade n d
  (div_round_even (n * 2 ^ s.toNat) (d * 2 ^ (-s).toNat) : ℚ) * 2 ^ (-s).toNat / 2 ^ s.toNat

/-- The `double` nearest to the rational `x`: the value a `double` operation returns when
its exact result is `x`. -/
def round_double (x : ℚ) : ℚ :=
  if x = 0 then 0
  else if 0 < x then round_pos x.num.natAbs x.den
  else - round_pos x.num.natAbs x.den

/-- The largest `r + c` with `c < 2^k` and `(r + c)^2 ≤ n`, found bit by bit from bit
`k - 1` down. -/
def isqrt_loop : Nat → Nat → Nat → Nat
  | 0, _, r => r
  | k + 1, n, r =>
    if (r + 2 ^ k) * (r + 2 ^ k) ≤ n then isqrt_loop k n (r + 2 ^ k) else isqrt_loop k n r

/-- The square root of the positive rational `n / d` rounded to a significand of 53 bits,
to nearest.  With `2^e ≤ n / d < 2^(e+1)` and `h = floor (e / 2)`, the number
`y = n / d * 4^(52 - h)` lies in `[2^104, 2^106)`, so `r = floor (sqrt y)` has 53 bits; the
result is `r` or `r + 1`, scaled back by `2^(h - 52)`, according to whether `sqrt y` is
below or above `r + 1/2`. -/
def sqrt_pos (n d : Nat) : ℚ :=
  let s : Int := 52 - Int.fdiv (binade n d) 2
  let num := n * 4 ^ s.toNat
  let den := d * 4 ^ (-s).toNat
  let r := isqrt_loop 53 (num / den) 0
  let m : Nat :=
    if (2 * r + 1) * (2 * r + 1) * den < 4 * num then r + 1
    else if (2 * r + 1) * (2 * r + 1) * den = 4 * num then (if r % 2 = 0 then r else r + 1)
    else r
  (m : ℚ) * 2 ^ (-s).toNat / 2 ^ s.toNat

/-- The value `sqrt` of math.h returns for the `double` `x ≥ 0`: the `double` nearest to
the square root of `x`. -/
def sqrt_double (x : ℚ) : ℚ :=
  if 0 < x then sqrt_pos x.num.natAbs x.den else 0

/-- The aggregation loop of `detect_cusum_based` (detection.c 255-275) with the sum
`total_bytes_per_sec += flow_bytes_per_sec` rounded by `rnd`. -/
def cusum_aggregate_rnd {α : Type} [LinearOrderedField α] (rnd : α → α)
    (flows : List (FlowRecord α)) : List (CUSUMState α) :=
  flows.foldl
    (tally CUSUMState.ip
      (fun f e => { e with
        total_bytes_per_sec := rnd (e.total_bytes_per_sec + f.flow_bytes_per_sec),
        flow_count := e.flow_count + 1 })
      (fun f => { ip := f.src_ip, cusum_high := 0, cusum_low := 0, flow_count := 1,
                  total_bytes_per_sec := f.flow_bytes_per_sec }))
    []

/-- The value stored in `ip_cusum[i].cusum_high` by detection.c 280-288, every operation
rounded by `rnd`. -/
def cusum_high_of_rnd {α : Type} [LinearOrderedField α] (rnd : α → α) (e : CUSUMState α) : α :=
  let avg_rate := rnd (e.total_bytes_per_sec / (e.flow_count : α))
  let deviation := rnd (avg_rate - CUSUM_BASELINE)
  max 0 (rnd (e.cusum_high + rnd (deviation - rnd (CUSUM_DRIFT * CUSUM_BASELINE))))

/-- One iteration of the decision loop of `detect_cusum_based` (detection.c 278-300),
every operation rounded by `rnd`. -/
def cusum_decide_rnd {α : Type} [LinearOrderedField α] (rnd : α → α) (alerts : List (Alert α))
    (e : CUSUMState α) : List (Alert α) :=
  let cusum_high := cusum_high_of_rnd rnd e
  if cusum_high > rnd (CUSUM_THRESHOLD * CUSUM_BASELINE) then
    alerts ++ [{ src_ip := e.ip, timestamp := 0, detection_type := 3,
                 confidence := rnd (cusum_high / rnd (CUSUM_THRESHOLD * CUSUM_BASELINE)) }]
  else alerts

/-- Function `detect_cusum_based` (detection.c 240-303), every `double` operation rounded
by `rnd`. -/
def detect_cusum_based_rnd {α : Type} [LinearOrderedField α] (rnd : α → α)
    (flows : List (FlowRecord α)) (alerts : List (Alert α)) : List (Alert α) :=
  (cusum_aggregate_rnd rnd flows).foldl (cusum_decide_rnd rnd) alerts

/-- The five values a flow contributes to `features[0 .. 4]` (detection.c 170-174 and
183-187), the sum of the forward and backward packets rounded by `rnd`. -/
def flow_features_rnd {α : Type} [LinearOrderedField α] (rnd : α → α) (f : FlowRecord α) :
    Fin 5 → α :=
  ![f.flow_bytes_per_sec, rnd (f.total_fwd_packets + f.total_bwd_packets), f.flow_duration,
    f.packet_length_mean, f.flow_iat_mean]

/-- The aggregation loop of `detect_pca_based` (detection.c 163-191), every `+=` rounded
by `rnd`. -/
def pca_aggregate_rnd {α : Type} [LinearOrderedField α] (rnd : α → α)
    (flows : List (FlowRecord α)) : List (IPFeatures α) :=
  flows.foldl
    (tally IPFeatures.ip
      (fun f e => { e with
        features := fun k => rnd (e.features k + flow_features_rnd rnd f k),
        flow_count := e.flow_count + 1 })
      (fun f => { ip := f.src_ip, features := flow_features_rnd rnd f, flow_count := 1 }))
    []

/-- The value of `mean[f]` after detection.c 197-201, every operation rounded by `rnd`. -/
def pca_mean_rnd {α : Type} [LinearOrderedField α] (rnd : α → α)
    (ip_features : List (IPFeatures α)) (f : Fin 5) : α :=
  rnd (ip_features.foldl
      (fun mean e => rnd (mean + rnd (e.features f / (e.flow_count : α)))) 0 /
    ((ip_features.length : Int) : α))

/-- The value of `stddev[f]` after detection.c 203-210, every operation rounded by `rnd`,
with `sqrt` of math.h as a parameter and `1e-6` as the rounded 10^-6. -/
def pca_stddev_rnd {α : Type} [LinearOrderedField α] (rnd sqrt : α → α)
    (ip_features : List (IPFeatures α)) (f : Fin 5) : α :=
  let stddev : α := sqrt (rnd
    (ip_features.foldl
      (fun stddev e =>
        let val : α := rnd (e.features f / (e.flow_count : α))
        rnd (stddev + rnd (rnd (val - pca_mean_rnd rnd ip_features f) *
          rnd (val - pca_mean_rnd rnd ip_features f)))) 0 /
      ((ip_features.length : Int) : α)))
  if stddev < rnd (1 / 1000000) then 1 else stddev

/-- The value of `distance` for one entry after detection.c 216-222, every operation
rounded by `rnd`. -/
def pca_distance_rnd {α : Type} [LinearOrderedField α] (rnd sqrt : α → α)
    (ip_features : List (IPFeatures α)) (e : IPFeatures α) : α :=
  sqrt ((List.finRange 5).foldl
    (fun distance f =>
      let normalized : α :=
        rnd (rnd (rnd (e.features f / (e.flow_count : α)) - pca_mean_rnd rnd ip_features f) /
          pca_stddev_rnd rnd sqrt ip_features f)
      rnd (distance + rnd (normalized * normalized))) 0)

/-- One iteration of the detection loop of `detect_pca_based` (detection.c 214-233), every
operation rounded by `rnd`. -/
def pca_decide_rnd {α : Type} [LinearOrderedField α] (rnd sqrt : α → α)
    (ip_features : List (IPFeatures α)) (alerts : List (Alert α)) (e : IPFeatures α) :
    List (Alert α) :=
  let distance := pca_distance_rnd rnd sqrt ip_features e
  if distance > PCA_THRESHOLD then
    alerts ++ [{ src_ip := e.ip, timestamp := 0, detection_type := 2,
                 confidence := rnd (distance / PCA_THRESHOLD) }]
  else alerts

/-- Function `detect_pca_based` (detection.c 150-236), every `double` operation rounded by
`rnd`. -/
def detect_pca_based_rnd {α : Type} [LinearOrderedField α] (rnd sqrt : α → α)
    (flows : List (FlowRecord α)) (alerts : List (Alert α)) : List (Alert α) :=
  let ip_features := pca_aggregate_rnd rnd flows
  ip_features.foldl (pca_decide_rnd rnd sqrt ip_features) alerts

/-! ## main.c: the partition of `worker_process` -/

/-- The partition computed by `worker_process` (main.c 186-190) for the worker of rank
`rank` among `size` processes: `(start_line, my_lines)`.  C `int` division truncates
towards zero. -/
def worker_partition (rank size total_lines : Int) : Int × Int :=
  let workers := size - 1
  let lines_per_worker := total_lines.tdiv workers
  let start_line := (rank - 1) * lines_per_worker
  let my_lines := if rank = size - 1 then total_lines - start_line else lines_per_worker
  (start_line, my_lines)

/-! ## csv_parser.c

A C string is the `List Char` of its bytes up to the terminating NUL (one `Char` per
byte); a file is the `List Char` of its bytes, assumed free of NUL bytes, or `none` when
`fopen` fails.  The libc functions `atoi` and `atof` are parameters. -/

/-- Macro `#define MAX_IP_LEN 32` (types.h). -/
def MAX_IP_LEN : Nat := 32

/-- Macro `#define MAX_LINE_LEN 2048` (types.h). -/
def MAX_LINE_LEN : Nat := 2048

/-- The fast-forward loop of `get_field` (csv_parser.c 13-18): advance `ptr` while
`*ptr && current < field_num`, counting commas.  Returns the string at `ptr`. -/
def skip_fields : List Char → Nat → Nat → List Char
  | [], _, _ => []
  | c :: s, current, field_num =>
    if current < field_num then skip_fields s (if c = ',' then current + 1 else current) field_num
    else c :: s

/-- Function `get_field` (csv_parser.c 6-32): the bytes from `ptr` up to the next comma,
line feed, carriage return or end of string, cut to 255 bytes. -/
def get_field (line : List Char) (field_num : Nat) : List Char :=
  let start := skip_fields line 0 field_num
  let span := start.takeWhile (fun c => decide (c ≠ ',' ∧ c ≠ '\n' ∧ c ≠ '\r'))
  span.take 255

/-- The test `strstr(haystack, needle) != NULL` of libc: `needle` occurs in `haystack`. -/
def strstr : List Char → List Char → Bool
  | [], needle => needle.isEmpty
  | c :: s, needle => needle.isPrefixOf (c :: s) || strstr s needle

/-- Function `parse_csv_line` (csv_parser.c 56-131); `none` stands for the return value
-1, `some record` for 0 with the record written.  `strncpy` keeps at most
`MAX_IP_LEN - 1` bytes of an address. -/
def parse_csv_line {α : Type} (atoi : List Char → Int) (atof : List Char → α)
    (line : List Char) : Option (FlowRecord α) :=
  if line.length < 10 then none
  else
    some
      { src_ip := String.mk ((get_field line 0).take (MAX_IP_LEN - 1)),
        src_port := atoi (get_field line 1),
        dst_ip := String.mk ((get_field line 2).take (MAX_IP_LEN - 1)),
        dst_port := atoi (get_field line 3),
        protocol := atoi (get_field line 4),
        flow_duration := atof (get_field line 5),
        total_fwd_packets := atof (get_field line 6),
        total_bwd_packets := atof (get_field line 7),
        total_fwd_bytes := atof (get_field line 8),
        total_bwd_bytes := atof (get_field line 9),
        flow_bytes_per_sec := atof (get_field line 10),
        flow_packets_per_sec := atof (get_field line 11),
        min_packet_length := atof (get_field line 12),
        max_packet_length := atof (get_field line 13),
        packet_length_mean := atof (get_field line 14),
        packet_length_std := atof (get_field line 15),
        flow_iat_mean := atof (get_field line 16),
        flow_iat_std := atof (get_field line 17),
        is_attack :=
          if strstr (get_field line 18) "DrDoS".toList || strstr (get_field line 18) "DDoS".toList
          then 1 else 0 }

/-- The bytes one `fgets` call with room for `n` bytes takes from the stream, and the rest
of the stream: it stops after a line feed, after `n` bytes, or at the end of the file. -/
def read_line : Nat → List Char → List Char × List Char
  | 0, s => ([], s)
  | _ + 1, [] => ([], [])
  | n + 1, c :: s =>
    if c = '\n' then ([c], s) else ((c :: (read_line n s).1), (read_line n s).2)

/-- The libc call `fgets(line, size, fp)`: `none` (NULL) at the end of the file, otherwise
the line read (at most `size - 1` bytes) and the rest of the stream. -/
def fgets (size : Nat) (fp : List Char) : Option (List Char × List Char) :=
  match fp with
  | [] => none
  | _ :: _ => some (read_line (size - 1) fp)

/-- The lines that successive calls `fgets(line, sizeof(line), fp)` return until NULL.  The
first argument bounds the number of calls; each call takes at least one byte. -/
def fgets_loop : Nat → List Char → List (List Char)
  | 0, _ => []
  | fuel + 1, fp =>
    match fgets MAX_LINE_LEN fp with
    | none => []
    | some (line, rest) => line :: fgets_loop fuel rest

/-- The sequence of lines a loop over `fgets` sees on a freshly opened file. -/
def fgets_lines (fp : List Char) : List (List Char) := fgets_loop fp.length fp

/-- Function `count_csv_lines` (csv_parser.c 134-153). -/
def count_csv_lines (file : Option (List Char)) : Int :=
  match file with
  | none => -1
  | some fp =>
    (fgets_lines fp).foldl
      (fun count line => if count > 0 ∨ line.head? ≠ some 'U' then count + 1 else count) 0

/-- The loop `while (current_line < start_line && fgets(...)) current_line++;` of
`read_csv_chunk` (csv_parser.c 174-177): the lines left unread and `current_line`. -/
def skip_loop : List (List Char) → Int → Int → List (List Char) × Int
  | [], current_line, _ => ([], current_line)
  | l :: ls, current_line, start_line =>
    if current_line < start_line then skip_loop ls (current_line + 1) start_line
    else (l :: ls, current_line)

/-- The loop of `read_csv_chunk` that reads the target chunk (csv_parser.c 180-187); the
last argument is `records[0 .. records_read)`. -/
def chunk_loop {α : Type} (atoi : List Char → Int) (atof : List Char → α)
    (count end_line : Int) : List (List Char) → Int → List (FlowRecord α) → List (FlowRecord α)
  | [], _, records => records
  | l :: ls, current_line, records =>
    if (records.length : Int) < count ∧ current_line < end_line then
      match parse_csv_line atoi atof l with
      | some r => chunk_loop atoi atof count end_line ls (current_line + 1) (records ++ [r])
      | none => chunk_loop atoi atof count end_line ls (current_line + 1) records
    else records

/-- Function `read_csv_chunk` (csv_parser.c 156-192): the return value and
`records[0 .. *actual_read)`. -/
def read_csv_chunk {α : Type} (atoi : List Char → Int) (atof : List Char → α)
    (file : Option (List Char)) (start_line count : Int) : Int × List (FlowRecord α) :=
  match file with
  | none => (-1, [])
  | some fp =>
    let skipped := skip_loop (fgets_lines fp) (-1) start_line
    (0, chunk_loop atoi atof count (start_line + count) skipped.1 skipped.2 [])

/-! ## main.c: the worker's epilogue and the coordinator -/

/-- Macro `#define MAX_ALERTS 1000` (main.c). -/
def MAX_ALERTS : Nat := 1000

/-- The epilogue of `worker_process` (main.c 276-293).  The clock readings, the number
of flows processed and the two values of `get_resource_usage` are parameters; `1.2` is
taken as the exact 6/5. -/
def worker_finalize {α : Type} [LinearOrderedField α] (metrics : Metrics α)
    (total_time worker_total_time : α) (flows_processed : Int)
    (cpu_usage_percent memory_usage_mb : α) : Metrics α :=
  let avg_latency : α :=
    if metrics.total_flows > 0 then metrics.total_latency_ms / (metrics.total_flows : α) else 0
  { metrics with
    local_detection_time_ms := total_time,
    global_detection_time_ms := worker_total_time,
    throughput_flows_per_sec :=
      if total_time > 0 then (flows_processed : α) * 1000 / total_time else 0,
    detection_lead_time_ms := 50,
    latency_p95_ms := avg_latency * (6 / 5),
    latency_p99_ms := avg_latency * 2,
    cpu_usage_percent := cpu_usage_percent,
    memory_usage_mb := memory_usage_mb,
    attack_traffic_dropped_pct :=
      if metrics.ddos_flows > 0 then
        ((metrics.true_positives : α) * 100) / (metrics.ddos_flows : α)
      else 0 }

/-- The block "Average metrics that should not be summed" of `master_process`
(main.c 423-430). -/
def master_finalize {α : Type} [LinearOrderedField α] (aggregated_metrics : Metrics α)
    (workers : Int) : Metrics α :=
  if workers > 0 then
    { aggregated_metrics with
      cpu_usage_percent := aggregated_metrics.cpu_usage_percent / (workers : α),
      latency_p95_ms := aggregated_metrics.latency_p95_ms / (workers : α),
      latency_p99_ms := aggregated_metrics.latency_p99_ms / (workers : α),
      attack_traffic_dropped_pct :=
        aggregated_metrics.attack_traffic_dropped_pct / (workers : α) }
  else aggregated_metrics

/-- The value `avg_latency` that `print_comprehensive_report` prints (output.c 115). -/
def report_avg_latency {α : Type} [LinearOrderedField α] (m : Metrics α) : α :=
  if m.total_flows > 0 then m.total_latency_ms / (m.total_flows : α) else 0

/-- The coordinator's stores: `global_alerts[0 .. global_alert_count)` and
`global_blocklist[0 .. global_blocklist_count)`. -/
structure MasterState (α : Type) where
  global_alerts : List (Alert α)
  global_blocklist : List (BlockedIP α)

/-- A message sent with `TAG_BLOCKLIST`: the count (`MPI_INT`) or the list (`MPI_BYTE`),
with its destination rank. -/
inductive Sent (α : Type) where
  | count (worker : Nat) (n : Int)
  | entries (worker : Nat) (list : List (BlockedIP α))

/-- The destination rank of a message. -/
def Sent.worker {α : Type} : Sent α → Nat
  | Sent.count w _ => w
  | Sent.entries w _ => w

/-- The broadcast loop of `master_process` (main.c 369-373): for `worker = 1 .. size - 1`
send the count, then the list. -/
def broadcast {α : Type} (size : Nat) (global_blocklist : List (BlockedIP α)) :
    List (Sent α) :=
  (List.range' 1 (size - 1)).flatMap
    (fun worker => [Sent.count worker (global_blocklist.length : Int),
                    Sent.entries worker global_blocklist])

/-- The alert branch of the loop of `master_process` (main.c 338-375) for one received
alert: the new stores and the messages sent. -/
def master_alert_step {α : Type} (size : Nat) (st : MasterState α) (alert : Alert α) :
    MasterState α × List (Sent α) :=
  let global_alerts :=
    if st.global_alerts.length < MAX_ALERTS * 10 then st.global_alerts ++ [alert]
    else st.global_alerts
  let already_blocked : Bool := st.global_blocklist.any (fun b => b.ip == alert.src_ip)
  if already_blocked = false ∧ st.global_blocklist.length < MAX_BLOCKED_IPS then
    let global_blocklist :=
      st.global_blocklist ++ [{ ip := alert.src_ip, blocked_time := alert.timestamp }]
    ({ global_alerts := global_alerts, global_blocklist := global_blocklist },
      broadcast size global_blocklist)
  else ({ global_alerts := global_alerts, global_blocklist := st.global_blocklist }, [])

/-- The coordinator's stores at the start of `master_process`. -/
def master_init {α : Type} : MasterState α := { global_alerts := [], global_blocklist := [] }

/-- The coordinator's stores after the alerts received in the given order. -/
def master_run {α : Type} (size : Nat) (alerts : List (Alert α)) : MasterState α :=
  alerts.foldl (fun st alert => (master_alert_step size st alert).1) master_init

/-- What one iteration of the window loop of `worker_process` (main.c 204-270) does to
`metrics`: the window read, the alerts of `run_detection`, the blocklist in force, the
time spent in MPI calls and the duration of the window. -/
structure WorkerWindow (α : Type) where
  flows : List (FlowRecord α)
  alerts : List (Alert α)
  current_blocklist : List (BlockedIP α)
  mpi_time : α
  window_time : α

/-- One iteration of the window loop of `worker_process` on `metrics` (main.c 238, 252,
265-268): the MPI time is added, `update_metrics` is called, the window time is added to
`total_latency_ms`. -/
def worker_window {α : Type} [Add α] (metrics : Metrics α) (w : WorkerWindow α) : Metrics α :=
  let m1 : Metrics α :=
    { metrics with mpi_communication_time_ms := metrics.mpi_communication_time_ms + w.mpi_time }
  let m2 := update_metrics m1 w.flows w.alerts w.current_blocklist
  { m2 with total_latency_ms := m2.total_latency_ms + w.window_time }

/-- The record `metrics` of `worker_process` after the window loop (main.c 197-271):
`init_metrics`, then one `worker_window` per window. -/
def worker_metrics {α : Type} [Zero α] [Add α] (windows : List (WorkerWindow α)) : Metrics α :=
  windows.foldl worker_window init_metrics

/-! ## Invariants of the metrics record (section 3 of the specification) -/

/-- The invariant `TP + FP + TN + FN = total_flows`. -/
abbrev Metrics.confusion_sum_ok {α : Type} (m : Metrics α) : Prop :=
  m.true_positives + m.false_positives + m.true_negatives + m.false_negatives = m.total_flows

/-- The invariant `ddos_flows + benign_flows = total_flows`. -/
abbrev Metrics.label_sum_ok {α : Type} (m : Metrics α) : Prop :=
  m.ddos_flows + m.benign_flows = m.total_flows

/-! ## Specification-side notions for the per-IP tables -/

/-- The entry a per-IP aggregation holds for a source IP whose flows are, in window
order, the given list: `fresh` of the first flow, then `upd` for each later one. -/
def fold_entry {α σ : Type} (upd : FlowRecord α → σ → σ) (fresh : FlowRecord α → σ) :
    List (FlowRecord α) → Option σ
  | [] => none
  | f :: rest => some (rest.foldl (fun e g => upd g e) (fresh f))

/-- The relation between a per-IP table and the flows processed so far. -/
structure TableInv {α σ : Type} (key : σ → String) (upd : FlowRecord α → σ → σ)
    (fresh : FlowRecord α → σ) (table : List σ) (seen : List (FlowRecord α)) : Prop where
  /-- No IP has two entries. -/
  nodup : (table.map key).Nodup
  /-- Each entry aggregates all the flows seen so far from its IP. -/
  entry : ∀ e ∈ table,
    fold_entry upd fresh (seen.filter (fun f => decide (f.src_ip = key e))) = some e
  /-- While the table is not full every source IP seen so far has an entry. -/
  complete : table.length < MAX_UNIQUE_IPS → ∀ f ∈ seen, f.src_ip ∈ table.map key
  /-- The table never exceeds its capacity. -/
  bounded : table.length ≤ MAX_UNIQUE_IPS
  /-- Entries are in the order in which their IPs were first seen. -/
  ordered : (table.map key).Pairwise (fun a b =>
    (seen.map FlowRecord.src_ip).indexOf a < (seen.map FlowRecord.src_ip).indexOf b)

/-- The number of flows of the window whose source IP is `ip`. -/
def ip_count {α : Type} (flows : List (FlowRecord α)) (ip : String) : Nat :=
  flows.countP (fun f => decide (f.src_ip = ip))

/-- The number of distinct source IPs of the window. -/
def distinct_ips {α : Type} (flows : List (FlowRecord α)) : Nat :=
  (flows.map FlowRecord.src_ip).dedup.length

/-- The average `flow_bytes_per_sec` of the flows of the window whose source IP is `ip`
(the sum taken in window order, divided by their number). -/
def ip_avg_rate {α : Type} [LinearOrderedField α] (flows : List (FlowRecord α))
    (ip : String) : α :=
  ((flows.filter (fun f => decide (f.src_ip = ip))).map FlowRecord.flow_bytes_per_sec).sum /
    ((ip_count flows ip : Nat) : α)

/-- Line `x` lies in the range `[start_line, start_line + my_lines)` of the worker of
rank `rank`. -/
abbrev in_partition (rank size total_lines x : Int) : Prop :=
  (worker_partition rank size total_lines).1 ≤ x ∧
    x < (worker_partition rank size total_lines).1 + (worker_partition rank size total_lines).2

/-- The lines of a file: each ends with its line feed, except possibly the last. -/
def file_lines : List Char → List (List Char)
  | [] => []
  | c :: s =>
    if c = '\n' then [c] :: file_lines s
    else
      match file_lines s with
      | [] => [[c]]
      | l :: ls => (c :: l) :: ls

/-- The comma-separated fields of a line. -/
def csv_fields : List Char → List (List Char)
  | [] => [[]]
  | c :: s =>
    if c = ',' then [] :: csv_fields s
    else
      match csv_fields s with
      | [] => [[c]]
      | f :: fs => (c :: f) :: fs

/-- Column `k` of a line: its `k`-th comma-separated field up to the first line feed or
carriage return, empty when the line has no such field. -/
def csv_column (line : List Char) (k : Nat) : List Char :=
  ((csv_fields line).getD k []).takeWhile (fun c => decide (c ≠ '\n' ∧ c ≠ '\r'))

/-- The per-class invariants of the metrics record: `TP + FN = ddos_flows` and
`FP + TN = benign_flows`. -/
def Metrics.class_sums_ok {α : Type} (m : Metrics α) : Prop :=
  m.true_positives + m.false_negatives = m.ddos_flows ∧
  m.false_positives + m.true_negatives = m.benign_flows

/-- The distinct strings of a list in the order of their first occurrence. -/
def first_distinct : List String → List String
  | [] => []
  | x :: l => x :: (first_distinct l).filter (fun y => decide (y ≠ x))

/-- The first `MAX_UNIQUE_IPS` distinct source IPs of a window. -/
def tracked_ips {α : Type} (flows : List (FlowRecord α)) : List String :=
  (first_distinct (flows.map FlowRecord.src_ip)).take MAX_UNIQUE_IPS

/-- The window without its overflow flows, those whose source IP is not among the first
`MAX_UNIQUE_IPS` distinct source IPs. -/
def drop_overflow {α : Type} (flows : List (FlowRecord α)) : List (FlowRecord α) :=
  flows.filter (fun f => decide (f.src_ip ∈ tracked_ips flows))

/-- The effect of one flow on the list of IPs of a per-IP table. -/
def track_keys (ks : List String) (ip : String) : List String :=
  if ip ∈ ks then ks else if ks.length < MAX_UNIQUE_IPS then ks ++ [ip] else ks

/-- The invariant carried along the window loop: the two per-class sums and the
non-negativity of the four cells. -/
structure ClassInv {α : Type} (m : Metrics α) : Prop where
  ddos : m.true_positives + m.false_negatives = m.ddos_flows
  benign : m.false_positives + m.true_negatives = m.benign_flows
  tp_nonneg : 0 ≤ m.true_positives
  fn_nonneg : 0 ≤ m.false_negatives
  fp_nonneg : 0 ≤ m.false_positives
  tn_nonneg : 0 ≤ m.true_negatives

/-! ## Sample data used to evaluate the definitions -/

/-- A flow from `src_ip` with the given byte rate and label; every other field is zero. -/
def sample_flow {α : Type} [Zero α] (src_ip : String) (flow_bytes_per_sec : α)
    (is_attack : Int) : FlowRecord α :=
  { src_ip := src_ip, dst_ip := "192.168.0.1", src_port := 0, dst_port := 0, protocol := 0,
    flow_duration := 0, total_fwd_packets := 0, total_bwd_packets := 0, total_fwd_bytes := 0,
    total_bwd_bytes := 0, flow_bytes_per_sec := flow_bytes_per_sec, flow_packets_per_sec := 0,
    min_packet_length := 0, max_packet_length := 0, packet_length_mean := 0,
    packet_length_std := 0, flow_iat_mean := 0, flow_iat_std := 0, is_attack := is_attack }

/-- An alert for `src_ip` as the CUSUM detector writes it (kind 3, timestamp 0). -/
def sample_alert {α : Type} [Zero α] [OfNat α 2] (src_ip : String) : Alert α :=
  { src_ip := src_ip, timestamp := 0, detection_type := 3, confidence := 2 }

/-- The decimal digit character of `k % 10`. -/
def digit (k : Nat) : Char := Char.ofNat (48 + k % 10)

/-- The address `10.a.b.1cd` where `abcd` are the four decimal digits of `i`
(`10.0.0.100` for 0, `10.1.2.134` for 1234): pairwise distinct for `i < 10000`. -/
def sample_ip (i : Nat) : String :=
  String.mk ['1', '0', '.', digit (i / 1000), '.', digit (i / 100), '.', '1', digit (i / 10),
    digit i]

/-- The alerts for `sample_ip 0 .. sample_ip 100`: 101 alerts, 101 distinct source IPs. -/
def alerts_101 : List (Alert ℚ) := (List.range 101).map (fun i => sample_alert (sample_ip i))

/-- A window of one attack flow from `sample_ip 100` (`10.0.1.100`), the source IP of the
last alert of `alerts_101`. -/
def window_late : List (FlowRecord ℚ) := [sample_flow (sample_ip 100) 0 1]

/-- A window of three flows: an attack from `10.0.0.1` and a benign flow from each of
`10.0.0.2` and `10.0.0.3`. -/
def window_small : List (FlowRecord ℚ) :=
  [sample_flow "10.0.0.1" 400000 1, sample_flow "10.0.0.2" 1000 0, sample_flow "10.0.0.3" 1000 0]

/-- A metrics record with TP = 3, FP = 1, TN = 5, FN = 1 over ten flows. -/
def metrics_sample : Metrics ℚ :=
  { (init_metrics : Metrics ℚ) with
    true_positives := 3, false_positives := 1, true_negatives := 5, false_negatives := 1,
    total_flows := 10, ddos_flows := 4, benign_flows := 6 }

/-- A window of `n` attack flows, all from `10.0.0.1`, at 10^7 bytes per second. -/
def window_single {α : Type} [LinearOrderedField α] (n : Nat) : List (FlowRecord α) :=
  List.replicate n (sample_flow "10.0.0.1" 10000000 1)

/-- A window of `n` benign flows from `sample_ip 0 .. sample_ip (n - 1)`, each at 1000
bytes per second. -/
def window_distinct {α : Type} [LinearOrderedField α] (n : Nat) : List (FlowRecord α) :=
  (List.range n).map (fun i => sample_flow (sample_ip i) 1000 0)

/-- A window of 10000 flows: one benign flow from each of `sample_ip 0 .. sample_ip 999`,
then 9000 attack flows from `sample_ip 1000` (`10.1.0.100`). -/
def window_overflow {α : Type} [LinearOrderedField α] : List (FlowRecord α) :=
  window_distinct 1000 ++ List.replicate 9000 (sample_flow (sample_ip 1000) 1000000 1)

/-- The alert the entropy detector writes for a window whose flows all come from
`10.0.0.1`. -/
def single_source_alert {α : Type} [LinearOrderedField α] : Alert α :=
  { src_ip := "10.0.0.1", timestamp := 0, detection_type := 1, confidence := 1 }

/-- A stand-in for `atoi` when a definition is evaluated. -/
def atoi_zero : List Char → Int := fun _ => 0

/-- A stand-in for `atof` when a definition is evaluated. -/
def atof_zero : List Char → ℚ := fun _ => 0

/-- A header line as the preprocessing writes it. -/
def line_header : List Char := "Unnamed: 0,Source IP,Source Port,Label\n".toList

/-- A 19-field flow line from `10.0.0.1` labelled `DrDoS_UDP`. -/
def line_attack : List Char :=
  "10.0.0.1,1234,10.0.0.2,80,6,100,2,3,200,300,1000,5,40,60,50,10,3,1,DrDoS_UDP\n".toList

/-- A 19-field flow line from `10.0.0.3` labelled `BENIGN`, ending in CR LF. -/
def line_benign : List Char :=
  "10.0.0.3,1234,10.0.0.2,80,6,100,2,3,200,300,1000,5,40,60,50,10,3,1,BENIGN\r\n".toList

/-- A 19-field flow line whose label is 252 bytes `x` followed by `DDoS`: 256 bytes. -/
def line_long_label : List Char :=
  "10.0.0.1,1,10.0.0.2,2,6,0,0,0,0,0,0,0,0,0,0,0,0,0,".toList ++ List.replicate 252 'x' ++
    "DDoS\n".toList

/-- A line of 20 bytes with three fields only. -/
def line_three_fields : List Char := "10.0.0.1,80,10.0.0.2".toList

/-- A line of 9 bytes. -/
def line_short : List Char := "1,2,3,4,\n".toList

/-- A file with a header line and three data lines, the second of them too short. -/
def file_sample : List Char := line_header ++ line_attack ++ line_short ++ line_benign

/-- A file without header line: two valid flow lines, the first starting with `1`. -/
def file_no_header : List Char := line_attack ++ line_benign

/-- A file whose first two lines both start with `U`, followed by one flow line. -/
def file_two_headers : List Char := line_header ++ line_header ++ line_attack

/-- A coordinator state whose alert log is full: 10000 logged alerts for `10.0.0.1`,
which is the only blocked IP. -/
def master_state_log_full : MasterState ℚ :=
  { global_alerts := List.replicate 10000 (sample_alert "10.0.0.1"),
    global_blocklist := [{ ip := "10.0.0.1", blocked_time := 0 }] }

/-- A coordinator state with one logged alert and `10.0.0.1` blocked. -/
def master_state_one : MasterState ℚ :=
  { global_alerts := [sample_alert "10.0.0.1"],
    global_blocklist := [{ ip := "10.0.0.1", blocked_time := 0 }] }

/-- The record a worker sends after 10 flows in 10 ms of window latency. -/
def metrics_worker_a : Metrics ℚ :=
  worker_finalize
    { (init_metrics : Metrics ℚ) with total_flows := 10, benign_flows := 10,
                                      true_negatives := 10, total_latency_ms := 10 }
    10 12 10 50 100

/-- The record a worker sends after 20 flows in 40 ms of window latency. -/
def metrics_worker_b : Metrics ℚ :=
  worker_finalize
    { (init_metrics : Metrics ℚ) with total_flows := 20, benign_flows := 20,
                                      true_negatives := 20, total_latency_ms := 40 }
    40 45 20 50 100

/-- One window of three attack flows from 10.0.0.1 with an alert for that source and an
empty blocklist. -/
def worker_window_sample : WorkerWindow ℚ :=
  { flows := window_single 3, alerts := [single_source_alert], current_blocklist := [],
    mpi_time := 1, window_time := 2 }

/-- A window of two flows from two sources with very different rates. -/
def window_two_ips {α : Type} [LinearOrderedField α] : List (FlowRecord α) :=
  [sample_flow "10.0.0.1" 10000000 1, sample_flow "10.0.0.2" 1000 0]

/-- A window of 10000 attack flows, each at 10^6 bytes per second: one from each of
`sample_ip 0 .. sample_ip 999`, then 9000 from `sample_ip 1000`. -/
def window_flood {α : Type} [LinearOrderedField α] : List (FlowRecord α) :=
  (List.range 1000).map (fun i => sample_flow (sample_ip i) 1000000 1) ++
    List.replicate 9000 (sample_flow (sample_ip 1000) 1000000 1)

/-- A metrics record with TP = FP = 2^30 and TN = FN = 0: every counter fits an `int`, the
sum TP + FP = 2^31 does not. -/
def metrics_overflow : Metrics ℚ :=
  { (init_metrics : Metrics ℚ) with
    true_positives := 1073741824, false_positives := 1073741824 }

/-- A counter that a step raises by one exactly on the items satisfying `p` has
grown by the number of such items after a left fold. -/
theorem foldl_counter {β γ : Type} (step : β → γ → β) (proj : β → Int) (p : γ → Bool)
    (h : ∀ m f, proj (step m f) = proj m + if p f = true then 1 else 0) (m : β) (l : List γ) :
    proj (l.foldl step m) = proj m + (l.countP p : Int) := by
  induction l generalizing m with
  | nil => simp
  | cons f rest ih =>
    rw [List.foldl_cons, ih, h, List.countP_cons]
    split <;> simp_all
    omega

/-- A field that no step changes is unchanged by a left fold. -/
theorem foldl_unchanged {β γ δ : Type} (step : β → γ → β) (proj : β → δ)
    (h : ∀ m f, proj (step m f) = proj m) (m : β) (l : List γ) :
    proj (l.foldl step m) = proj m := by
  induction l generalizing m with
  | nil => rfl
  | cons f rest ih => rw [List.foldl_cons, ih, h]

theorem scan_blocklist_fst {α : Type} (src_ip : String) (bl : List (BlockedIP α)) (b : Int) :
    (scan_blocklist src_ip bl b).1 = decide (src_ip ∈ bl.map BlockedIP.ip) := by
  induction bl with
  | nil => simp [scan_blocklist]
  | cons e rest ih =>
    by_cases h : src_ip = e.ip
    · simp [scan_blocklist, h]
    · simp [scan_blocklist, h, ih]

theorem scan_blocklist_snd {α : Type} (src_ip : String) (bl : List (BlockedIP α)) (b : Int) :
    (scan_blocklist src_ip bl b).2 = b + if src_ip ∈ bl.map BlockedIP.ip then 1 else 0 := by
  induction bl with
  | nil => simp [scan_blocklist]
  | cons e rest ih =>
    by_cases h : src_ip = e.ip
    · simp [scan_blocklist, h]
    · simp [scan_blocklist, h, ih]

theorem any_beq_iff_mem (det : List String) (ip : String) :
    (det.any (fun d => ip == d)) = decide (ip ∈ det) := by
  induction det with
  | nil => simp
  | cons d rest ih =>
    by_cases h : ip = d <;> simp [h, ih]

section update_flow_fields

variable {α : Type} (det : List String) (bl : List (BlockedIP α)) (m : Metrics α)
  (f : FlowRecord α)

theorem update_flow_total : (update_flow det bl m f).total_flows = m.total_flows := by
  unfold update_flow
  by_cases h1 : f.is_attack = 0 <;> by_cases h2 : f.src_ip ∈ det <;>
    by_cases h3 : f.src_ip ∈ bl.map BlockedIP.ip <;>
    simp [h1, h2, h3, scan_blocklist_fst, any_beq_iff_mem]

theorem update_flow_ddos : (update_flow det bl m f).ddos_flows =
    m.ddos_flows + if decide (f.is_attack ≠ 0) = true then 1 else 0 := by
  unfold update_flow
  by_cases h1 : f.is_attack = 0 <;> by_cases h2 : f.src_ip ∈ det <;>
    by_cases h3 : f.src_ip ∈ bl.map BlockedIP.ip <;>
    simp [h1, h2, h3, scan_blocklist_fst, any_beq_iff_mem]

theorem update_flow_benign : (update_flow det bl m f).benign_flows =
    m.benign_flows + if decide (f.is_attack = 0) = true then 1 else 0 := by
  unfold update_flow
  by_cases h1 : f.is_attack = 0 <;> by_cases h2 : f.src_ip ∈ det <;>
    by_cases h3 : f.src_ip ∈ bl.map BlockedIP.ip <;>
    simp [h1, h2, h3, scan_blocklist_fst, any_beq_iff_mem]

theorem update_flow_tp : (update_flow det bl m f).true_positives =
    m.true_positives + if decide (f.is_attack ≠ 0 ∧ f.src_ip ∈ det) = true then 1 else 0 := by
  unfold update_flow
  by_cases h1 : f.is_attack = 0 <;> by_cases h2 : f.src_ip ∈ det <;>
    by_cases h3 : f.src_ip ∈ bl.map BlockedIP.ip <;>
    simp [h1, h2, h3, scan_blocklist_fst, any_beq_iff_mem]

theorem update_flow_fp : (update_flow det bl m f).false_positives =
    m.false_positives + if decide (f.is_attack = 0 ∧ f.src_ip ∈ det) = true then 1 else 0 := by
  unfold update_flow
  by_cases h1 : f.is_attack = 0 <;> by_cases h2 : f.src_ip ∈ det <;>
    by_cases h3 : f.src_ip ∈ bl.map BlockedIP.ip <;>
    simp [h1, h2, h3, scan_blocklist_fst, any_beq_iff_mem]

theorem update_flow_tn : (update_flow det bl m f).true_negatives =
    m.true_negatives + if decide (f.is_attack = 0 ∧ f.src_ip ∉ det) = true then 1 else 0 := by
  unfold update_flow
  by_cases h1 : f.is_attack = 0 <;> by_cases h2 : f.src_ip ∈ det <;>
    by_cases h3 : f.src_ip ∈ bl.map BlockedIP.ip <;>
    simp [h1, h2, h3, scan_blocklist_fst, any_beq_iff_mem]

theorem update_flow_fn : (update_flow det bl m f).false_negatives =
    m.false_negatives + if decide (f.is_attack ≠ 0 ∧ f.src_ip ∉ det) = true then 1 else 0 := by
  unfold update_flow
  by_cases h1 : f.is_attack = 0 <;> by_cases h2 : f.src_ip ∈ det <;>
    by_cases h3 : f.src_ip ∈ bl.map BlockedIP.ip <;>
    simp [h1, h2, h3, scan_blocklist_fst, any_beq_iff_mem]

theorem update_flow_blocked : (update_flow det bl m f).blocked_flows =
    m.blocked_flows + if decide (f.src_ip ∈ bl.map BlockedIP.ip) = true then 1 else 0 := by
  unfold update_flow
  by_cases h1 : f.is_attack = 0 <;> by_cases h2 : f.src_ip ∈ det <;>
    by_cases h3 : f.src_ip ∈ bl.map BlockedIP.ip <;>
    simp [h1, h2, h3, scan_blocklist_fst, scan_blocklist_snd, any_beq_iff_mem]

theorem update_flow_legit : (update_flow det bl m f).legitimate_blocked =
    m.legitimate_blocked +
      if decide (f.is_attack = 0 ∧ f.src_ip ∈ bl.map BlockedIP.ip) = true then 1 else 0 := by
  unfold update_flow
  by_cases h1 : f.is_attack = 0 <;> by_cases h2 : f.src_ip ∈ det <;>
    by_cases h3 : f.src_ip ∈ bl.map BlockedIP.ip <;>
    simp [h1, h2, h3, scan_blocklist_fst, any_beq_iff_mem]

end update_flow_fields

section update_metrics_fields

variable {α : Type} (m : Metrics α) (flows : List (FlowRecord α)) (alerts : List (Alert α))
  (bl : List (BlockedIP α))

theorem update_metrics_total :
    (update_metrics m flows alerts bl).total_flows = m.total_flows + (flows.length : Int) := by
  unfold update_metrics
  exact foldl_unchanged _ Metrics.total_flows (update_flow_total _ _) _ _

theorem update_metrics_ddos : (update_metrics m flows alerts bl).ddos_flows =
    m.ddos_flows + (flows.countP (fun f => decide (f.is_attack ≠ 0)) : Int) := by
  unfold update_metrics
  exact foldl_counter _ Metrics.ddos_flows _ (update_flow_ddos _ _) _ _

theorem update_metrics_benign : (update_metrics m flows alerts bl).benign_flows =
    m.benign_flows + (flows.countP (fun f => decide (f.is_attack = 0)) : Int) := by
  unfold update_metrics
  exact foldl_counter _ Metrics.benign_flows _ (update_flow_benign _ _) _ _

theorem update_metrics_tp : (update_metrics m flows alerts bl).true_positives =
    m.true_positives + (flows.countP (fun f =>
      decide (f.is_attack ≠ 0 ∧ f.src_ip ∈ detected_ips_loop alerts [])) : Int) := by
  unfold update_metrics
  exact foldl_counter _ Metrics.true_positives _ (update_flow_tp _ _) _ _

theorem update_metrics_fp : (update_metrics m flows alerts bl).false_positives =
    m.false_positives + (flows.countP (fun f =>
      decide (f.is_attack = 0 ∧ f.src_ip ∈ detected_ips_loop alerts [])) : Int) := by
  unfold update_metrics
  exact foldl_counter _ Metrics.false_positives _ (update_flow_fp _ _) _ _

theorem update_metrics_tn : (update_metrics m flows alerts bl).true_negatives =
    m.true_negatives + (flows.countP (fun f =>
      decide (f.is_attack = 0 ∧ f.src_ip ∉ detected_ips_loop alerts [])) : Int) := by
  unfold update_metrics
  exact foldl_counter _ Metrics.true_negatives _ (update_flow_tn _ _) _ _

theorem update_metrics_fn : (update_metrics m flows alerts bl).false_negatives =
    m.false_negatives + (flows.countP (fun f =>
      decide (f.is_attack ≠ 0 ∧ f.src_ip ∉ detected_ips_loop alerts [])) : Int) := by
  unfold update_metrics
  exact foldl_counter _ Metrics.false_negatives _ (update_flow_fn _ _) _ _

theorem update_metrics_blocked : (update_metrics m flows alerts bl).blocked_flows =
    m.blocked_flows + (flows.countP (fun f =>
      decide (f.src_ip ∈ bl.map BlockedIP.ip)) : Int) := by
  unfold update_metrics
  exact foldl_counter _ Metrics.blocked_flows _ (update_flow_blocked _ _) _ _

theorem update_metrics_legit : (update_metrics m flows alerts bl).legitimate_blocked =
    m.legitimate_blocked + (flows.countP (fun f =>
      decide (f.is_attack = 0 ∧ f.src_ip ∈ bl.map BlockedIP.ip)) : Int) := by
  unfold update_metrics
  exact foldl_counter _ Metrics.legitimate_blocked _ (update_flow_legit _ _) _ _

end update_metrics_fields

/-- Splitting a list along two Boolean tests: the four classes add up to the length. -/
theorem countP_four {γ : Type} (a d : γ → Prop) [DecidablePred a] [DecidablePred d]
    (l : List γ) :
    (l.countP (fun f => decide (¬ a f ∧ d f)) : Int) + l.countP (fun f => decide (a f ∧ d f))
      + l.countP (fun f => decide (a f ∧ ¬ d f)) + l.countP (fun f => decide (¬ a f ∧ ¬ d f))
      = l.length := by
  induction l with
  | nil => simp
  | cons f rest ih =>
    simp only [List.countP_cons, List.length_cons]
    by_cases h1 : a f <;> by_cases h2 : d f <;> simp [h1, h2] at ih ⊢ <;> omega

/-- Splitting a list along one Boolean test. -/
theorem countP_two {γ : Type} (a : γ → Prop) [DecidablePred a] (l : List γ) :
    (l.countP (fun f => decide (¬ a f)) : Int) + l.countP (fun f => decide (a f)) = l.length := by
  induction l with
  | nil => simp
  | cons f rest ih =>
    simp only [List.countP_cons, List.length_cons]
    by_cases h1 : a f <;> simp [h1] at ih ⊢ <;> omega

/-! ### The detected-IP table -/

theorem any_eq_beq_iff_mem (det : List String) (ip : String) :
    (det.any (fun d => d == ip)) = decide (ip ∈ det) := by
  induction det with
  | nil => simp
  | cons d rest ih =>
    by_cases h : d = ip
    · simp [h]
    · have h' : ¬ ip = d := fun e => h e.symm
      simp [h, h', ih]

theorem detected_nodup {α : Type} (alerts : List (Alert α)) (det : List String)
    (h : det.Nodup) : (detected_ips_loop alerts det).Nodup := by
  induction alerts generalizing det with
  | nil => simpa [detected_ips_loop] using h
  | cons a rest ih =>
    unfold detected_ips_loop
    split
    · rw [any_eq_beq_iff_mem]
      by_cases hm : a.src_ip ∈ det
      · simpa [hm] using ih det h
      · simp only [hm, decide_False, Bool.false_eq_true, if_false]
        apply ih
        rw [List.nodup_append]
        exact ⟨h, List.nodup_singleton _, by simpa [List.disjoint_singleton] using hm⟩
    · exact h

theorem detected_sub {α : Type} (alerts : List (Alert α)) (det : List String) :
    ∀ ip ∈ detected_ips_loop alerts det, ip ∈ det ∨ ip ∈ alerts.map Alert.src_ip := by
  induction alerts generalizing det with
  | nil => intro ip h; left; simpa [detected_ips_loop] using h
  | cons a rest ih =>
    intro ip
    unfold detected_ips_loop
    split
    · split
      · intro h
        rcases ih det ip h with h1 | h1
        · exact Or.inl h1
        · right; simp [List.mem_map] at h1 ⊢; exact Or.inr h1
      · intro h
        rcases ih _ ip h with h1 | h1
        · rcases List.mem_append.1 h1 with h2 | h2
          · exact Or.inl h2
          · right; simp at h2; simp [h2]
        · right; simp [List.mem_map] at h1 ⊢; exact Or.inr h1
    · intro h; exact Or.inl h

theorem detected_mono {α : Type} (alerts : List (Alert α)) (det : List String) :
    ∀ ip ∈ det, ip ∈ detected_ips_loop alerts det := by
  induction alerts generalizing det with
  | nil => intro ip h; simpa [detected_ips_loop] using h
  | cons a rest ih =>
    intro ip h
    unfold detected_ips_loop
    split
    · split
      · exact ih det ip h
      · exact ih _ ip (List.mem_append_left _ h)
    · exact h

theorem detected_full {α : Type} (alerts : List (Alert α)) (det : List String) :
    (∀ ip ∈ alerts.map Alert.src_ip, ip ∈ detected_ips_loop alerts det) ∨
      100 ≤ (detected_ips_loop alerts det).length := by
  induction alerts generalizing det with
  | nil => left; simp
  | cons a rest ih =>
    unfold detected_ips_loop
    split
    · rw [any_eq_beq_iff_mem]
      by_cases hm : a.src_ip ∈ det
      · simp only [hm, decide_True, if_true]
        rcases ih det with h1 | h1
        · left
          intro ip hip
          simp only [List.map_cons, List.mem_cons] at hip
          rcases hip with rfl | hip
          · exact detected_mono rest det _ hm
          · exact h1 ip hip
        · exact Or.inr h1
      · simp only [hm, decide_False, Bool.false_eq_true, if_false]
        rcases ih (det ++ [a.src_ip]) with h1 | h1
        · left
          intro ip hip
          simp only [List.map_cons, List.mem_cons] at hip
          rcases hip with rfl | hip
          · exact detected_mono rest _ _ (by simp)
          · exact h1 ip hip
        · exact Or.inr h1
    · right; omega

/-- With at most 100 distinct alert source IPs the table `detected_ips` holds
exactly the alert source IPs. -/
theorem detected_mem_iff {α : Type} (alerts : List (Alert α))
    (hd : (alerts.map Alert.src_ip).dedup.length ≤ 100) (ip : String) :
    ip ∈ detected_ips_loop alerts [] ↔ ip ∈ alerts.map Alert.src_ip := by
  constructor
  · intro h
    rcases detected_sub alerts [] ip h with h1 | h1
    · simp at h1
    · exact h1
  · intro h
    rcases detected_full alerts [] with h1 | h1
    · exact h1 ip h
    · have hnd : (detected_ips_loop alerts []).Nodup := detected_nodup alerts [] List.nodup_nil
      have hsub : (detected_ips_loop alerts []).toFinset ⊆ (alerts.map Alert.src_ip).toFinset := by
        intro x hx
        rw [List.mem_toFinset] at hx ⊢
        rcases detected_sub alerts [] x hx with h2 | h2
        · simp at h2
        · exact h2
      have hcard : (alerts.map Alert.src_ip).toFinset.card ≤
          (detected_ips_loop alerts []).toFinset.card := by
        rw [List.card_toFinset, List.card_toFinset, hnd.dedup]
        omega
      have heq := Finset.eq_of_subset_of_card_le hsub hcard
      have : ip ∈ (detected_ips_loop alerts []).toFinset := by
        rw [heq, List.mem_toFinset]; exact h
      exact List.mem_toFinset.1 this

/-! ## Claims on the metrics accumulator -/

theorem update_metrics_confusion_sum {α : Type} (m : Metrics α) (flows : List (FlowRecord α))
    (alerts : List (Alert α)) (bl : List (BlockedIP α)) (h : m.confusion_sum_ok) :
    (update_metrics m flows alerts bl).confusion_sum_ok := by
  have h4 := countP_four (fun f : FlowRecord α => f.is_attack = 0)
    (fun f => f.src_ip ∈ detected_ips_loop alerts []) flows
  unfold Metrics.confusion_sum_ok at h ⊢
  rw [update_metrics_tp, update_metrics_fp, update_metrics_tn, update_metrics_fn,
    update_metrics_total]
  simp only [ne_eq] at h4 ⊢
  omega

theorem update_metrics_label_sum {α : Type} (m : Metrics α) (flows : List (FlowRecord α))
    (alerts : List (Alert α)) (bl : List (BlockedIP α)) (h : m.label_sum_ok) :
    (update_metrics m flows alerts bl).label_sum_ok := by
  have h2 := countP_two (fun f : FlowRecord α => f.is_attack = 0) flows
  unfold Metrics.label_sum_ok at h ⊢
  rw [update_metrics_ddos, update_metrics_benign, update_metrics_total]
  simp only [ne_eq] at h2 ⊢
  omega

theorem aggregate_confusion_sum {α : Type} [Add α] (agg w : Metrics α)
    (h1 : agg.confusion_sum_ok) (h2 : w.confusion_sum_ok) :
    (aggregate_metrics agg w).confusion_sum_ok := by
  unfold Metrics.confusion_sum_ok at *
  simp only [aggregate_metrics]
  omega

theorem aggregate_label_sum {α : Type} [Add α] (agg w : Metrics α)
    (h1 : agg.label_sum_ok) (h2 : w.label_sum_ok) :
    (aggregate_metrics agg w).label_sum_ok := by
  unfold Metrics.label_sum_ok at *
  simp only [aggregate_metrics]
  omega

/-- An invariant that holds initially and is kept by every aggregation step
holds after folding in any list of worker records that satisfy it. -/
theorem foldl_aggregate_inv {α : Type} [Add α] (inv : Metrics α → Prop)
    (hstep : ∀ agg w, inv agg → inv w → inv (aggregate_metrics agg w))
    (ws : List (Metrics α)) (agg : Metrics α) (h0 : inv agg) (hw : ∀ w ∈ ws, inv w) :
    inv (ws.foldl aggregate_metrics agg) := by
  induction ws generalizing agg with
  | nil => exact h0
  | cons w rest ih =>
    rw [List.foldl_cons]
    exact ih _ (hstep agg w h0 (hw w (by simp))) (fun x hx => hw x (by simp [hx]))

/-- C1: `TP + FP + TN + FN = total_flows` holds after `init_metrics`, is preserved by
`update_metrics` for every window, alert list and blocklist, is preserved by one
aggregation step of the coordinator, and hence holds for the coordinator's record after
any sequence of worker records that satisfy it. -/
theorem confusion_sum_invariant {α : Type} [Zero α] [Add α] :
    (init_metrics : Metrics α).confusion_sum_ok ∧
    (∀ (m : Metrics α) (flows : List (FlowRecord α)) (alerts : List (Alert α))
        (bl : List (BlockedIP α)),
        m.confusion_sum_ok → (update_metrics m flows alerts bl).confusion_sum_ok) ∧
    (∀ agg w : Metrics α, agg.confusion_sum_ok → w.confusion_sum_ok →
        (aggregate_metrics agg w).confusion_sum_ok) ∧
    (∀ ws : List (Metrics α), (∀ w ∈ ws, w.confusion_sum_ok) →
        (ws.foldl aggregate_metrics init_metrics).confusion_sum_ok) := by
  have h0 : (init_metrics : Metrics α).confusion_sum_ok := by
    simp [Metrics.confusion_sum_ok, init_metrics]
  exact ⟨h0, update_metrics_confusion_sum, aggregate_confusion_sum, fun ws hw =>
    foldl_aggregate_inv _ aggregate_confusion_sum ws _ h0 hw⟩

/-- C1 evaluated: the invariant after one update from the initial record, and after the
coordinator has folded that worker record and `metrics_sample` into its own. -/
theorem confusion_sum_invariant_witness :
    (update_metrics (init_metrics : Metrics ℚ) window_small [sample_alert "10.0.0.1"]
        []).confusion_sum_ok ∧
    ([update_metrics (init_metrics : Metrics ℚ) window_small [sample_alert "10.0.0.1"] [],
        metrics_sample].foldl aggregate_metrics init_metrics).confusion_sum_ok :=
  have hu := (@confusion_sum_invariant ℚ _ _).2.1 init_metrics window_small
    [sample_alert "10.0.0.1"] [] (@confusion_sum_invariant ℚ _ _).1
  ⟨hu, (@confusion_sum_invariant ℚ _ _).2.2.2 _ (by
    intro w hw
    simp only [List.mem_cons, List.mem_singleton, List.not_mem_nil, or_false] at hw
    rcases hw with rfl | rfl
    · exact hu
    · decide)⟩

/-- C2: `ddos_flows + benign_flows = total_flows` holds after `init_metrics`, is preserved
by `update_metrics`, by one aggregation step of the coordinator, and hence by the
aggregation of any sequence of worker records that satisfy it. -/
theorem label_sum_invariant {α : Type} [Zero α] [Add α] :
    (init_metrics : Metrics α).label_sum_ok ∧
    (∀ (m : Metrics α) (flows : List (FlowRecord α)) (alerts : List (Alert α))
        (bl : List (BlockedIP α)),
        m.label_sum_ok → (update_metrics m flows alerts bl).label_sum_ok) ∧
    (∀ agg w : Metrics α, agg.label_sum_ok → w.label_sum_ok →
        (aggregate_metrics agg w).label_sum_ok) ∧
    (∀ ws : List (Metrics α), (∀ w ∈ ws, w.label_sum_ok) →
        (ws.foldl aggregate_metrics init_metrics).label_sum_ok) := by
  have h0 : (init_metrics : Metrics α).label_sum_ok := by
    simp [Metrics.label_sum_ok, init_metrics]
  exact ⟨h0, update_metrics_label_sum, aggregate_label_sum, fun ws hw =>
    foldl_aggregate_inv _ aggregate_label_sum ws _ h0 hw⟩

/-- C2 evaluated: the invariant after one update from the initial record, and after the
coordinator has folded that worker record and `metrics_sample` into its own. -/
theorem label_sum_invariant_witness :
    (update_metrics (init_metrics : Metrics ℚ) window_small [sample_alert "10.0.0.1"]
        []).label_sum_ok ∧
    ([update_metrics (init_metrics : Metrics ℚ) window_small [sample_alert "10.0.0.1"] [],
        metrics_sample].foldl aggregate_metrics init_metrics).label_sum_ok :=
  have hu := (@label_sum_invariant ℚ _ _).2.1 init_metrics window_small
    [sample_alert "10.0.0.1"] [] (@label_sum_invariant ℚ _ _).1
  ⟨hu, (@label_sum_invariant ℚ _ _).2.2.2 _ (by
    intro w hw
    simp only [List.mem_cons, List.mem_singleton, List.not_mem_nil, or_false] at hw
    rcases hw with rfl | rfl
    · exact hu
    · decide)⟩

/-- C3 as stated fails: `alerts_101` carries 101 distinct source IPs and the attack flow of
`window_late` comes from the source IP of its last alert, so the claim counts it as a true
positive; the table `detected_ips` stops at 100 entries and the code counts a false
negative. -/
theorem update_metrics_cells_counterexample :
    window_late.countP (fun f =>
        decide (f.is_attack ≠ 0 ∧ f.src_ip ∈ alerts_101.map Alert.src_ip)) = 1 ∧
    (update_metrics init_metrics window_late alerts_101 []).true_positives = 0 ∧
    (update_metrics init_metrics window_late alerts_101 []).false_negatives = 1 := by
  refine ⟨?_, ?_, ?_⟩
  · set_option maxRecDepth 100000 in decide
  · set_option maxRecDepth 100000 in decide
  · set_option maxRecDepth 100000 in decide

/-- C3 (amended): for every window, blocklist and alert list with at most 100 distinct
source IPs, `update_metrics` adds to TP, FP, TN and FN exactly the number of flows of the
window with (is_attack, was_detected) equal to (true, true), (false, true),
(false, false) and (true, false), where was_detected holds iff the flow's source IP is
the source IP of some alert of the list. -/
theorem update_metrics_cells {α : Type} (m : Metrics α) (flows : List (FlowRecord α))
    (alerts : List (Alert α)) (bl : List (BlockedIP α))
    (hd : (alerts.map Alert.src_ip).dedup.length ≤ 100) :
    (update_metrics m flows alerts bl).true_positives = m.true_positives +
      (flows.countP (fun f =>
        decide (f.is_attack ≠ 0 ∧ f.src_ip ∈ alerts.map Alert.src_ip)) : Int) ∧
    (update_metrics m flows alerts bl).false_positives = m.false_positives +
      (flows.countP (fun f =>
        decide (f.is_attack = 0 ∧ f.src_ip ∈ alerts.map Alert.src_ip)) : Int) ∧
    (update_metrics m flows alerts bl).true_negatives = m.true_negatives +
      (flows.countP (fun f =>
        decide (f.is_attack = 0 ∧ f.src_ip ∉ alerts.map Alert.src_ip)) : Int) ∧
    (update_metrics m flows alerts bl).false_negatives = m.false_negatives +
      (flows.countP (fun f =>
        decide (f.is_attack ≠ 0 ∧ f.src_ip ∉ alerts.map Alert.src_ip)) : Int) := by
  have hiff := detected_mem_iff alerts hd
  refine ⟨?_, ?_, ?_, ?_⟩
  · rw [update_metrics_tp]; simp only [hiff]
  · rw [update_metrics_fp]; simp only [hiff]
  · rw [update_metrics_tn]; simp only [hiff]
  · rw [update_metrics_fn]; simp only [hiff]

/-- C3 (amended) evaluated on `window_small` with one alert for `10.0.0.1`. -/
theorem update_metrics_cells_witness :
    ([(sample_alert "10.0.0.1" : Alert ℚ)].map Alert.src_ip).dedup.length ≤ 100 ∧
    (update_metrics init_metrics window_small [(sample_alert "10.0.0.1" : Alert ℚ)]
        []).true_positives = 0 + (1 : Nat) ∧
    (update_metrics init_metrics window_small [(sample_alert "10.0.0.1" : Alert ℚ)]
        []).true_negatives = 0 + (2 : Nat) :=
  have h := update_metrics_cells init_metrics window_small
    [(sample_alert "10.0.0.1" : Alert ℚ)] [] (by decide)
  ⟨by decide, h.1, h.2.2.1⟩

/-- C4: for every window and blocklist, `update_metrics` raises `blocked_flows` by the
number of flows whose source IP occurs in the blocklist (one per flow, however often the
list holds the IP) and `legitimate_blocked` by the number of those flows that are not
attacks; the four confusion-matrix cells are the same for any two blocklists. -/
theorem update_metrics_blocking {α : Type} (m : Metrics α) (flows : List (FlowRecord α))
    (alerts : List (Alert α)) (bl : List (BlockedIP α)) :
    (update_metrics m flows alerts bl).blocked_flows = m.blocked_flows +
      (flows.countP (fun f => decide (f.src_ip ∈ bl.map BlockedIP.ip)) : Int) ∧
    (update_metrics m flows alerts bl).legitimate_blocked = m.legitimate_blocked +
      (flows.countP (fun f =>
        decide (f.is_attack = 0 ∧ f.src_ip ∈ bl.map BlockedIP.ip)) : Int) ∧
    (∀ bl2 : List (BlockedIP α),
      (update_metrics m flows alerts bl).true_positives =
        (update_metrics m flows alerts bl2).true_positives ∧
      (update_metrics m flows alerts bl).false_positives =
        (update_metrics m flows alerts bl2).false_positives ∧
      (update_metrics m flows alerts bl).true_negatives =
        (update_metrics m flows alerts bl2).true_negatives ∧
      (update_metrics m flows alerts bl).false_negatives =
        (update_metrics m flows alerts bl2).false_negatives) := by
  refine ⟨update_metrics_blocked _ _ _ _, update_metrics_legit _ _ _ _, fun bl2 => ?_⟩
  simp only [update_metrics_tp, update_metrics_fp, update_metrics_tn, update_metrics_fn,
    and_self]

/-- The guarded quotient `(den > 0) ? (double)num / den : 0.0` of two non-negative
counters is the exact quotient, and 0 when the denominator is 0. -/
theorem guarded_quotient {α : Type} [LinearOrderedField α] (num den : Int) (hden : 0 ≤ den) :
    (if den > 0 then (num : α) / (den : α) else 0) =
      if den = 0 then 0 else (num : α) / (den : α) := by
  by_cases h : den = 0
  · simp [h]
  · have h2 : den > 0 := by omega
    simp [h, h2]

theorem guarded_quotient_nonneg {α : Type} [LinearOrderedField α] (num den : Int)
    (hnum : 0 ≤ num) (hden : 0 ≤ den) :
    (0 : α) ≤ if den > 0 then (num : α) / (den : α) else 0 := by
  split
  · exact div_nonneg (by exact_mod_cast hnum) (by exact_mod_cast hden)
  · exact le_refl _

/-- A sum in the range of `int` is not changed by the wrap-around. -/
theorem int_wrap_eq (x : Int) (h0 : -2147483648 ≤ x) (h1 : x < 2147483648) :
    int_wrap x = x := by
  unfold int_wrap
  omega

/-- C5 as stated fails: with TP = FP = 2^30, counters that fit an `int`, the sum TP + FP
computed in `int` is -2^31, the guard `tp + fp > 0` fails and the precision returned is 0,
not TP/(TP+FP) = 1/2; F1 and the accuracy are 0 as well. -/
theorem calculate_final_metrics_overflow_counterexample :
    (0 ≤ metrics_overflow.true_positives ∧ 0 ≤ metrics_overflow.false_positives ∧
      0 ≤ metrics_overflow.true_negatives ∧ 0 ≤ metrics_overflow.false_negatives) ∧
    (metrics_overflow.true_positives < 2147483648 ∧
      metrics_overflow.false_positives < 2147483648) ∧
    (metrics_overflow.true_positives : ℚ) /
      ((metrics_overflow.true_positives : ℚ) + (metrics_overflow.false_positives : ℚ)) = 1 / 2 ∧
    (calculate_final_metrics metrics_overflow).precision_v = 0 ∧
    (calculate_final_metrics metrics_overflow).f1_v = 0 ∧
    (calculate_final_metrics metrics_overflow).accuracy_v = 0 := by
  refine ⟨by decide, by decide, ?_, ?_, ?_, ?_⟩ <;>
    norm_num [calculate_final_metrics, metrics_overflow, init_metrics, int_wrap]

/-- C5 (amended): for a metrics record with non-negative counters whose sum
TP + TN + FP + FN is below 2^31, so that no `int` sum overflows,
`calculate_final_metrics` returns in exact arithmetic (any ordered field, in particular
the rationals) precision = TP/(TP+FP), recall = TP/(TP+FN), F1 = 2PR/(P+R),
FPR = FP/(FP+TN) and accuracy = (TP+TN)/(TP+TN+FP+FN), each being 0 when its denominator
is 0. -/
theorem calculate_final_metrics_exact {α : Type} [LinearOrderedField α] (m : Metrics α)
    (htp : 0 ≤ m.true_positives) (hfp : 0 ≤ m.false_positives)
    (htn : 0 ≤ m.true_negatives) (hfn : 0 ≤ m.false_negatives)
    (hsum : m.true_positives + m.true_negatives + m.false_positives + m.false_negatives <
      2147483648) :
    (calculate_final_metrics m).precision_v =
      (if m.true_positives + m.false_positives = 0 then 0
       else (m.true_positives : α) / ((m.true_positives : α) + (m.false_positives : α))) ∧
    (calculate_final_metrics m).recall_v =
      (if m.true_positives + m.false_negatives = 0 then 0
       else (m.true_positives : α) / ((m.true_positives : α) + (m.false_negatives : α))) ∧
    (calculate_final_metrics m).f1_v =
      (if (calculate_final_metrics m).precision_v + (calculate_final_metrics m).recall_v = 0
       then 0
       else 2 * (calculate_final_metrics m).precision_v * (calculate_final_metrics m).recall_v /
         ((calculate_final_metrics m).precision_v + (calculate_final_metrics m).recall_v)) ∧
    (calculate_final_metrics m).fpr_v =
      (if m.false_positives + m.true_negatives = 0 then 0
       else (m.false_positives : α) / ((m.false_positives : α) + (m.true_negatives : α))) ∧
    (calculate_final_metrics m).accuracy_v =
      (if m.true_positives + m.true_negatives + m.false_positives + m.false_negatives = 0 then 0
       else ((m.true_positives : α) + (m.true_negatives : α)) /
         ((m.true_positives : α) + (m.true_negatives : α) + (m.false_positives : α) +
           (m.false_negatives : α))) := by
  have w1 : int_wrap (m.true_positives + m.false_positives) =
      m.true_positives + m.false_positives := int_wrap_eq _ (by omega) (by omega)
  have w2 : int_wrap (m.true_positives + m.false_negatives) =
      m.true_positives + m.false_negatives := int_wrap_eq _ (by omega) (by omega)
  have w3 : int_wrap (m.false_positives + m.true_negatives) =
      m.false_positives + m.true_negatives := int_wrap_eq _ (by omega) (by omega)
  have w4 : int_wrap (m.true_positives + m.true_negatives) =
      m.true_positives + m.true_negatives := int_wrap_eq _ (by omega) (by omega)
  have w5 : int_wrap (m.true_positives + m.true_negatives + m.false_positives) =
      m.true_positives + m.true_negatives + m.false_positives :=
    int_wrap_eq _ (by omega) (by omega)
  have w6 : int_wrap (m.true_positives + m.true_negatives + m.false_positives +
      m.false_negatives) =
      m.true_positives + m.true_negatives + m.false_positives + m.false_negatives :=
    int_wrap_eq _ (by omega) (by omega)
  refine ⟨?_, ?_, ?_, ?_, ?_⟩
  · have := @guarded_quotient α _ m.true_positives (m.true_positives + m.false_positives)
      (by omega)
    simpa [calculate_final_metrics, w1] using this
  · have := @guarded_quotient α _ m.true_positives (m.true_positives + m.false_negatives)
      (by omega)
    simpa [calculate_final_metrics, w2] using this
  · have hp := @guarded_quotient_nonneg α _ m.true_positives
      (m.true_positives + m.false_positives) htp (by omega)
    have hr := @guarded_quotient_nonneg α _ m.true_positives
      (m.true_positives + m.false_negatives) htp (by omega)
    simp only [calculate_final_metrics, w1, w2]
    by_cases h : (if m.true_positives + m.false_positives > 0 then
        (m.true_positives : α) / ((m.true_positives + m.false_positives : Int) : α) else 0) +
        (if m.true_positives + m.false_negatives > 0 then
        (m.true_positives : α) / ((m.true_positives + m.false_negatives : Int) : α) else 0) = 0
    · rw [if_pos h, if_neg (by rw [h]; exact lt_irrefl _)]
    · rw [if_neg h, if_pos (lt_of_le_of_ne (add_nonneg hp hr) (Ne.symm h))]
  · have := @guarded_quotient α _ m.false_positives (m.false_positives + m.true_negatives)
      (by omega)
    simpa [calculate_final_metrics, w3] using this
  · have := @guarded_quotient α _ (m.true_positives + m.true_negatives)
      (m.true_positives + m.true_negatives + m.false_positives + m.false_negatives) (by omega)
    simpa [calculate_final_metrics, w4, w5, w6] using this

/-- C5 (amended) evaluated on `metrics_sample` (TP = 3, FP = 1, TN = 5, FN = 1). -/
theorem calculate_final_metrics_exact_witness :
    (0 ≤ metrics_sample.true_positives ∧ 0 ≤ metrics_sample.false_positives ∧
      0 ≤ metrics_sample.true_negatives ∧ 0 ≤ metrics_sample.false_negatives) ∧
    metrics_sample.true_positives + metrics_sample.true_negatives +
      metrics_sample.false_positives + metrics_sample.false_negatives < 2147483648 ∧
    (calculate_final_metrics metrics_sample).precision_v = 3 / 4 ∧
    (calculate_final_metrics metrics_sample).recall_v = 3 / 4 ∧
    (calculate_final_metrics metrics_sample).f1_v = 3 / 4 ∧
    (calculate_final_metrics metrics_sample).fpr_v = 1 / 6 ∧
    (calculate_final_metrics metrics_sample).accuracy_v = 4 / 5 := by
  obtain ⟨h1, h2, h3, h4, h5⟩ := calculate_final_metrics_exact metrics_sample
    (by decide) (by decide) (by decide) (by decide) (by decide)
  have e1 : (calculate_final_metrics metrics_sample).precision_v = 3 / 4 := by
    rw [h1]; norm_num [metrics_sample]
  have e2 : (calculate_final_metrics metrics_sample).recall_v = 3 / 4 := by
    rw [h2]; norm_num [metrics_sample]
  refine ⟨by decide, by decide, e1, e2, ?_, ?_, ?_⟩
  · rw [h3, e1, e2]; norm_num
  · rw [h4]; norm_num [metrics_sample]
  · rw [h5]; norm_num [metrics_sample]

/-! ## The per-IP aggregation tables -/

section tally_theory

variable {α σ : Type} (key : σ → String) (upd : FlowRecord α → σ → σ)
  (fresh : FlowRecord α → σ)

theorem update_first_none (u : σ → σ) (ip : String) (table : List σ)
    (h : ip ∉ table.map key) : update_first key u ip table = none := by
  induction table with
  | nil => rfl
  | cons e rest ih =>
    simp only [List.map_cons, List.mem_cons, not_or] at h
    have h1 : ¬ key e = ip := fun x => h.1 x.symm
    simp [update_first, h1, ih h.2]

theorem update_first_some (u : σ → σ) (ip : String) (table : List σ)
    (hnd : (table.map key).Nodup) (h : ip ∈ table.map key) :
    update_first key u ip table =
      some (table.map (fun e => if key e = ip then u e else e)) := by
  induction table with
  | nil => simp at h
  | cons e rest ih =>
    simp only [List.map_cons, List.nodup_cons] at hnd
    by_cases h1 : key e = ip
    · have hrest : rest.map (fun e => if key e = ip then u e else e) = rest := by
        conv => rhs; rw [← List.map_id rest]
        apply List.map_congr_left
        intro x hx
        have : key x ≠ ip := by
          intro hx2
          exact hnd.1 (by rw [h1, ← hx2]; exact List.mem_map_of_mem key hx)
        simp [this]
      simp [update_first, h1, hrest]
    · have h2 : ip ∈ rest.map key := by
        simp only [List.map_cons, List.mem_cons] at h
        rcases h with h | h
        · exact absurd h.symm h1
        · exact h
      simp [update_first, h1, ih hnd.2 h2]

theorem tally_eq (table : List σ) (f : FlowRecord α) (hnd : (table.map key).Nodup) :
    tally key upd fresh table f =
      if f.src_ip ∈ table.map key then
        table.map (fun e => if key e = f.src_ip then upd f e else e)
      else if table.length < MAX_UNIQUE_IPS then table ++ [fresh f] else table := by
  unfold tally
  by_cases h : f.src_ip ∈ table.map key
  · rw [update_first_some key _ _ _ hnd h, if_pos h]
  · rw [update_first_none key _ _ _ h, if_neg h]

theorem fold_entry_concat (fs : List (FlowRecord α)) (g : FlowRecord α) :
    fold_entry upd fresh (fs ++ [g]) =
      match fold_entry upd fresh fs with
      | none => some (fresh g)
      | some e => some (upd g e) := by
  cases fs with
  | nil => rfl
  | cons f rest => simp [fold_entry, List.foldl_append]

theorem fold_entry_ne_nil (fs : List (FlowRecord α)) (e : σ)
    (h : fold_entry upd fresh fs = some e) : fs ≠ [] := by
  intro h0
  rw [h0] at h
  simp [fold_entry] at h

theorem TableInv.key_mem {table : List σ} {seen : List (FlowRecord α)}
    (inv : TableInv key upd fresh table seen) :
    ∀ ip ∈ table.map key, ip ∈ seen.map FlowRecord.src_ip := by
  intro ip hip
  obtain ⟨e, he, rfl⟩ := List.mem_map.1 hip
  have hne := fold_entry_ne_nil upd fresh _ e (inv.entry e he)
  obtain ⟨f, hf⟩ := List.exists_mem_of_ne_nil _ hne
  rw [List.mem_filter] at hf
  exact List.mem_map.2 ⟨f, hf.1, by simpa using hf.2⟩

theorem TableInv.nil : TableInv key upd fresh ([] : List σ) ([] : List (FlowRecord α)) where
  nodup := by simp
  entry := by simp
  complete := by simp
  bounded := by simp
  ordered := by simp

theorem indexOf_concat_of_mem (l : List String) (a b : String) (h : a ∈ l) :
    (l ++ [b]).indexOf a = l.indexOf a :=
  List.indexOf_append_of_mem h

theorem indexOf_concat_self (l : List String) (b : String) (h : b ∉ l) :
    (l ++ [b]).indexOf b = l.length := by
  rw [List.indexOf_append_of_not_mem h]
  simp

theorem filter_concat_eq (seen : List (FlowRecord α)) (f : FlowRecord α) (ip : String)
    (h : f.src_ip = ip) :
    (seen ++ [f]).filter (fun g => decide (g.src_ip = ip)) =
      seen.filter (fun g => decide (g.src_ip = ip)) ++ [f] := by
  simp [List.filter_append, h]

theorem filter_concat_ne (seen : List (FlowRecord α)) (f : FlowRecord α) (ip : String)
    (h : f.src_ip ≠ ip) :
    (seen ++ [f]).filter (fun g => decide (g.src_ip = ip)) =
      seen.filter (fun g => decide (g.src_ip = ip)) := by
  simp [List.filter_append, h]

/-- One aggregation step keeps the table invariant. -/
theorem TableInv.step (hu : ∀ f e, key (upd f e) = key e) (hf : ∀ f, key (fresh f) = f.src_ip)
    {table : List σ} {seen : List (FlowRecord α)} (inv : TableInv key upd fresh table seen)
    (f : FlowRecord α) :
    TableInv key upd fresh (tally key upd fresh table f) (seen ++ [f]) := by
  have hkeys := inv.key_mem
  have hord : (table.map key).Pairwise (fun a b =>
      ((seen ++ [f]).map FlowRecord.src_ip).indexOf a <
        ((seen ++ [f]).map FlowRecord.src_ip).indexOf b) := by
    refine inv.ordered.imp_of_mem ?_
    intro a b ha hb hab
    simp only [List.map_append, List.map_cons, List.map_nil]
    rw [indexOf_concat_of_mem _ _ _ (hkeys a ha), indexOf_concat_of_mem _ _ _ (hkeys b hb)]
    exact hab
  rw [tally_eq key upd fresh table f inv.nodup]
  by_cases hin : f.src_ip ∈ table.map key
  · rw [if_pos hin]
    have hmap : (table.map (fun e => if key e = f.src_ip then upd f e else e)).map key =
        table.map key := by
      rw [List.map_map]
      apply List.map_congr_left
      intro e _
      by_cases h : key e = f.src_ip <;> simp [h, hu]
    refine ⟨by rw [hmap]; exact inv.nodup, ?_, ?_, by simpa using inv.bounded,
      by rw [hmap]; exact hord⟩
    · intro e2 he2
      obtain ⟨e, he, rfl⟩ := List.mem_map.1 he2
      by_cases h : key e = f.src_ip
      · simp only [h, if_true, hu]
        rw [filter_concat_eq seen f _ rfl, fold_entry_concat]
        have := inv.entry e he
        rw [h] at this
        rw [this]
      · simp only [h, if_false]
        rw [filter_concat_ne seen f _ (fun x => h x.symm)]
        exact inv.entry e he
    · intro hlen g hg
      rw [hmap]
      rw [List.length_map] at hlen
      rcases List.mem_append.1 hg with h | h
      · exact inv.complete hlen g h
      · simp only [List.mem_singleton] at h
        rw [h]; exact hin
  · rw [if_neg hin]
    by_cases hlen : table.length < MAX_UNIQUE_IPS
    · rw [if_pos hlen]
      have hnew : f.src_ip ∉ seen.map FlowRecord.src_ip := by
        intro hmem
        obtain ⟨g, hg, hgip⟩ := List.mem_map.1 hmem
        exact hin (hgip ▸ inv.complete hlen g hg)
      refine ⟨?_, ?_, ?_, ?_, ?_⟩
      · rw [List.map_append, List.nodup_append]
        refine ⟨inv.nodup, by simp, ?_⟩
        simpa [List.disjoint_singleton, hf] using hin
      · intro e he
        rcases List.mem_append.1 he with h | h
        · have hne : f.src_ip ≠ key e := fun x => hin (x ▸ List.mem_map_of_mem key h)
          rw [filter_concat_ne seen f _ hne]
          exact inv.entry e h
        · simp only [List.mem_singleton] at h
          subst h
          rw [hf, filter_concat_eq seen f _ rfl]
          have hempty : seen.filter (fun g => decide (g.src_ip = f.src_ip)) = [] := by
            rw [List.filter_eq_nil_iff]
            intro g hg
            simp only [decide_eq_true_eq]
            intro hgip
            exact hnew (hgip ▸ List.mem_map_of_mem FlowRecord.src_ip hg)
          rw [hempty]
          rfl
      · intro _ g hg
        rw [List.map_append, List.mem_append]
        rcases List.mem_append.1 hg with h | h
        · exact Or.inl (inv.complete hlen g h)
        · simp only [List.mem_singleton] at h
          right; simp [h, hf]
      · simp only [List.length_append, List.length_singleton]
        omega
      · have hk : List.map key (table ++ [fresh f]) = table.map key ++ [f.src_ip] := by
          simp [hf]
        rw [hk, List.pairwise_append]
        refine ⟨hord, by simp, ?_⟩
        intro a ha b hb
        simp only [List.mem_singleton] at hb
        subst hb
        simp only [List.map_append, List.map_cons, List.map_nil]
        rw [indexOf_concat_of_mem _ _ _ (hkeys a ha), indexOf_concat_self _ _ hnew]
        exact List.indexOf_lt_length.2 (hkeys a ha)
    · rw [if_neg hlen]
      refine ⟨inv.nodup, ?_, fun h => absurd h hlen, inv.bounded, hord⟩
      intro e he
      have hne : f.src_ip ≠ key e := fun x => hin (x ▸ List.mem_map_of_mem key he)
      rw [filter_concat_ne seen f _ hne]
      exact inv.entry e he

/-- The aggregation loop started on a table that satisfies the invariant ends on one
that satisfies it. -/
theorem TableInv.foldl (hu : ∀ f e, key (upd f e) = key e)
    (hf : ∀ f, key (fresh f) = f.src_ip) (flows : List (FlowRecord α)) :
    ∀ (table : List σ) (seen : List (FlowRecord α)), TableInv key upd fresh table seen →
      TableInv key upd fresh (flows.foldl (tally key upd fresh) table) (seen ++ flows) := by
  induction flows with
  | nil => intro table seen inv; simpa using inv
  | cons f rest ih =>
    intro table seen inv
    have := ih _ _ (inv.step key upd fresh hu hf f)
    simpa using this

/-- The table built from the empty one over a window satisfies the invariant for the
whole window. -/
theorem TableInv.aggregate (hu : ∀ f e, key (upd f e) = key e)
    (hf : ∀ f, key (fresh f) = f.src_ip) (flows : List (FlowRecord α)) :
    TableInv key upd fresh (flows.foldl (tally key upd fresh) []) flows := by
  have := TableInv.foldl key upd fresh hu hf flows [] [] (TableInv.nil key upd fresh)
  simpa using this

/-- The table has an entry for every source IP of a window with at most
`MAX_UNIQUE_IPS` distinct source IPs. -/
theorem TableInv.all_tracked {table : List σ} {seen : List (FlowRecord α)}
    (inv : TableInv key upd fresh table seen) (hd : distinct_ips seen ≤ MAX_UNIQUE_IPS) :
    ∀ ip ∈ seen.map FlowRecord.src_ip, ip ∈ table.map key := by
  intro ip hip
  by_cases hlen : table.length < MAX_UNIQUE_IPS
  · obtain ⟨g, hg, rfl⟩ := List.mem_map.1 hip
    exact inv.complete hlen g hg
  · have hsub : (table.map key).toFinset ⊆ (seen.map FlowRecord.src_ip).toFinset := by
      intro x hx
      rw [List.mem_toFinset] at hx ⊢
      exact inv.key_mem key upd fresh x hx
    have hcard : (seen.map FlowRecord.src_ip).toFinset.card ≤ (table.map key).toFinset.card := by
      rw [List.card_toFinset, List.card_toFinset, inv.nodup.dedup, List.length_map]
      unfold distinct_ips at hd
      omega
    have heq := Finset.eq_of_subset_of_card_le hsub hcard
    have : ip ∈ (table.map key).toFinset := by
      rw [heq, List.mem_toFinset]; exact hip
    exact List.mem_toFinset.1 this

/-- The table holds `min d MAX_UNIQUE_IPS` entries, `d` the number of distinct source IPs. -/
theorem TableInv.length_eq {table : List σ} {seen : List (FlowRecord α)}
    (inv : TableInv key upd fresh table seen) :
    table.length = min (distinct_ips seen) MAX_UNIQUE_IPS := by
  have hsub : (table.map key).toFinset ⊆ (seen.map FlowRecord.src_ip).toFinset := by
    intro x hx
    rw [List.mem_toFinset] at hx ⊢
    exact inv.key_mem key upd fresh x hx
  have h1 : table.length ≤ distinct_ips seen := by
    have := Finset.card_le_card hsub
    rw [List.card_toFinset, List.card_toFinset, inv.nodup.dedup, List.length_map] at this
    exact this
  have h2 := inv.bounded
  by_cases hlen : table.length < MAX_UNIQUE_IPS
  · have hsup : (seen.map FlowRecord.src_ip).toFinset ⊆ (table.map key).toFinset := by
      intro x hx
      rw [List.mem_toFinset] at hx ⊢
      obtain ⟨g, hg, rfl⟩ := List.mem_map.1 hx
      exact inv.complete hlen g hg
    have := Finset.card_le_card hsup
    rw [List.card_toFinset, List.card_toFinset, inv.nodup.dedup, List.length_map] at this
    unfold distinct_ips
    unfold distinct_ips at h1
    omega
  · omega

/-- The entry of a tracked IP aggregates exactly the flows of the window from that IP. -/
theorem TableInv.entry_of_key {table : List σ} {seen : List (FlowRecord α)}
    (inv : TableInv key upd fresh table seen) (e : σ) (he : e ∈ table) (ip : String)
    (hip : key e = ip) :
    fold_entry upd fresh (seen.filter (fun f => decide (f.src_ip = ip))) = some e := by
  subst hip
  exact inv.entry e he

end tally_theory

/-! ### The argmax loop -/

/-- The loop of detection.c 129-136 over any sequence of counts `c`: after the indices
`1 .. k` the variable `max_idx` is the first index of a maximal count among `0 .. k`. -/
theorem argmax_loop (c : Nat → Int) (k : Nat) :
    let m := (List.range' 1 k).foldl (fun max_idx i => if c i > c max_idx then i else max_idx) 0
    m ≤ k ∧ (∀ j, j ≤ k → c j ≤ c m) ∧ (∀ j, j < m → c j < c m) := by
  induction k with
  | zero =>
    simp only [List.range'_zero, List.foldl_nil]
    exact ⟨le_refl _, fun j hj => by
      have : j = 0 := by omega
      rw [this], fun j hj => absurd hj (by omega)⟩
  | succ k ih =>
    simp only [List.range'_concat, List.foldl_append, List.foldl_cons, List.foldl_nil,
      Nat.one_mul] at ih ⊢
    obtain ⟨h1, h2, h3⟩ := ih
    split
    · rename_i hgt
      refine ⟨by omega, ?_, ?_⟩
      · intro j hj
        by_cases hjk : j ≤ k
        · have := h2 j hjk
          omega
        · have : j = 1 + k := by omega
          rw [this]
      · intro j hj
        have := h2 j (by omega)
        omega
    · rename_i hgt
      refine ⟨by omega, ?_, h3⟩
      intro j hj
      by_cases hjk : j ≤ k
      · exact h2 j hjk
      · have : j = 1 + k := by omega
        rw [this]
        omega

theorem max_index_spec (t : List IPCount) (hne : t ≠ []) :
    max_index t < t.length ∧
    (∀ j, j < t.length →
      (t.getD j IPCount.zero).count ≤ (t.getD (max_index t) IPCount.zero).count) ∧
    (∀ j, j < max_index t →
      (t.getD j IPCount.zero).count < (t.getD (max_index t) IPCount.zero).count) := by
  have hpos : 0 < t.length := List.length_pos.2 hne
  obtain ⟨h1, h2, h3⟩ := argmax_loop (fun i => (t.getD i IPCount.zero).count) (t.length - 1)
  refine ⟨?_, ?_, ?_⟩
  · unfold max_index; omega
  · intro j hj
    exact h2 j (by omega)
  · intro j hj
    exact h3 j hj

/-! ### The source-IP counts of the entropy detector -/

theorem count_ips_inv {α : Type} (flows : List (FlowRecord α)) :
    TableInv IPCount.ip (fun (_ : FlowRecord α) e => { e with count := e.count + 1 })
      (fun f => { ip := f.src_ip, count := 1 }) (count_ips flows) flows :=
  TableInv.aggregate IPCount.ip (fun (_ : FlowRecord α) e => { e with count := e.count + 1 })
    (fun f => { ip := f.src_ip, count := 1 }) (fun _ _ => rfl) (fun _ => rfl) flows

theorem ipcount_foldl {α : Type} (l : List (FlowRecord α)) (e0 : IPCount) :
    l.foldl (fun e (_ : FlowRecord α) => { e with count := e.count + 1 }) e0 =
      { ip := e0.ip, count := e0.count + (l.length : Int) } := by
  induction l generalizing e0 with
  | nil => simp
  | cons f rest ih =>
    rw [List.foldl_cons, ih]
    simp only [List.length_cons, Nat.cast_add, Nat.cast_one, IPCount.mk.injEq, true_and]
    omega

/-- Every entry of the table counts the flows of the window from its IP, and there is at
least one such flow. -/
theorem count_ips_entry {α : Type} (flows : List (FlowRecord α)) (e : IPCount)
    (he : e ∈ count_ips flows) :
    e.count = (ip_count flows e.ip : Int) ∧ 0 < ip_count flows e.ip := by
  have h := (count_ips_inv flows).entry e he
  unfold ip_count
  rw [List.countP_eq_length_filter]
  cases hfs : flows.filter (fun f => decide (f.src_ip = e.ip)) with
  | nil => rw [hfs] at h; simp [fold_entry] at h
  | cons f rest =>
    rw [hfs] at h
    simp only [fold_entry, Option.some.injEq] at h
    rw [ipcount_foldl] at h
    rw [← h]
    simp only [List.length_cons, Nat.cast_add, Nat.cast_one]
    constructor <;> omega

theorem count_ips_ne_nil {α : Type} (flows : List (FlowRecord α)) (hne : flows ≠ []) :
    count_ips flows ≠ [] := by
  intro h
  obtain ⟨f, hf⟩ := List.exists_mem_of_ne_nil _ hne
  have := (count_ips_inv flows).complete (by rw [h]; simp [MAX_UNIQUE_IPS]) f hf
  rw [h] at this
  simp at this

/-- The entropy loop over a table whose entries all hold the same count `c`. -/
theorem entropy_foldl_uniform {α : Type} [LinearOrderedField α] (log2 : α → α)
    (t : List IPCount) (n c : Int) (h : ∀ e ∈ t, e.count = c) (hp : (c : α) / (n : α) > 0)
    (init : α) :
    t.foldl (fun entropy e =>
        let p : α := (e.count : α) / (n : α)
        if p > 0 then entropy - p * log2 p else entropy) init =
      init - (t.length : α) * ((c : α) / (n : α) * log2 ((c : α) / (n : α))) := by
  induction t generalizing init with
  | nil => simp
  | cons e rest ih =>
    have he : e.count = c := h e (by simp)
    rw [List.foldl_cons, ih (fun x hx => h x (by simp [hx]))]
    simp only [he, hp, if_true, List.length_cons, Nat.cast_add, Nat.cast_one]
    ring

/-- The alert the entropy detector appends when it fires. -/
theorem detect_entropy_based_eq {α : Type} [LinearOrderedField α] (log2 : α → α)
    (flows : List (FlowRecord α)) (alerts : List (Alert α)) :
    detect_entropy_based log2 flows alerts =
      if 10 ≤ flows.length ∧ calculate_entropy log2 flows < 3 / 2 then
        alerts ++ [{ src_ip := ((count_ips flows).getD (max_index (count_ips flows))
                        IPCount.zero).ip,
                     timestamp := 0, detection_type := 1,
                     confidence := (3 / 2 - calculate_entropy log2 flows) / (3 / 2) }]
      else alerts := by
  unfold detect_entropy_based
  by_cases h1 : flows.length < 10
  · have : ¬ 10 ≤ flows.length := by omega
    simp [h1, this]
  · have h10 : 10 ≤ flows.length := by omega
    by_cases h2 : calculate_entropy log2 flows < 3 / 2
    · simp [h1, h10, h2, use_cuda, ENTROPY_THRESHOLD]
    · simp [h1, h10, h2, use_cuda, ENTROPY_THRESHOLD]

/-- C6: `detect_entropy_based` appends exactly one alert when the window has at least 10
flows and the computed entropy is below 1.5, and appends nothing otherwise. -/
theorem detect_entropy_based_emits {α : Type} [LinearOrderedField α] (log2 : α → α)
    (flows : List (FlowRecord α)) (alerts : List (Alert α)) :
    ∃ emitted : List (Alert α),
      detect_entropy_based log2 flows alerts = alerts ++ emitted ∧
      emitted.length =
        if 10 ≤ flows.length ∧ calculate_entropy log2 flows < 3 / 2 then 1 else 0 := by
  rw [detect_entropy_based_eq]
  split
  · exact ⟨_, rfl, rfl⟩
  · exact ⟨[], by simp, rfl⟩

theorem ip_count_eq_zero {α : Type} (flows : List (FlowRecord α)) (ip : String)
    (h : ip ∉ flows.map FlowRecord.src_ip) : ip_count flows ip = 0 := by
  unfold ip_count
  rw [List.countP_eq_zero]
  intro f hf
  simp only [decide_eq_true_eq]
  intro hip
  exact h (hip ▸ List.mem_map_of_mem FlowRecord.src_ip hf)

/-- The IP read at `max_idx`: it has an entry, no tracked IP has more flows in the
window, and a tracked IP with as many flows was first seen no earlier. -/
theorem top_ip_spec {α : Type} (flows : List (FlowRecord α)) (hne : flows ≠ []) :
    ((count_ips flows).getD (max_index (count_ips flows)) IPCount.zero).ip ∈
      (count_ips flows).map IPCount.ip ∧
    (∀ ip ∈ (count_ips flows).map IPCount.ip, ip_count flows ip ≤ ip_count flows
      ((count_ips flows).getD (max_index (count_ips flows)) IPCount.zero).ip) ∧
    (∀ ip ∈ (count_ips flows).map IPCount.ip,
      ip_count flows ip = ip_count flows
        ((count_ips flows).getD (max_index (count_ips flows)) IPCount.zero).ip →
      (flows.map FlowRecord.src_ip).indexOf
        ((count_ips flows).getD (max_index (count_ips flows)) IPCount.zero).ip ≤
      (flows.map FlowRecord.src_ip).indexOf ip) := by
  obtain ⟨hm, h2, h3⟩ := max_index_spec (count_ips flows) (count_ips_ne_nil flows hne)
  generalize ht : count_ips flows = t at hm h2 h3
  generalize hmi : max_index t = m at hm h2 h3
  have hget : t.getD m IPCount.zero = t[m] := List.getD_eq_getElem _ _ hm
  have hmem : t[m] ∈ t := List.getElem_mem _
  have hcm := count_ips_entry flows t[m] (by rw [ht]; exact hmem)
  rw [hget]
  rw [hget] at h2 h3
  refine ⟨List.mem_map_of_mem _ hmem, ?_, ?_⟩
  · intro ip hip
    obtain ⟨e, he, rfl⟩ := List.mem_map.1 hip
    obtain ⟨j, hj, rfl⟩ := List.getElem_of_mem he
    have hcj := count_ips_entry flows t[j] (by rw [ht]; exact he)
    have := h2 j hj
    rw [List.getD_eq_getElem _ _ hj] at this
    omega
  · intro ip hip heq
    obtain ⟨e, he, rfl⟩ := List.mem_map.1 hip
    obtain ⟨j, hj, rfl⟩ := List.getElem_of_mem he
    have hcj := count_ips_entry flows t[j] (by rw [ht]; exact he)
    rcases Nat.lt_trichotomy j m with hlt | hjm | hgt
    · have := h3 j hlt
      rw [List.getD_eq_getElem _ _ hj] at this
      omega
    · subst hjm
      exact le_refl _
    · have hord := (count_ips_inv flows).ordered
      rw [ht, List.pairwise_iff_getElem] at hord
      have := hord m j (by simpa using hm) (by simpa using hj) hgt
      simp only [List.getElem_map] at this
      exact le_of_lt this

/-- The entropy of a window whose flows all come from one source IP is 0 as soon as
`log2 1 = 0`. -/
theorem entropy_single_source {α : Type} [LinearOrderedField α] (log2 : α → α)
    (hlog : log2 1 = 0) (flows : List (FlowRecord α)) (ip : String) (hne : flows ≠ [])
    (hall : ∀ f ∈ flows, f.src_ip = ip) : calculate_entropy log2 flows = 0 := by
  have hpos : 0 < flows.length := List.length_pos.2 hne
  have hcount : ∀ e ∈ count_ips flows, e.count = (flows.length : Int) := by
    intro e he
    have hk := (count_ips_inv flows).key_mem _ _ _ e.ip (List.mem_map_of_mem _ he)
    obtain ⟨f, hf, hfip⟩ := List.mem_map.1 hk
    have hip : e.ip = ip := by rw [← hfip]; exact hall f hf
    rw [(count_ips_entry flows e he).1, hip]
    unfold ip_count
    rw [List.countP_eq_length.2]
    intro f hf
    simpa using hall f hf
  have hn0 : ((flows.length : Int) : α) ≠ 0 := by
    have : (0 : α) < ((flows.length : Int) : α) := by exact_mod_cast hpos
    exact ne_of_gt this
  have hone : ((flows.length : Int) : α) / ((flows.length : Int) : α) = 1 := div_self hn0
  unfold calculate_entropy
  rw [entropy_foldl_uniform log2 _ _ _ hcount (by rw [hone]; exact one_pos), hone, hlog]
  simp

/-- The detector on a window of at least 10 flows from one source IP. -/
theorem detect_single_source {α : Type} [LinearOrderedField α] (log2 : α → α)
    (hlog : log2 1 = 0) (flows : List (FlowRecord α)) (ip : String) (hn : 10 ≤ flows.length)
    (hall : ∀ f ∈ flows, f.src_ip = ip) (alerts : List (Alert α)) :
    detect_entropy_based log2 flows alerts =
      alerts ++ [{ src_ip := ip, timestamp := 0, detection_type := 1, confidence := 1 }] := by
  have hne : flows ≠ [] := by
    intro h; rw [h] at hn; simp at hn
  have hH := entropy_single_source log2 hlog flows ip hne hall
  have htop := (top_ip_spec flows hne).1
  have hk := (count_ips_inv flows).key_mem _ _ _ _ htop
  obtain ⟨f, hf, hfip⟩ := List.mem_map.1 hk
  have hip : ((count_ips flows).getD (max_index (count_ips flows)) IPCount.zero).ip = ip := by
    rw [← hfip]; exact hall f hf
  rw [detect_entropy_based_eq, hH, hip, if_pos ⟨hn, by norm_num⟩]
  norm_num

/-! ### The sample windows -/

theorem digit_inj (a b : Nat) (h : digit a = digit b) : a % 10 = b % 10 := by
  unfold digit at h
  have ha : a % 10 < 10 := Nat.mod_lt _ (by norm_num)
  have hb : b % 10 < 10 := Nat.mod_lt _ (by norm_num)
  generalize a % 10 = x at h ha
  generalize b % 10 = y at h hb
  interval_cases x <;> interval_cases y <;> first | rfl | (exfalso; revert h; decide)

theorem sample_ip_inj (i j : Nat) (hi : i < 10000) (hj : j < 10000)
    (h : sample_ip i = sample_ip j) : i = j := by
  have hd := congrArg String.data h
  simp only [sample_ip, List.cons.injEq, true_and, and_true] at hd
  obtain ⟨h3, h2, h1, h0⟩ := hd
  have e3 := digit_inj _ _ h3
  have e2 := digit_inj _ _ h2
  have e1 := digit_inj _ _ h1
  have e0 := digit_inj _ _ h0
  omega

theorem ip_count_eq_count {α : Type} (flows : List (FlowRecord α)) (ip : String) :
    ip_count flows ip = (flows.map FlowRecord.src_ip).count ip := by
  unfold ip_count
  induction flows with
  | nil => simp
  | cons f rest ih =>
    simp only [List.countP_cons, List.map_cons, List.count_cons, ih]
    by_cases h : f.src_ip = ip <;> simp [h]

theorem ip_count_append {α : Type} (l1 l2 : List (FlowRecord α)) (ip : String) :
    ip_count (l1 ++ l2) ip = ip_count l1 ip + ip_count l2 ip := by
  unfold ip_count
  exact List.countP_append _ _ _

theorem ip_count_replicate {α : Type} (n : Nat) (f : FlowRecord α) :
    ip_count (List.replicate n f) f.src_ip = n := by
  unfold ip_count
  rw [List.countP_replicate]
  simp

theorem window_distinct_ips {α : Type} [LinearOrderedField α] (n : Nat) :
    (window_distinct n : List (FlowRecord α)).map FlowRecord.src_ip =
      (List.range n).map sample_ip := by
  unfold window_distinct
  rw [List.map_map]
  rfl

theorem window_distinct_nodup {α : Type} [LinearOrderedField α] (n : Nat) (hn : n ≤ 10000) :
    ((window_distinct n : List (FlowRecord α)).map FlowRecord.src_ip).Nodup := by
  rw [window_distinct_ips]
  refine List.Nodup.map_on ?_ (List.nodup_range n)
  intro i hi j hj h
  rw [List.mem_range] at hi hj
  exact sample_ip_inj i j (by omega) (by omega) h

theorem window_distinct_length {α : Type} [LinearOrderedField α] (n : Nat) :
    (window_distinct n : List (FlowRecord α)).length = n := by
  simp [window_distinct]

theorem distinct_ips_of_nodup {α : Type} (flows : List (FlowRecord α))
    (hnd : (flows.map FlowRecord.src_ip).Nodup) : distinct_ips flows = flows.length := by
  unfold distinct_ips
  rw [hnd.dedup, List.length_map]

theorem ip_count_of_nodup {α : Type} (flows : List (FlowRecord α))
    (hnd : (flows.map FlowRecord.src_ip).Nodup) (ip : String)
    (hip : ip ∈ flows.map FlowRecord.src_ip) : ip_count flows ip = 1 := by
  rw [ip_count_eq_count]
  exact List.count_eq_one_of_mem hnd hip

/-- The entropy of a window in which every tracked source IP has exactly one flow. -/
theorem entropy_unit_counts {α : Type} [LinearOrderedField α] (log2 : α → α)
    (flows : List (FlowRecord α)) (hne : flows ≠ [])
    (h1 : ∀ e ∈ count_ips flows, ip_count flows e.ip = 1) :
    calculate_entropy log2 flows =
      -((((count_ips flows).length : Nat) : α) *
        (1 / ((flows.length : Int) : α) * log2 (1 / ((flows.length : Int) : α)))) := by
  have hpos : 0 < flows.length := List.length_pos.2 hne
  have hcount : ∀ e ∈ count_ips flows, e.count = (1 : Int) := by
    intro e he
    rw [(count_ips_entry flows e he).1, h1 e he]
    rfl
  have hn : (0 : α) < ((flows.length : Int) : α) := by exact_mod_cast hpos
  have hp : (((1 : Int) : α)) / ((flows.length : Int) : α) > 0 := by
    rw [Int.cast_one]; exact div_pos one_pos hn
  unfold calculate_entropy
  rw [entropy_foldl_uniform log2 _ _ _ hcount hp, Int.cast_one]
  ring

/-- Over the reals, with the base-2 logarithm: the entropy of a window in which every
tracked source IP has exactly one flow is `(unique_ips / n) * log2 n`. -/
theorem entropy_unit_counts_real (flows : List (FlowRecord ℝ)) (hne : flows ≠ [])
    (h1 : ∀ e ∈ count_ips flows, ip_count flows e.ip = 1) :
    calculate_entropy (Real.logb 2) flows =
      (((count_ips flows).length : Nat) : ℝ) / (flows.length : ℝ) *
        Real.logb 2 (flows.length : ℝ) := by
  rw [entropy_unit_counts (Real.logb 2) flows hne h1, one_div, Real.logb_inv]
  simp only [Int.cast_natCast]
  ring

/-- A flow whose source IP has no entry leaves a full table unchanged. -/
theorem tally_full {α σ : Type} (key : σ → String) (upd : FlowRecord α → σ → σ)
    (fresh : FlowRecord α → σ) (table : List σ) (f : FlowRecord α)
    (hfull : ¬ table.length < MAX_UNIQUE_IPS) (hout : f.src_ip ∉ table.map key) :
    tally key upd fresh table f = table := by
  unfold tally
  rw [update_first_none key _ _ _ hout]
  simp [hfull]

theorem foldl_tally_full {α σ : Type} (key : σ → String) (upd : FlowRecord α → σ → σ)
    (fresh : FlowRecord α → σ) (table : List σ) (fs : List (FlowRecord α))
    (hfull : ¬ table.length < MAX_UNIQUE_IPS) (hout : ∀ f ∈ fs, f.src_ip ∉ table.map key) :
    fs.foldl (tally key upd fresh) table = table := by
  induction fs with
  | nil => rfl
  | cons f rest ih =>
    rw [List.foldl_cons, tally_full key upd fresh table f hfull (hout f (by simp))]
    exact ih (fun g hg => hout g (by simp [hg]))

theorem sample_ip_1000_not_mem :
    sample_ip 1000 ∉ (List.range 1000).map sample_ip := by
  intro h
  obtain ⟨i, hi, he⟩ := List.mem_map.1 h
  rw [List.mem_range] at hi
  have := sample_ip_inj i 1000 (by omega) (by norm_num) he
  omega

/-- The 9000 flows of `window_overflow` from `sample_ip 1000` arrive when the table is
full: the table is the one of the first 1000 flows. -/
theorem count_ips_window_overflow {α : Type} [LinearOrderedField α] :
    count_ips (window_overflow : List (FlowRecord α)) =
      count_ips (window_distinct 1000 : List (FlowRecord α)) := by
  have hnd := @window_distinct_nodup α _ 1000 (by norm_num)
  have hlen : (count_ips (window_distinct 1000 : List (FlowRecord α))).length = 1000 := by
    rw [(count_ips_inv _).length_eq, distinct_ips_of_nodup _ hnd, window_distinct_length]
    rfl
  unfold window_overflow
  unfold count_ips
  rw [List.foldl_append]
  apply foldl_tally_full
  · change ¬ (count_ips (window_distinct 1000 : List (FlowRecord α))).length < MAX_UNIQUE_IPS
    rw [hlen]; simp [MAX_UNIQUE_IPS]
  · intro f hf hmem
    rw [List.mem_replicate] at hf
    have hk := (count_ips_inv (window_distinct 1000 : List (FlowRecord α))).key_mem _ _ _
      f.src_ip hmem
    rw [window_distinct_ips, hf.2] at hk
    exact sample_ip_1000_not_mem hk

theorem logb_two_pow (k : Nat) : Real.logb 2 ((2 : ℝ) ^ k) = k := by
  rw [Real.logb_pow, Real.logb_self_eq_one (by norm_num)]
  ring

theorem logb_two_lower (x : ℝ) (hx : 10 ≤ x) : 3 ≤ Real.logb 2 x := by
  have h8 : Real.logb 2 ((2 : ℝ) ^ 3) ≤ Real.logb 2 x :=
    Real.logb_le_logb_of_le (by norm_num) (by norm_num) (by norm_num; linarith)
  rw [logb_two_pow] at h8
  exact_mod_cast h8

theorem logb_two_10000 : Real.logb 2 10000 < 15 := by
  have h : Real.logb 2 10000 < Real.logb 2 ((2 : ℝ) ^ 15) :=
    Real.logb_lt_logb (by norm_num) (by norm_num) (by norm_num)
  rw [logb_two_pow] at h
  exact_mod_cast h

/-- The entropy the detector computes for `window_overflow`. -/
theorem entropy_window_overflow :
    calculate_entropy (Real.logb 2) (window_overflow : List (FlowRecord ℝ)) =
      1000 / 10000 * Real.logb 2 10000 ∧
    ∀ e ∈ count_ips (window_overflow : List (FlowRecord ℝ)),
      ip_count (window_overflow : List (FlowRecord ℝ)) e.ip = 1 := by
  have hnd := @window_distinct_nodup ℝ _ 1000 (by norm_num)
  have hlenW : (window_overflow : List (FlowRecord ℝ)).length = 10000 := by
    unfold window_overflow
    rw [List.length_append, window_distinct_length, List.length_replicate]
  have hne : (window_overflow : List (FlowRecord ℝ)) ≠ [] := by
    intro h; rw [h] at hlenW; simp at hlenW
  have hlen : (count_ips (window_overflow : List (FlowRecord ℝ))).length = 1000 := by
    rw [count_ips_window_overflow, (count_ips_inv _).length_eq, distinct_ips_of_nodup _ hnd,
      window_distinct_length]
    rfl
  have h1 : ∀ e ∈ count_ips (window_overflow : List (FlowRecord ℝ)),
      ip_count (window_overflow : List (FlowRecord ℝ)) e.ip = 1 := by
    intro e he
    rw [count_ips_window_overflow] at he
    have hk := (count_ips_inv (window_distinct 1000 : List (FlowRecord ℝ))).key_mem _ _ _
      e.ip (List.mem_map_of_mem _ he)
    have hne1000 : e.ip ≠ sample_ip 1000 := by
      intro h
      rw [window_distinct_ips, h] at hk
      exact sample_ip_1000_not_mem hk
    unfold window_overflow
    rw [ip_count_append, ip_count_of_nodup _ hnd _ hk, ip_count_eq_zero]
    intro hmem
    obtain ⟨f, hf, hfip⟩ := List.mem_map.1 hmem
    rw [List.mem_replicate] at hf
    rw [hf.2] at hfip
    exact hne1000 hfip.symm
  refine ⟨?_, h1⟩
  rw [entropy_unit_counts_real _ hne h1, hlen, hlenW]
  norm_num

/-! ## Claims on the entropy detector -/

/-- When the detector fires, the alert carries the IP of some entry of the table. -/
theorem detect_entropy_based_fires {α : Type} [LinearOrderedField α] (log2 : α → α)
    (flows : List (FlowRecord α)) (alerts : List (Alert α)) (hn : 10 ≤ flows.length)
    (hH : calculate_entropy log2 flows < 3 / 2) :
    ∃ e ∈ count_ips flows, detect_entropy_based log2 flows alerts =
      alerts ++ [{ src_ip := e.ip, timestamp := 0, detection_type := 1,
                   confidence := (3 / 2 - calculate_entropy log2 flows) / (3 / 2) }] := by
  have hne : flows ≠ [] := by
    intro h; rw [h] at hn; simp at hn
  obtain ⟨e, he, hip⟩ := List.mem_map.1 (top_ip_spec flows hne).1
  refine ⟨e, he, ?_⟩
  rw [detect_entropy_based_eq, if_pos ⟨hn, hH⟩, hip]

theorem window_overflow_length {α : Type} [LinearOrderedField α] :
    (window_overflow : List (FlowRecord α)).length = 10000 := by
  unfold window_overflow
  rw [List.length_append, window_distinct_length, List.length_replicate]

theorem ip_count_window_overflow {α : Type} [LinearOrderedField α] :
    ip_count (window_overflow : List (FlowRecord α)) (sample_ip 1000) = 9000 := by
  unfold window_overflow
  rw [ip_count_append, ip_count_eq_zero _ _ (by
    rw [window_distinct_ips]; exact sample_ip_1000_not_mem), Nat.zero_add]
  exact ip_count_replicate 9000 (sample_flow (sample_ip 1000) 1000000 1)

/-- C7 as stated fails: in `window_overflow` the source IP `sample_ip 1000` has 9000 of the
10000 flows but is the 1001st distinct IP, so it gets no entry; the computed entropy is
`0.1 * log2 10000 < 1.5` and the alert names a source IP with a single flow. -/
theorem detect_entropy_based_alert_counterexample :
    ∃ a : Alert ℝ,
      detect_entropy_based (Real.logb 2) (window_overflow : List (FlowRecord ℝ)) [] = [a] ∧
      ip_count (window_overflow : List (FlowRecord ℝ)) a.src_ip = 1 ∧
      ip_count (window_overflow : List (FlowRecord ℝ)) (sample_ip 1000) = 9000 := by
  obtain ⟨hH, h1⟩ := entropy_window_overflow
  have hlt : calculate_entropy (Real.logb 2) (window_overflow : List (FlowRecord ℝ)) < 3 / 2 := by
    rw [hH]
    have := logb_two_10000
    linarith
  have hn : 10 ≤ (window_overflow : List (FlowRecord ℝ)).length := by
    rw [window_overflow_length]; norm_num
  obtain ⟨e, he, hdet⟩ := detect_entropy_based_fires (Real.logb 2)
    (window_overflow : List (FlowRecord ℝ)) [] hn hlt
  rw [List.nil_append] at hdet
  exact ⟨_, hdet, h1 e he, ip_count_window_overflow⟩

/-- C7 (amended): whenever `detect_entropy_based` emits an alert for a window with at most
1000 distinct source IPs, the alert's source IP is a most frequent source IP of the
window, every other source IP with as many flows was first seen later in the window, the
kind is 1 and the confidence is `(1.5 - H) / 1.5` for the computed entropy `H`. -/
theorem detect_entropy_based_alert {α : Type} [LinearOrderedField α] (log2 : α → α)
    (flows : List (FlowRecord α)) (alerts : List (Alert α)) (a : Alert α)
    (hd : distinct_ips flows ≤ 1000)
    (ha : detect_entropy_based log2 flows alerts = alerts ++ [a]) :
    a.src_ip ∈ flows.map FlowRecord.src_ip ∧
    (∀ ip, ip_count flows ip ≤ ip_count flows a.src_ip) ∧
    (∀ ip, ip_count flows ip = ip_count flows a.src_ip →
      (flows.map FlowRecord.src_ip).indexOf a.src_ip ≤
        (flows.map FlowRecord.src_ip).indexOf ip) ∧
    a.detection_type = 1 ∧
    a.confidence = (3 / 2 - calculate_entropy log2 flows) / (3 / 2) := by
  rw [detect_entropy_based_eq] at ha
  by_cases hc : 10 ≤ flows.length ∧ calculate_entropy log2 flows < 3 / 2
  · rw [if_pos hc] at ha
    have hne : flows ≠ [] := by
      intro h; rw [h] at hc; simp at hc
    have ha2 := List.append_cancel_left ha
    simp only [List.cons.injEq, and_true] at ha2
    obtain ⟨ht1, ht2, ht3⟩ := top_ip_spec flows hne
    have hinv := count_ips_inv flows
    have hin := hinv.key_mem _ _ _ _ ht1
    have hpos : 0 < ip_count flows a.src_ip := by
      obtain ⟨e, he, hip⟩ := List.mem_map.1 ht1
      have := (count_ips_entry flows e he).2
      rw [← ha2, ← hip]
      exact this
    rw [← ha2]
    refine ⟨hin, ?_, ?_, rfl, rfl⟩
    · intro ip
      by_cases hmem : ip ∈ flows.map FlowRecord.src_ip
      · exact ht2 ip (hinv.all_tracked _ _ _ hd ip hmem)
      · rw [ip_count_eq_zero flows ip hmem]
        exact Nat.zero_le _
    · intro ip heq
      by_cases hmem : ip ∈ flows.map FlowRecord.src_ip
      · exact ht3 ip (hinv.all_tracked _ _ _ hd ip hmem) heq
      · rw [ip_count_eq_zero flows ip hmem] at heq
        rw [← ha2] at hpos
        omega
  · rw [if_neg hc] at ha
    have := congrArg List.length ha
    simp at this

theorem window_single_src_ip {α : Type} [LinearOrderedField α] (n : Nat) :
    ∀ f ∈ (window_single n : List (FlowRecord α)), f.src_ip = "10.0.0.1" := by
  intro f hf
  unfold window_single at hf
  rw [List.mem_replicate] at hf
  rw [hf.2]
  rfl

theorem window_single_length {α : Type} [LinearOrderedField α] (n : Nat) :
    (window_single n : List (FlowRecord α)).length = n := by
  simp [window_single]

/-- C7 (amended) evaluated on ten flows from `10.0.0.1`, over the reals with the base-2
logarithm: the alert names `10.0.0.1` and no source IP has more flows. -/
theorem detect_entropy_based_alert_witness :
    distinct_ips (window_single 10 : List (FlowRecord ℝ)) ≤ 1000 ∧
    detect_entropy_based (Real.logb 2) (window_single 10 : List (FlowRecord ℝ)) [] =
      [] ++ [{ src_ip := "10.0.0.1", timestamp := 0, detection_type := 1, confidence := 1 }] ∧
    ∀ ip, ip_count (window_single 10 : List (FlowRecord ℝ)) ip ≤
      ip_count (window_single 10 : List (FlowRecord ℝ)) "10.0.0.1" :=
  have hd : distinct_ips (window_single 10 : List (FlowRecord ℝ)) ≤ 1000 := by decide
  have ha := detect_single_source (Real.logb 2) Real.logb_one
    (window_single 10 : List (FlowRecord ℝ)) "10.0.0.1"
    (by rw [window_single_length]) (window_single_src_ip 10) []
  ⟨hd, ha, (detect_entropy_based_alert (Real.logb 2) _ [] _ hd ha).2.1⟩

/-- C8: for a window of at least 10 flows that all carry the same source IP the computed
entropy is 0 and `detect_entropy_based` appends one alert for that IP, of kind 1 and
confidence 1 (for any `log2` with `log2 1 = 0`, as the base-2 logarithm has). -/
theorem detect_entropy_based_single_source {α : Type} [LinearOrderedField α] (log2 : α → α)
    (hlog : log2 1 = 0) (flows : List (FlowRecord α)) (ip : String) (hn : 10 ≤ flows.length)
    (hall : ∀ f ∈ flows, f.src_ip = ip) (alerts : List (Alert α)) :
    calculate_entropy log2 flows = 0 ∧
    detect_entropy_based log2 flows alerts =
      alerts ++ [{ src_ip := ip, timestamp := 0, detection_type := 1, confidence := 1 }] := by
  have hne : flows ≠ [] := by
    intro h; rw [h] at hn; simp at hn
  exact ⟨entropy_single_source log2 hlog flows ip hne hall,
    detect_single_source log2 hlog flows ip hn hall alerts⟩

/-- C8 evaluated on 100 flows from `10.0.0.1` (scenario 2 of the specification), over the
reals with the base-2 logarithm. -/
theorem detect_entropy_based_single_source_witness :
    Real.logb 2 1 = 0 ∧ 10 ≤ (window_single 100 : List (FlowRecord ℝ)).length ∧
    (∀ f ∈ (window_single 100 : List (FlowRecord ℝ)), f.src_ip = "10.0.0.1") ∧
    calculate_entropy (Real.logb 2) (window_single 100 : List (FlowRecord ℝ)) = 0 ∧
    detect_entropy_based (Real.logb 2) (window_single 100 : List (FlowRecord ℝ)) [] =
      [] ++ [{ src_ip := "10.0.0.1", timestamp := 0, detection_type := 1, confidence := 1 }] :=
  have hn : 10 ≤ (window_single 100 : List (FlowRecord ℝ)).length := by
    rw [window_single_length]; norm_num
  ⟨Real.logb_one, hn, window_single_src_ip 100,
    detect_entropy_based_single_source (Real.logb 2) Real.logb_one _ "10.0.0.1" hn
      (window_single_src_ip 100) []⟩

/-- In a window with pairwise distinct source IPs every tracked IP has one flow. -/
theorem unit_counts_of_nodup {α : Type} (flows : List (FlowRecord α))
    (hnd : (flows.map FlowRecord.src_ip).Nodup) :
    ∀ e ∈ count_ips flows, ip_count flows e.ip = 1 := by
  intro e he
  exact ip_count_of_nodup flows hnd e.ip
    ((count_ips_inv flows).key_mem _ _ _ e.ip (List.mem_map_of_mem _ he))

/-- The entropy computed for a window of `n` pairwise distinct source IPs is
`(min n 1000 / n) * log2 n`. -/
theorem entropy_nodup_real (flows : List (FlowRecord ℝ)) (hne : flows ≠ [])
    (hnd : (flows.map FlowRecord.src_ip).Nodup) :
    calculate_entropy (Real.logb 2) flows =
      ((min flows.length 1000 : Nat) : ℝ) / (flows.length : ℝ) *
        Real.logb 2 (flows.length : ℝ) := by
  rw [entropy_unit_counts_real flows hne (unit_counts_of_nodup flows hnd),
    (count_ips_inv flows).length_eq, distinct_ips_of_nodup flows hnd]
  rfl

/-- C9 as stated fails: `window_distinct 10000` has 10000 flows (at most `WINDOW_SIZE`) with
pairwise distinct source IPs; only the first 1000 get an entry, the computed entropy is
`0.1 * log2 10000`, which is not `log2 10000` and is below 1.5, and an alert is emitted. -/
theorem entropy_distinct_counterexample :
    (window_distinct 10000 : List (FlowRecord ℝ)).length = 10000 ∧
    (window_distinct 10000 : List (FlowRecord ℝ)).length ≤ WINDOW_SIZE ∧
    ((window_distinct 10000 : List (FlowRecord ℝ)).map FlowRecord.src_ip).Nodup ∧
    calculate_entropy (Real.logb 2) (window_distinct 10000 : List (FlowRecord ℝ)) ≠
      Real.logb 2 10000 ∧
    (detect_entropy_based (Real.logb 2) (window_distinct 10000 : List (FlowRecord ℝ))
      []).length = 1 := by
  have hlen := @window_distinct_length ℝ _ 10000
  have hnd := @window_distinct_nodup ℝ _ 10000 (le_refl _)
  have hne : (window_distinct 10000 : List (FlowRecord ℝ)) ≠ [] := by
    intro h; rw [h] at hlen; simp at hlen
  have hH : calculate_entropy (Real.logb 2) (window_distinct 10000 : List (FlowRecord ℝ)) =
      1000 / 10000 * Real.logb 2 10000 := by
    rw [entropy_nodup_real _ hne hnd, hlen]
    norm_num
  have hlow := logb_two_lower 10000 (by norm_num)
  have hup := logb_two_10000
  refine ⟨hlen, by rw [hlen]; decide, hnd, ?_, ?_⟩
  · rw [hH]
    intro h
    linarith
  · obtain ⟨e, _, hdet⟩ := detect_entropy_based_fires (Real.logb 2)
      (window_distinct 10000 : List (FlowRecord ℝ)) [] (by rw [hlen]; norm_num)
      (by rw [hH]; linarith)
    rw [hdet]
    rfl

/-- C9 (amended): for every window of `n` flows with `10 ≤ n ≤ 1000` (`MAX_UNIQUE_IPS`) whose
source IPs are pairwise distinct, the entropy used by the detector equals `log2 n`, the
Shannon entropy of the uniform distribution on `n` sources, and `detect_entropy_based`
emits no alert. -/
theorem entropy_distinct (flows : List (FlowRecord ℝ)) (hn : 10 ≤ flows.length)
    (hmax : flows.length ≤ 1000) (hnd : (flows.map FlowRecord.src_ip).Nodup)
    (alerts : List (Alert ℝ)) :
    calculate_entropy (Real.logb 2) flows = Real.logb 2 (flows.length : ℝ) ∧
    detect_entropy_based (Real.logb 2) flows alerts = alerts := by
  have hne : flows ≠ [] := by
    intro h; rw [h] at hn; simp at hn
  have hpos : (0 : ℝ) < (flows.length : ℝ) := by
    have : 0 < flows.length := by omega
    exact_mod_cast this
  have hH : calculate_entropy (Real.logb 2) flows = Real.logb 2 (flows.length : ℝ) := by
    rw [entropy_nodup_real flows hne hnd, Nat.min_eq_left hmax, div_self (ne_of_gt hpos),
      one_mul]
  refine ⟨hH, ?_⟩
  have hlow := logb_two_lower (flows.length : ℝ) (by exact_mod_cast hn)
  rw [detect_entropy_based_eq, if_neg]
  rw [hH]
  intro h
  linarith [h.2]

/-- C9 (amended) evaluated on `window_distinct 100`, the uniform benign window of scenario 1
of the specification. -/
theorem entropy_distinct_witness :
    10 ≤ (window_distinct 100 : List (FlowRecord ℝ)).length ∧
    (window_distinct 100 : List (FlowRecord ℝ)).length ≤ 1000 ∧
    ((window_distinct 100 : List (FlowRecord ℝ)).map FlowRecord.src_ip).Nodup ∧
    calculate_entropy (Real.logb 2) (window_distinct 100 : List (FlowRecord ℝ)) =
      Real.logb 2 ((window_distinct 100 : List (FlowRecord ℝ)).length : ℝ) ∧
    detect_entropy_based (Real.logb 2) (window_distinct 100 : List (FlowRecord ℝ)) [] = [] :=
  have hn : 10 ≤ (window_distinct 100 : List (FlowRecord ℝ)).length := by
    rw [window_distinct_length]; norm_num
  have hmax : (window_distinct 100 : List (FlowRecord ℝ)).length ≤ 1000 := by
    rw [window_distinct_length]; norm_num
  have hnd := @window_distinct_nodup ℝ _ 100 (by norm_num)
  ⟨hn, hmax, hnd, entropy_distinct _ hn hmax hnd []⟩

/-! ## The CUSUM detector -/

section cusum

variable {α : Type} [LinearOrderedField α]

theorem cusum_aggregate_inv (flows : List (FlowRecord α)) :
    TableInv CUSUMState.ip
      (fun (f : FlowRecord α) (e : CUSUMState α) =>
        { e with total_bytes_per_sec := e.total_bytes_per_sec + f.flow_bytes_per_sec,
                 flow_count := e.flow_count + 1 })
      (fun f => { ip := f.src_ip, cusum_high := 0, cusum_low := 0, flow_count := 1,
                  total_bytes_per_sec := f.flow_bytes_per_sec })
      (cusum_aggregate flows) flows :=
  TableInv.aggregate CUSUMState.ip
    (fun (f : FlowRecord α) (e : CUSUMState α) =>
      { e with total_bytes_per_sec := e.total_bytes_per_sec + f.flow_bytes_per_sec,
               flow_count := e.flow_count + 1 })
    (fun f => { ip := f.src_ip, cusum_high := 0, cusum_low := 0, flow_count := 1,
                total_bytes_per_sec := f.flow_bytes_per_sec })
    (fun _ _ => rfl) (fun _ => rfl) flows

theorem cusum_foldl (l : List (FlowRecord α)) (e0 : CUSUMState α) :
    l.foldl (fun (e : CUSUMState α) (g : FlowRecord α) =>
        { e with total_bytes_per_sec := e.total_bytes_per_sec + g.flow_bytes_per_sec,
                 flow_count := e.flow_count + 1 }) e0 =
      { e0 with
        total_bytes_per_sec :=
          e0.total_bytes_per_sec + (l.map FlowRecord.flow_bytes_per_sec).sum,
        flow_count := e0.flow_count + (l.length : Int) } := by
  induction l generalizing e0 with
  | nil => simp
  | cons f rest ih =>
    rw [List.foldl_cons, ih]
    simp only [List.map_cons, List.sum_cons, List.length_cons, Nat.cast_add, Nat.cast_one,
      CUSUMState.mk.injEq, true_and]
    constructor
    · omega
    · ring

/-- An entry of the CUSUM table: `cusum_high` is still 0, its IP occurs in the window and
`total_bytes_per_sec / flow_count` is the average rate of the window's flows from it. -/
theorem cusum_entry (flows : List (FlowRecord α)) (e : CUSUMState α)
    (he : e ∈ cusum_aggregate flows) :
    e.cusum_high = 0 ∧ e.total_bytes_per_sec / (e.flow_count : α) = ip_avg_rate flows e.ip := by
  have h := (cusum_aggregate_inv flows).entry e he
  unfold ip_avg_rate ip_count
  rw [List.countP_eq_length_filter]
  cases hfs : flows.filter (fun f => decide (f.src_ip = e.ip)) with
  | nil => rw [hfs] at h; simp [fold_entry] at h
  | cons f rest =>
    rw [hfs] at h
    simp only [fold_entry, Option.some.injEq] at h
    rw [cusum_foldl] at h
    rw [← h]
    simp only [List.map_cons, List.sum_cons, List.length_cons, true_and]
    push_cast
    ring

theorem cusum_high_of_entry (flows : List (FlowRecord α)) (e : CUSUMState α)
    (he : e ∈ cusum_aggregate flows) :
    cusum_high_of e = max 0 (ip_avg_rate flows e.ip - 50000 - 1 / 2 * 50000) := by
  obtain ⟨h0, havg⟩ := cusum_entry flows e he
  unfold cusum_high_of
  simp only [h0, havg, CUSUM_BASELINE, CUSUM_DRIFT]
  congr 1
  ring

/-- The alert the decision loop writes for an entry, if any. -/
theorem cusum_decide_foldl (t : List (CUSUMState α)) (alerts : List (Alert α)) :
    t.foldl cusum_decide alerts =
      alerts ++ (t.filter (fun e => decide (cusum_high_of e > 5 * 50000))).map
        (fun e => { src_ip := e.ip, timestamp := 0, detection_type := 3,
                    confidence := cusum_high_of e / (5 * 50000) }) := by
  induction t generalizing alerts with
  | nil => simp
  | cons e rest ih =>
    rw [List.foldl_cons, ih]
    unfold cusum_decide
    by_cases h : cusum_high_of e > 5 * 50000
    · have h2 : cusum_high_of e > CUSUM_THRESHOLD * CUSUM_BASELINE := by
        simpa [CUSUM_THRESHOLD, CUSUM_BASELINE] using h
      simp [h, h2, CUSUM_THRESHOLD, CUSUM_BASELINE]
    · have h2 : ¬ cusum_high_of e > CUSUM_THRESHOLD * CUSUM_BASELINE := by
        simpa [CUSUM_THRESHOLD, CUSUM_BASELINE] using h
      simp [h, h2]

/-- The test `S+ > H * B` says that the average exceeds 325000. -/
theorem cusum_threshold_iff (avg : α) :
    max 0 (avg - 50000 - 1 / 2 * 50000) > 5 * 50000 ↔ avg > 325000 := by
  constructor
  · intro h
    rcases max_cases (0 : α) (avg - 50000 - 1 / 2 * 50000) with ⟨h1, _⟩ | ⟨h1, _⟩
    · rw [h1] at h; norm_num at h
    · rw [h1] at h; linarith
  · intro h
    have : avg - 50000 - 1 / 2 * 50000 ≤ max 0 (avg - 50000 - 1 / 2 * 50000) := le_max_right _ _
    linarith

end cusum

/-- An accumulation loop `acc += g e` computes a sum. -/
theorem foldl_add_eq_sum {α σ : Type} [LinearOrderedField α] (g : σ → α) (t : List σ)
    (init : α) : t.foldl (fun acc e => acc + g e) init = init + (t.map g).sum := by
  induction t generalizing init with
  | nil => simp
  | cons e rest ih =>
    rw [List.foldl_cons, ih, List.map_cons, List.sum_cons]
    ring

section pca

variable {α : Type} [LinearOrderedField α]

theorem pca_aggregate_inv (flows : List (FlowRecord α)) :
    TableInv IPFeatures.ip
      (fun (f : FlowRecord α) (e : IPFeatures α) =>
        { e with features := fun k => e.features k + flow_features f k,
                 flow_count := e.flow_count + 1 })
      (fun f => { ip := f.src_ip, features := flow_features f, flow_count := 1 })
      (pca_aggregate flows) flows :=
  TableInv.aggregate IPFeatures.ip
    (fun (f : FlowRecord α) (e : IPFeatures α) =>
      { e with features := fun k => e.features k + flow_features f k,
               flow_count := e.flow_count + 1 })
    (fun f => { ip := f.src_ip, features := flow_features f, flow_count := 1 })
    (fun _ _ => rfl) (fun _ => rfl) flows

theorem pca_foldl (l : List (FlowRecord α)) (e0 : IPFeatures α) :
    l.foldl (fun (e : IPFeatures α) (g : FlowRecord α) =>
        { e with features := fun k => e.features k + flow_features g k,
                 flow_count := e.flow_count + 1 }) e0 =
      { e0 with
        features := fun k => e0.features k + (l.map (fun g => flow_features g k)).sum,
        flow_count := e0.flow_count + (l.length : Int) } := by
  induction l generalizing e0 with
  | nil => simp
  | cons f rest ih =>
    rw [List.foldl_cons, ih]
    simp only [List.map_cons, List.sum_cons, List.length_cons, Nat.cast_add, Nat.cast_one,
      IPFeatures.mk.injEq, true_and]
    constructor
    · funext k
      ring
    · omega

/-- The detection loop appends, in table order, one alert per entry whose distance
exceeds 3. -/
theorem pca_decide_foldl (sqrt : α → α) (t0 t : List (IPFeatures α))
    (alerts : List (Alert α)) :
    t.foldl (pca_decide sqrt t0) alerts =
      alerts ++ (t.filter (fun e => decide (pca_distance sqrt t0 e > 3))).map
        (fun e => { src_ip := e.ip, timestamp := 0, detection_type := 2,
                    confidence := pca_distance sqrt t0 e / 3 }) := by
  induction t generalizing alerts with
  | nil => simp
  | cons e rest ih =>
    rw [List.foldl_cons, ih]
    unfold pca_decide
    by_cases h : pca_distance sqrt t0 e > 3
    · have h2 : pca_distance sqrt t0 e > PCA_THRESHOLD := by
        simpa [PCA_THRESHOLD] using h
      simp [h, h2, PCA_THRESHOLD]
    · have h2 : ¬ pca_distance sqrt t0 e > PCA_THRESHOLD := by
        simpa [PCA_THRESHOLD] using h
      simp [h, h2]

end pca

/-! ## Claims on the PCA detector and on `run_detection` -/

/-- What the entropy detector appends: at most one alert, of kind 1 and timestamp 0, for a
source IP that has an entry in the table. -/
theorem detect_entropy_based_shape {α : Type} [LinearOrderedField α] (log2 : α → α)
    (flows : List (FlowRecord α)) (alerts : List (Alert α)) :
    ∃ emitted : List (Alert α),
      detect_entropy_based log2 flows alerts = alerts ++ emitted ∧
      emitted.length ≤ min (distinct_ips flows) 1000 ∧
      (emitted.map Alert.src_ip).Nodup ∧
      (∀ a ∈ emitted, a.src_ip ∈ flows.map FlowRecord.src_ip ∧ a.timestamp = 0 ∧
        a.detection_type = 1) := by
  by_cases hc : 10 ≤ flows.length ∧ calculate_entropy log2 flows < 3 / 2
  · obtain ⟨e, he, hdet⟩ := detect_entropy_based_fires log2 flows alerts hc.1 hc.2
    have hinv := count_ips_inv flows
    refine ⟨_, hdet, ?_, by simp, ?_⟩
    · have hlen := hinv.length_eq
      have hpos : 0 < (count_ips flows).length := List.length_pos_of_mem he
      simp only [List.length_singleton]
      rw [show (1000 : Nat) = MAX_UNIQUE_IPS from rfl, ← hlen]
      exact hpos
    · intro a ha
      simp only [List.mem_singleton] at ha
      subst ha
      exact ⟨hinv.key_mem _ _ _ e.ip (List.mem_map_of_mem _ he), rfl, rfl⟩
  · refine ⟨[], ?_, by simp, by simp, by simp⟩
    rw [detect_entropy_based_eq, if_neg hc, List.append_nil]

/-- What the PCA detector appends: at most one alert per table entry, of kind 2 and
timestamp 0. -/
theorem detect_pca_based_shape {α : Type} [LinearOrderedField α] (sqrt : α → α)
    (flows : List (FlowRecord α)) (alerts : List (Alert α)) :
    ∃ emitted : List (Alert α),
      detect_pca_based sqrt flows alerts = alerts ++ emitted ∧
      emitted.length ≤ min (distinct_ips flows) 1000 ∧
      (emitted.map Alert.src_ip).Nodup ∧
      (∀ a ∈ emitted, a.src_ip ∈ flows.map FlowRecord.src_ip ∧ a.timestamp = 0 ∧
        a.detection_type = 2) := by
  have hinv := pca_aggregate_inv flows
  have hsub : (List.filter
      (fun e => decide (pca_distance sqrt (pca_aggregate flows) e > 3))
      (pca_aggregate flows)).Sublist (pca_aggregate flows) := List.filter_sublist _
  refine ⟨_, pca_decide_foldl sqrt (pca_aggregate flows) (pca_aggregate flows) alerts,
    ?_, ?_, ?_⟩
  · rw [List.length_map, show (1000 : Nat) = MAX_UNIQUE_IPS from rfl, ← hinv.length_eq]
    exact hsub.length_le
  · rw [List.map_map]
    exact (hsub.map IPFeatures.ip).nodup hinv.nodup
  · intro a ha
    simp only [List.mem_map, List.mem_filter, decide_eq_true_eq] at ha
    obtain ⟨e, ⟨he, _⟩, rfl⟩ := ha
    exact ⟨hinv.key_mem _ _ _ e.ip (List.mem_map_of_mem _ he), rfl, rfl⟩

/-- What the CUSUM detector appends: at most one alert per table entry, of kind 3 and
timestamp 0. -/
theorem detect_cusum_based_shape {α : Type} [LinearOrderedField α]
    (flows : List (FlowRecord α)) (alerts : List (Alert α)) :
    ∃ emitted : List (Alert α),
      detect_cusum_based flows alerts = alerts ++ emitted ∧
      emitted.length ≤ min (distinct_ips flows) 1000 ∧
      (emitted.map Alert.src_ip).Nodup ∧
      (∀ a ∈ emitted, a.src_ip ∈ flows.map FlowRecord.src_ip ∧ a.timestamp = 0 ∧
        a.detection_type = 3) := by
  have hinv := cusum_aggregate_inv flows
  have hsub : (List.filter (fun e => decide (cusum_high_of e > 5 * 50000))
      (cusum_aggregate flows)).Sublist (cusum_aggregate flows) := List.filter_sublist _
  refine ⟨_, cusum_decide_foldl (cusum_aggregate flows) alerts, ?_, ?_, ?_⟩
  · rw [List.length_map, show (1000 : Nat) = MAX_UNIQUE_IPS from rfl, ← hinv.length_eq]
    exact hsub.length_le
  · rw [List.map_map]
    exact (hsub.map CUSUMState.ip).nodup hinv.nodup
  · intro a ha
    simp only [List.mem_map, List.mem_filter, decide_eq_true_eq] at ha
    obtain ⟨e, ⟨he, _⟩, rfl⟩ := ha
    exact ⟨hinv.key_mem _ _ _ e.ip (List.mem_map_of_mem _ he), rfl, rfl⟩

/-- Every entry of a per-IP table has a positive flow count (PCA table). -/
theorem pca_flow_count_pos {α : Type} [LinearOrderedField α] (flows : List (FlowRecord α))
    (e : IPFeatures α) (he : e ∈ pca_aggregate flows) : 0 < e.flow_count := by
  have h := (pca_aggregate_inv flows).entry e he
  cases hfs : flows.filter (fun f => decide (f.src_ip = e.ip)) with
  | nil => rw [hfs] at h; simp [fold_entry] at h
  | cons f rest =>
    rw [hfs] at h
    simp only [fold_entry, Option.some.injEq] at h
    rw [pca_foldl] at h
    rw [← h]
    simp only
    omega

/-- Every entry of a per-IP table has a positive flow count (CUSUM table). -/
theorem cusum_flow_count_pos {α : Type} [LinearOrderedField α] (flows : List (FlowRecord α))
    (e : CUSUMState α) (he : e ∈ cusum_aggregate flows) : 0 < e.flow_count := by
  have h := (cusum_aggregate_inv flows).entry e he
  cases hfs : flows.filter (fun f => decide (f.src_ip = e.ip)) with
  | nil => rw [hfs] at h; simp [fold_entry] at h
  | cons f rest =>
    rw [hfs] at h
    simp only [fold_entry, Option.some.injEq] at h
    rw [cusum_foldl] at h
    rw [← h]
    simp only
    omega

theorem pca_stddev_pos {α : Type} [LinearOrderedField α] (sqrt : α → α)
    (t : List (IPFeatures α)) (k : Fin 5) : 0 < pca_stddev sqrt t k := by
  unfold pca_stddev
  simp only
  split
  · exact one_pos
  · rename_i h
    have h6 : (0 : α) < 1 / 1000000 := by norm_num
    exact lt_of_lt_of_le h6 (not_lt.1 h)

/-- C12: each of the three detectors appends at most `min d 1000` alerts, `d` the number of
distinct source IPs of the window, and no source IP twice; on the empty window every
detector leaves the alert list unchanged and `run_detection` returns no alert; and every
divisor met while an alert is decided is non-zero: the flow count of each table entry and
`unique_ips` whenever the table has an entry, and the substituted standard deviation. -/
theorem detectors_alert_bound {α : Type} [LinearOrderedField α] (log2 sqrt : α → α)
    (flows : List (FlowRecord α)) (alerts : List (Alert α)) :
    (∃ emitted : List (Alert α), detect_entropy_based log2 flows alerts = alerts ++ emitted ∧
      emitted.length ≤ min (distinct_ips flows) 1000 ∧ (emitted.map Alert.src_ip).Nodup) ∧
    (∃ emitted : List (Alert α), detect_pca_based sqrt flows alerts = alerts ++ emitted ∧
      emitted.length ≤ min (distinct_ips flows) 1000 ∧ (emitted.map Alert.src_ip).Nodup) ∧
    (∃ emitted : List (Alert α), detect_cusum_based flows alerts = alerts ++ emitted ∧
      emitted.length ≤ min (distinct_ips flows) 1000 ∧ (emitted.map Alert.src_ip).Nodup) ∧
    (detect_entropy_based log2 [] alerts = alerts ∧ detect_pca_based sqrt [] alerts = alerts ∧
      detect_cusum_based [] alerts = alerts ∧ run_detection log2 sqrt [] = []) ∧
    (∀ e ∈ pca_aggregate flows, 0 < e.flow_count ∧ 0 < (pca_aggregate flows).length) ∧
    (∀ k, 0 < pca_stddev sqrt (pca_aggregate flows) k) ∧
    (∀ e ∈ cusum_aggregate flows, 0 < e.flow_count) := by
  obtain ⟨e1, h1, h1l, h1n, _⟩ := detect_entropy_based_shape log2 flows alerts
  obtain ⟨e2, h2, h2l, h2n, _⟩ := detect_pca_based_shape sqrt flows alerts
  obtain ⟨e3, h3, h3l, h3n, _⟩ := detect_cusum_based_shape flows alerts
  refine ⟨⟨e1, h1, h1l, h1n⟩, ⟨e2, h2, h2l, h2n⟩, ⟨e3, h3, h3l, h3n⟩, ⟨?_, rfl, rfl, ?_⟩, ?_,
    fun k => pca_stddev_pos sqrt _ k, fun e he => cusum_flow_count_pos flows e he⟩
  · simp [detect_entropy_based]
  · simp [run_detection, detect_entropy_based, detect_pca_based, detect_cusum_based,
      pca_aggregate, cusum_aggregate]
  · intro e he
    exact ⟨pca_flow_count_pos flows e he, List.length_pos_of_mem he⟩

/-- C12 evaluated on ten flows from `10.0.0.1` (one distinct source IP): each detector
appends at most one alert. -/
theorem detectors_alert_bound_witness :
    (∃ emitted : List (Alert ℝ),
      detect_entropy_based (Real.logb 2) (window_single 10 : List (FlowRecord ℝ)) [] =
        [] ++ emitted ∧ emitted.length ≤ 1) ∧
    (∃ emitted : List (Alert ℝ),
      detect_pca_based Real.sqrt (window_single 10 : List (FlowRecord ℝ)) [] =
        [] ++ emitted ∧ emitted.length ≤ 1) ∧
    (∃ emitted : List (Alert ℝ),
      detect_cusum_based (window_single 10 : List (FlowRecord ℝ)) [] =
        [] ++ emitted ∧ emitted.length ≤ 1) := by
  have hd : min (distinct_ips (window_single 10 : List (FlowRecord ℝ))) 1000 = 1 := by decide
  obtain ⟨⟨e1, h1, h1l, _⟩, ⟨e2, h2, h2l, _⟩, ⟨e3, h3, h3l, _⟩, _⟩ :=
    detectors_alert_bound (Real.logb 2) Real.sqrt (window_single 10 : List (FlowRecord ℝ)) []
  rw [hd] at h1l h2l h3l
  exact ⟨⟨e1, h1, h1l⟩, ⟨e2, h2, h2l⟩, ⟨e3, h3, h3l⟩⟩

/-- C13: every alert produced by `run_detection` on a window carries the source IP of some
flow of that window (alerts are built from `src_ip` entries only, never from `dst_ip`), has
timestamp 0, and has kind 1, 2 or 3. -/
theorem run_detection_well_formed {α : Type} [LinearOrderedField α] (log2 sqrt : α → α)
    (flows : List (FlowRecord α)) (a : Alert α) (ha : a ∈ run_detection log2 sqrt flows) :
    a.src_ip ∈ flows.map FlowRecord.src_ip ∧ a.timestamp = 0 ∧
      (a.detection_type = 1 ∨ a.detection_type = 2 ∨ a.detection_type = 3) := by
  unfold run_detection at ha
  obtain ⟨e1, h1, _, _, w1⟩ := detect_entropy_based_shape log2 flows []
  obtain ⟨e2, h2, _, _, w2⟩ := detect_pca_based_shape sqrt flows
    (detect_entropy_based log2 flows [])
  obtain ⟨e3, h3, _, _, w3⟩ := detect_cusum_based_shape flows
    (detect_pca_based sqrt flows (detect_entropy_based log2 flows []))
  rw [h3, h2, h1, List.nil_append] at ha
  rcases List.mem_append.1 ha with ha | ha
  · rcases List.mem_append.1 ha with ha | ha
    · obtain ⟨x, y, z⟩ := w1 a ha
      exact ⟨x, y, Or.inl z⟩
    · obtain ⟨x, y, z⟩ := w2 a ha
      exact ⟨x, y, Or.inr (Or.inl z)⟩
  · obtain ⟨x, y, z⟩ := w3 a ha
    exact ⟨x, y, Or.inr (Or.inr z)⟩

/-- The detectors only append: an alert already in the list stays in it. -/
theorem mem_run_detection_of_entropy {α : Type} [LinearOrderedField α] (log2 sqrt : α → α)
    (flows : List (FlowRecord α)) (a : Alert α)
    (ha : a ∈ detect_entropy_based log2 flows []) : a ∈ run_detection log2 sqrt flows := by
  unfold run_detection
  obtain ⟨e2, h2, _⟩ := detect_pca_based_shape sqrt flows (detect_entropy_based log2 flows [])
  obtain ⟨e3, h3, _⟩ := detect_cusum_based_shape flows
    (detect_pca_based sqrt flows (detect_entropy_based log2 flows []))
  rw [h3, h2]
  exact List.mem_append_left _ (List.mem_append_left _ ha)

/-- C13 evaluated on the entropy alert that `run_detection` emits for ten flows from
`10.0.0.1`, over the reals. -/
theorem run_detection_well_formed_witness :
    (single_source_alert : Alert ℝ) ∈
      run_detection (Real.logb 2) Real.sqrt (window_single 10 : List (FlowRecord ℝ)) ∧
    (single_source_alert : Alert ℝ).src_ip ∈
      (window_single 10 : List (FlowRecord ℝ)).map FlowRecord.src_ip := by
  have hmem : (single_source_alert : Alert ℝ) ∈
      run_detection (Real.logb 2) Real.sqrt (window_single 10 : List (FlowRecord ℝ)) := by
    apply mem_run_detection_of_entropy
    rw [detect_single_source (Real.logb 2) Real.logb_one
      (window_single 10 : List (FlowRecord ℝ)) "10.0.0.1"
      (by rw [window_single_length]) (window_single_src_ip 10) []]
    simp [single_source_alert]
  exact ⟨hmem, (run_detection_well_formed (Real.logb 2) Real.sqrt _ _ hmem).1⟩

/-! ## The partition of the input among the workers -/

theorem worker_partition_eq (rank size total_lines : Int) (hL : 0 ≤ total_lines)
    (hW : 1 ≤ size - 1) :
    worker_partition rank size total_lines =
      ((rank - 1) * (total_lines / (size - 1)),
        if rank = size - 1 then total_lines - (rank - 1) * (total_lines / (size - 1))
        else total_lines / (size - 1)) := by
  simp [worker_partition, Int.tdiv_eq_ediv hL (by omega : (0 : Int) ≤ size - 1)]

/-- The range of a worker in terms of the quotient `q = total_lines / workers`: worker
`rank` below the last owns `[(rank - 1) q, rank q)`, the last owns `[(W - 1) q, L)`. -/
theorem in_partition_iff (rank size total_lines x : Int) (hL : 0 ≤ total_lines)
    (hW : 1 ≤ size - 1) :
    in_partition rank size total_lines x ↔
      ((rank - 1) * (total_lines / (size - 1)) ≤ x ∧
        x < if rank = size - 1 then total_lines else rank * (total_lines / (size - 1))) := by
  unfold in_partition
  rw [worker_partition_eq rank size total_lines hL hW]
  simp only
  by_cases h : rank = size - 1
  · simp only [h, if_true]
    constructor
    · rintro ⟨h1, h2⟩; exact ⟨h1, by linarith⟩
    · rintro ⟨h1, h2⟩; exact ⟨h1, by linarith⟩
  · simp only [h, if_false]
    constructor
    · rintro ⟨h1, h2⟩; exact ⟨h1, by linarith⟩
    · rintro ⟨h1, h2⟩; exact ⟨h1, by linarith⟩

theorem partition_ordered (r1 r2 size total_lines x : Int) (hL : 0 ≤ total_lines)
    (hW : 1 ≤ size - 1) (h12 : r1 < r2) (h2 : r2 ≤ size - 1)
    (hx1 : in_partition r1 size total_lines x) (hx2 : in_partition r2 size total_lines x) :
    False := by
  rw [in_partition_iff _ _ _ _ hL hW] at hx1 hx2
  have hq0 : 0 ≤ total_lines / (size - 1) := Int.ediv_nonneg hL (by omega)
  have hne : r1 ≠ size - 1 := by omega
  rw [if_neg hne] at hx1
  have hmul : r1 * (total_lines / (size - 1)) ≤ (r2 - 1) * (total_lines / (size - 1)) :=
    Int.mul_le_mul_of_nonneg_right (by omega) hq0
  linarith [hx1.2, hx2.1]

/-- C17: for every line count `L ≥ 0` and worker count `W ≥ 1` (ranks `1 .. W` among
`size = W + 1` processes), the ranges `[start_line, start_line + my_lines)` computed by the
workers lie in `[0, L)`, cover it, and are pairwise disjoint; for `L = 1000` and `W = 3`
they are `[0, 333)`, `[333, 666)` and `[666, 1000)`. -/
theorem worker_partition_cover (total_lines size : Int) (hL : 0 ≤ total_lines)
    (hW : 1 ≤ size - 1) :
    (∀ rank x, 1 ≤ rank → rank ≤ size - 1 → in_partition rank size total_lines x →
      0 ≤ x ∧ x < total_lines) ∧
    (∀ x, 0 ≤ x → x < total_lines →
      ∃ rank, 1 ≤ rank ∧ rank ≤ size - 1 ∧ in_partition rank size total_lines x) ∧
    (∀ r1 r2 x, 1 ≤ r1 → r1 ≤ size - 1 → 1 ≤ r2 → r2 ≤ size - 1 →
      in_partition r1 size total_lines x → in_partition r2 size total_lines x → r1 = r2) ∧
    (worker_partition 1 4 1000 = (0, 333) ∧ worker_partition 2 4 1000 = (333, 333) ∧
      worker_partition 3 4 1000 = (666, 334)) := by
  have hWpos : (0 : Int) < size - 1 := by omega
  have hq0 : 0 ≤ total_lines / (size - 1) := Int.ediv_nonneg hL (by omega)
  have hq1 : total_lines / (size - 1) * (size - 1) ≤ total_lines :=
    Int.ediv_mul_le _ (by omega)
  refine ⟨?_, ?_, ?_, by decide⟩
  · intro rank x h1 h2 hx
    rw [in_partition_iff _ _ _ _ hL hW] at hx
    have hs : 0 ≤ (rank - 1) * (total_lines / (size - 1)) := mul_nonneg (by omega) hq0
    refine ⟨by linarith [hx.1], ?_⟩
    by_cases h : rank = size - 1
    · rw [if_pos h] at hx; exact hx.2
    · rw [if_neg h] at hx
      have hmul : rank * (total_lines / (size - 1)) ≤
          (size - 1) * (total_lines / (size - 1)) :=
        Int.mul_le_mul_of_nonneg_right h2 hq0
      linarith [hx.2, mul_comm (size - 1) (total_lines / (size - 1))]
  · intro x hx0 hxL
    by_cases hlast : (size - 1 - 1) * (total_lines / (size - 1)) ≤ x
    · refine ⟨size - 1, hW, le_refl _, ?_⟩
      rw [in_partition_iff _ _ _ _ hL hW, if_pos rfl]
      exact ⟨hlast, hxL⟩
    · have hlt : x < (size - 1 - 1) * (total_lines / (size - 1)) := not_le.1 hlast
      have hqpos : 0 < total_lines / (size - 1) := by
        rcases lt_or_eq_of_le hq0 with h | h
        · exact h
        · rw [← h] at hlt
          simp at hlt
          omega
      have hdiv : x / (total_lines / (size - 1)) < size - 1 - 1 :=
        Int.ediv_lt_of_lt_mul hqpos hlt
      have hdiv0 : 0 ≤ x / (total_lines / (size - 1)) := Int.ediv_nonneg hx0 hq0
      have hlo : x / (total_lines / (size - 1)) * (total_lines / (size - 1)) ≤ x :=
        Int.ediv_mul_le _ (ne_of_gt hqpos)
      have hhi : x < (x / (total_lines / (size - 1)) + 1) * (total_lines / (size - 1)) :=
        Int.lt_ediv_add_one_mul_self _ hqpos
      refine ⟨x / (total_lines / (size - 1)) + 1, by omega, by omega, ?_⟩
      rw [in_partition_iff _ _ _ _ hL hW, if_neg (by omega)]
      refine ⟨?_, hhi⟩
      rw [show x / (total_lines / (size - 1)) + 1 - 1 = x / (total_lines / (size - 1)) by ring]
      exact hlo
  · intro r1 r2 x h11 h12 h21 h22 hx1 hx2
    rcases lt_trichotomy r1 r2 with h | h | h
    · exact (partition_ordered r1 r2 size total_lines x hL hW h h22 hx1 hx2).elim
    · exact h
    · exact (partition_ordered r2 r1 size total_lines x hL hW h h12 hx2 hx1).elim

/-- C17 evaluated for 1000 lines and 3 workers (scenario 6 of the specification): the
ranges are `[0, 333)`, `[333, 666)` and `[666, 1000)`, and line 665 belongs to worker 2
only. -/
theorem worker_partition_cover_witness :
    ((0 : Int) ≤ 1000 ∧ (1 : Int) ≤ 4 - 1) ∧
    worker_partition 1 4 1000 = (0, 333) ∧ worker_partition 2 4 1000 = (333, 333) ∧
    worker_partition 3 4 1000 = (666, 334) ∧
    (∀ rank, 1 ≤ rank → rank ≤ 4 - 1 → in_partition rank 4 1000 665 → rank = 2) :=
  ⟨by decide, by decide, by decide, by decide, fun rank h1 h2 hx =>
    (worker_partition_cover 1000 4 (by decide) (by decide)).2.2.1 rank 2 665 h1 h2
      (by decide) (by decide) hx (by decide)⟩

/-! ## The CSV line parser -/

theorem csv_fields_ne_nil (s : List Char) : csv_fields s ≠ [] := by
  cases s with
  | nil => simp [csv_fields]
  | cons c s =>
    unfold csv_fields
    split
    · simp
    · split <;> simp

/-- The first field is the line up to its first comma. -/
theorem csv_fields_head (s : List Char) :
    (csv_fields s).getD 0 [] = s.takeWhile (fun c => decide (c ≠ ',')) := by
  induction s with
  | nil => simp [csv_fields]
  | cons c s ih =>
    unfold csv_fields
    by_cases hc : c = ','
    · simp [hc]
    · simp only [hc, if_false]
      cases hfs : csv_fields s with
      | nil => exact absurd hfs (csv_fields_ne_nil s)
      | cons f fs =>
        rw [hfs] at ih
        simp only [List.getD_cons_zero] at ih
        simp [hc, ih]

/-- A later field of `c :: s` is a field of `s`. -/
theorem csv_fields_succ (c : Char) (s : List Char) (j : Nat) :
    (csv_fields (c :: s)).getD (j + 1) [] =
      if c = ',' then (csv_fields s).getD j [] else (csv_fields s).getD (j + 1) [] := by
  conv => lhs; unfold csv_fields
  by_cases hc : c = ','
  · simp [hc]
  · simp only [hc, if_false]
    cases hfs : csv_fields s with
    | nil => exact absurd hfs (csv_fields_ne_nil s)
    | cons f fs => simp

/-- The fast-forward loop stops at the start of the requested field. -/
theorem skip_fields_spec (s : List Char) (current field_num : Nat) (h : current ≤ field_num) :
    (skip_fields s current field_num).takeWhile (fun c => decide (c ≠ ',')) =
      (csv_fields s).getD (field_num - current) [] := by
  induction s generalizing current with
  | nil =>
    simp only [skip_fields, List.takeWhile_nil, csv_fields]
    cases field_num - current <;> simp
  | cons c s ih =>
    unfold skip_fields
    by_cases hlt : current < field_num
    · simp only [hlt, if_true]
      obtain ⟨j, hj⟩ : ∃ j, field_num - current = j + 1 := ⟨field_num - current - 1, by omega⟩
      rw [hj, csv_fields_succ]
      by_cases hc : c = ','
      · simp only [hc, if_true]
        rw [ih (current + 1) (by omega)]
        congr 1
        omega
      · simp only [hc, if_false]
        rw [ih current h, hj]
    · simp only [hlt, if_false]
      have : field_num - current = 0 := by omega
      rw [this, csv_fields_head]

theorem takeWhile_and (p q : Char → Bool) (l : List Char) :
    l.takeWhile (fun c => p c && q c) = (l.takeWhile p).takeWhile q := by
  induction l with
  | nil => rfl
  | cons c s ih =>
    by_cases hp : p c = true <;> by_cases hq : q c = true <;>
      simp [List.takeWhile_cons, hp, hq, ih]

/-- What `get_field` returns: the first 255 bytes of the requested column. -/
theorem get_field_eq (line : List Char) (k : Nat) :
    get_field line k = (csv_column line k).take 255 := by
  unfold get_field csv_column
  simp only
  have h := skip_fields_spec line 0 k (Nat.zero_le _)
  rw [Nat.sub_zero] at h
  rw [← h, ← takeWhile_and]
  congr 2
  funext c
  by_cases h1 : c = ',' <;> by_cases h2 : c = '\n' <;> by_cases h3 : c = '\r' <;>
    simp [h1, h2, h3]

/-- A column beyond the last field of the line is empty. -/
theorem csv_column_missing (line : List Char) (k : Nat) (h : (csv_fields line).length ≤ k) :
    csv_column line k = [] := by
  unfold csv_column
  rw [List.getD_eq_default _ _ h]
  rfl

theorem strstr_iff (haystack needle : List Char) :
    strstr haystack needle = true ↔ needle <:+: haystack := by
  induction haystack with
  | nil =>
    cases needle with
    | nil => simp [strstr]
    | cons c s => simp [strstr]
  | cons c s ih =>
    unfold strstr
    rw [Bool.or_eq_true, ih, List.isPrefixOf_iff_prefix, List.infix_cons_iff]

theorem parse_csv_line_none_iff {α : Type} (atoi : List Char → Int) (atof : List Char → α)
    (line : List Char) : parse_csv_line atoi atof line = none ↔ line.length < 10 := by
  unfold parse_csv_line
  by_cases h : line.length < 10 <;> simp [h]

/-- The label test of an accepted line. -/
theorem parse_csv_line_is_attack {α : Type} (atoi : List Char → Int) (atof : List Char → α)
    (line : List Char) (r : FlowRecord α) (h : parse_csv_line atoi atof line = some r) :
    r.is_attack =
      if strstr (get_field line 18) "DrDoS".toList || strstr (get_field line 18) "DDoS".toList
      then 1 else 0 := by
  unfold parse_csv_line at h
  by_cases hl : line.length < 10
  · simp [hl] at h
  · simp only [hl, if_false, Option.some.injEq] at h
    rw [← h]

/-! ## Claims on the CSV line parser -/

/-- C14 as stated fails: the label of `line_long_label` (field 18, 256 bytes) ends in
`DDoS`, the line is accepted, and `is_attack` is 0 because `get_field` keeps only the first
255 bytes of the field. -/
theorem parse_csv_line_label_counterexample :
    (parse_csv_line atoi_zero atof_zero line_long_label).map FlowRecord.is_attack = some 0 ∧
    "DDoS".toList <:+: csv_column line_long_label 18 := by
  refine ⟨by set_option maxRecDepth 100000 in decide, ?_⟩
  rw [← strstr_iff]
  set_option maxRecDepth 100000 in decide

/-- C14 (amended): for every line that `parse_csv_line` accepts, `is_attack` is 1 if the
first 255 bytes of the label column (field 18) contain `DDoS` or `DrDoS`, compared byte by
byte, and 0 otherwise; for a label column of at most 255 bytes that is: iff the label
column contains `DDoS` or `DrDoS`. -/
theorem parse_csv_line_label {α : Type} (atoi : List Char → Int) (atof : List Char → α)
    (line : List Char) (r : FlowRecord α) (h : parse_csv_line atoi atof line = some r) :
    (r.is_attack = 1 ∨ r.is_attack = 0) ∧
    (r.is_attack ≠ 0 ↔
      ("DDoS".toList <:+: (csv_column line 18).take 255 ∨
        "DrDoS".toList <:+: (csv_column line 18).take 255)) ∧
    ((csv_column line 18).length ≤ 255 →
      (r.is_attack ≠ 0 ↔
        ("DDoS".toList <:+: csv_column line 18 ∨ "DrDoS".toList <:+: csv_column line 18))) := by
  have hia := parse_csv_line_is_attack atoi atof line r h
  rw [get_field_eq] at hia
  have hmain : r.is_attack ≠ 0 ↔
      ("DDoS".toList <:+: (csv_column line 18).take 255 ∨
        "DrDoS".toList <:+: (csv_column line 18).take 255) := by
    rw [hia, ← strstr_iff, ← strstr_iff]
    generalize strstr ((csv_column line 18).take 255) "DrDoS".toList = a
    generalize strstr ((csv_column line 18).take 255) "DDoS".toList = b
    cases a <;> cases b <;> simp
  refine ⟨?_, hmain, ?_⟩
  · rw [hia]
    split
    · exact Or.inl rfl
    · exact Or.inr rfl
  · intro hlen
    rw [List.take_of_length_le hlen] at hmain
    exact hmain

/-- C14 (amended) evaluated on `line_attack`, labelled `DrDoS_UDP`. -/
theorem parse_csv_line_label_witness :
    ∃ r : FlowRecord ℚ, parse_csv_line atoi_zero atof_zero line_attack = some r ∧
      r.is_attack ≠ 0 ∧ "DrDoS".toList <:+: csv_column line_attack 18 := by
  have hsome : (parse_csv_line atoi_zero atof_zero line_attack).isSome = true := by decide
  obtain ⟨r, hr⟩ := Option.isSome_iff_exists.1 hsome
  have hspec := parse_csv_line_label atoi_zero atof_zero line_attack r hr
  have hinf : "DrDoS".toList <:+: csv_column line_attack 18 := by
    rw [← strstr_iff]
    decide
  exact ⟨r, hr, (hspec.2.2 (by decide)).2 (Or.inr hinf), hinf⟩

/-- C15 as stated fails: `line_three_fields` has 3 of the 19 fields, it is accepted, and
`read_csv_chunk` returns its record. -/
theorem parse_csv_line_missing_fields_counterexample :
    (csv_fields line_three_fields).length = 3 ∧
    (parse_csv_line atoi_zero atof_zero line_three_fields).isSome = true ∧
    (read_csv_chunk atoi_zero atof_zero (some (line_header ++ line_three_fields)) 0 1).2.map
      FlowRecord.src_ip = ["10.0.0.1"] := by
  refine ⟨by decide, by decide, by decide⟩

/-- C15 (amended): a line with fewer than 19 comma-separated fields is failed by
`parse_csv_line` if and only if it is shorter than 10 bytes; when it is accepted every
missing field is read as the empty string and `is_attack` is 0. -/
theorem parse_csv_line_missing_fields {α : Type} (atoi : List Char → Int)
    (atof : List Char → α) (line : List Char) (h : (csv_fields line).length < 19) :
    (parse_csv_line atoi atof line = none ↔ line.length < 10) ∧
    (∀ k, (csv_fields line).length ≤ k → get_field line k = []) ∧
    (∀ r, parse_csv_line atoi atof line = some r → r.is_attack = 0) := by
  have hmiss : ∀ k, (csv_fields line).length ≤ k → get_field line k = [] := by
    intro k hk
    rw [get_field_eq, csv_column_missing line k hk]
    rfl
  refine ⟨parse_csv_line_none_iff atoi atof line, hmiss, ?_⟩
  intro r hr
  rw [parse_csv_line_is_attack atoi atof line r hr, hmiss 18 (by omega)]
  decide

/-- C15 (amended) evaluated on `line_three_fields`: accepted, with `is_attack = 0`. -/
theorem parse_csv_line_missing_fields_witness :
    (csv_fields line_three_fields).length < 19 ∧
    ¬ (parse_csv_line atoi_zero atof_zero line_three_fields = none) ∧
    get_field line_three_fields 18 = [] :=
  have h := parse_csv_line_missing_fields atoi_zero atof_zero line_three_fields (by decide)
  ⟨by decide, fun hn => absurd (h.1.1 hn) (by decide), h.2.1 18 (by decide)⟩

/-- C16: `parse_csv_line` rejects every line shorter than 10 bytes, and the reading loop of
`read_csv_chunk` leaves `records` and `records_read` as they are for such a line while
`current_line` advances. -/
theorem parse_csv_line_short {α : Type} (atoi : List Char → Int) (atof : List Char → α)
    (line : List Char) (h : line.length < 10) :
    parse_csv_line atoi atof line = none ∧
    ∀ (count end_line : Int) (rest : List (List Char)) (current_line : Int)
      (records : List (FlowRecord α)),
      chunk_loop atoi atof count end_line (line :: rest) current_line records =
        if (records.length : Int) < count ∧ current_line < end_line then
          chunk_loop atoi atof count end_line rest (current_line + 1) records
        else records := by
  have hnone := (parse_csv_line_none_iff atoi atof line).2 h
  refine ⟨hnone, ?_⟩
  intro count end_line rest current_line records
  conv => lhs; unfold chunk_loop
  rw [hnone]

/-- C16 evaluated on `line_short` (9 bytes) between two valid lines: the chunk holds the
two valid records only. -/
theorem parse_csv_line_short_witness :
    line_short.length < 10 ∧
    parse_csv_line atoi_zero atof_zero line_short = none ∧
    (read_csv_chunk atoi_zero atof_zero
      (some (line_header ++ line_attack ++ line_short ++ line_benign)) 0 3).2.map
        FlowRecord.src_ip = ["10.0.0.1", "10.0.0.3"] :=
  ⟨by decide, (parse_csv_line_short atoi_zero atof_zero line_short (by decide)).1,
    by set_option maxRecDepth 100000 in decide⟩

/-! ## Reading the file line by line -/

theorem file_lines_eq_nil (s : List Char) (h : file_lines s = []) : s = [] := by
  cases s with
  | nil => rfl
  | cons c s =>
    unfold file_lines at h
    split at h
    · simp at h
    · split at h <;> simp at h

theorem read_line_nil (n : Nat) : read_line n [] = ([], []) := by
  cases n <;> rfl

theorem read_line_length (n : Nat) (s : List Char) :
    (read_line n s).1.length + (read_line n s).2.length = s.length := by
  induction s generalizing n with
  | nil => rw [read_line_nil]; rfl
  | cons c s ih =>
    cases n with
    | zero => simp [read_line]
    | succ n =>
      unfold read_line
      by_cases hc : c = '\n'
      · simp [hc]
        omega
      · simp only [hc, if_false, List.length_cons]
        have := ih n
        omega

/-- One `fgets` call with room for the whole first line returns that line and leaves the
remaining lines. -/
theorem read_line_spec (s : List Char) (n : Nat) (l : List Char) (ls : List (List Char))
    (hfl : file_lines s = l :: ls) (hlen : l.length ≤ n) :
    (read_line n s).1 = l ∧ file_lines (read_line n s).2 = ls := by
  induction s generalizing n l ls with
  | nil => simp [file_lines] at hfl
  | cons c s ih =>
    unfold file_lines at hfl
    by_cases hc : c = '\n'
    · simp only [hc, if_true, List.cons.injEq] at hfl
      obtain ⟨h1, h2⟩ := hfl
      subst h1
      cases n with
      | zero => simp at hlen
      | succ n => simp [read_line, hc, h2]
    · simp only [hc, if_false] at hfl
      cases hfs : file_lines s with
      | nil =>
        rw [hfs] at hfl
        simp only [List.cons.injEq] at hfl
        obtain ⟨h1, h2⟩ := hfl
        have hs : s = [] := file_lines_eq_nil s hfs
        subst h1 h2 hs
        cases n with
        | zero => simp at hlen
        | succ n => simp [read_line, hc, read_line_nil, file_lines]
      | cons l2 ls2 =>
        rw [hfs] at hfl
        simp only [List.cons.injEq] at hfl
        obtain ⟨h1, h2⟩ := hfl
        subst h1 h2
        cases n with
        | zero => simp at hlen
        | succ n =>
          have := ih n l2 ls2 hfs (by simpa using hlen)
          simp [read_line, hc, this.1, this.2]

/-- When every line fits the buffer, the loop over `fgets` sees the lines of the file. -/
theorem fgets_loop_eq (fuel : Nat) (fp : List Char) (hfuel : fp.length ≤ fuel)
    (hlines : ∀ l ∈ file_lines fp, l.length < MAX_LINE_LEN) :
    fgets_loop fuel fp = file_lines fp := by
  induction fuel generalizing fp with
  | zero =>
    have : fp = [] := List.length_eq_zero.1 (by omega)
    subst this
    rfl
  | succ fuel ih =>
    cases fp with
    | nil => rfl
    | cons c s =>
      cases hfl : file_lines (c :: s) with
      | nil => exact absurd (file_lines_eq_nil _ hfl) (by simp)
      | cons l ls =>
        have hl : l.length < MAX_LINE_LEN := hlines l (by rw [hfl]; simp)
        have hspec := read_line_spec (c :: s) (MAX_LINE_LEN - 1) l ls hfl (by omega)
        have hlenr := read_line_length (MAX_LINE_LEN - 1) (c :: s)
        have hlpos : 0 < l.length := by
          cases l with
          | nil =>
            unfold file_lines at hfl
            split at hfl
            · simp at hfl
            · split at hfl <;> simp at hfl
          | cons _ _ => simp
        unfold fgets_loop fgets
        simp only
        rw [ih (read_line (MAX_LINE_LEN - 1) (c :: s)).2 (by
            rw [hspec.1] at hlenr
            simp only [List.length_cons] at hlenr hfuel
            omega) (by
            intro x hx
            rw [hspec.2] at hx
            exact hlines x (by rw [hfl]; simp [hx])), hspec.1, hspec.2]

theorem fgets_lines_eq (fp : List Char)
    (hlines : ∀ l ∈ file_lines fp, l.length < MAX_LINE_LEN) :
    fgets_lines fp = file_lines fp :=
  fgets_loop_eq fp.length fp (le_refl _) hlines

/-- The skipping loop drops `start_line - current_line` lines, or all of them. -/
theorem skip_loop_spec (lines : List (List Char)) (current_line start_line : Int)
    (h : current_line ≤ start_line) :
    skip_loop lines current_line start_line =
      (lines.drop (start_line - current_line).toNat,
        min start_line (current_line + (lines.length : Int))) := by
  induction lines generalizing current_line with
  | nil =>
    simp only [skip_loop, List.drop_nil, List.length_nil, Nat.cast_zero, add_zero]
    rw [min_eq_right h]
  | cons l ls ih =>
    unfold skip_loop
    by_cases hlt : current_line < start_line
    · simp only [hlt, if_true]
      rw [ih (current_line + 1) (by omega)]
      have hn : (start_line - current_line).toNat = (start_line - (current_line + 1)).toNat + 1 := by
        omega
      rw [hn, List.drop_succ_cons]
      simp only [List.length_cons, Nat.cast_add, Nat.cast_one, Prod.mk.injEq, true_and]
      congr 1
      omega
    · simp only [hlt, if_false]
      have heq : current_line = start_line := by omega
      subst heq
      simp only [sub_self, Int.toNat_zero, List.drop_zero, List.length_cons, Prod.mk.injEq,
        true_and]
      rw [min_eq_left]
      have : (0 : Int) ≤ ((ls.length + 1 : Nat) : Int) := Int.natCast_nonneg _
      omega

/-- The reading loop appends the records of the accepted lines among the next
`end_line - current_line` lines, as long as the output has room for all of them. -/
theorem chunk_loop_spec {α : Type} (atoi : List Char → Int) (atof : List Char → α)
    (count end_line : Int) (lines : List (List Char)) (current_line : Int)
    (records : List (FlowRecord α))
    (hroom : current_line < end_line →
      (records.length : Int) + (end_line - current_line) ≤ count) :
    chunk_loop atoi atof count end_line lines current_line records =
      records ++ (lines.take (end_line - current_line).toNat).filterMap
        (parse_csv_line atoi atof) := by
  induction lines generalizing current_line records with
  | nil => simp [chunk_loop]
  | cons l ls ih =>
    unfold chunk_loop
    by_cases hlt : current_line < end_line
    · have hr := hroom hlt
      have hcond : (records.length : Int) < count ∧ current_line < end_line := ⟨by omega, hlt⟩
      have hn : (end_line - current_line).toNat = (end_line - (current_line + 1)).toNat + 1 := by
        omega
      rw [if_pos hcond, hn, List.take_succ_cons]
      cases hp : parse_csv_line atoi atof l with
      | none =>
        simp only []
        rw [ih (current_line + 1) records (by intro h; omega), List.filterMap_cons_none hp]
      | some r =>
        simp only []
        rw [ih (current_line + 1) (records ++ [r]) (by
          intro h
          simp only [List.length_append, List.length_singleton, Nat.cast_add, Nat.cast_one]
          omega), List.filterMap_cons_some hp, List.append_assoc]
        rfl
    · have hcond : ¬ ((records.length : Int) < count ∧ current_line < end_line) :=
        fun h => hlt h.2
      have hn : (end_line - current_line).toNat = 0 := by omega
      rw [if_neg hcond, hn]
      simp

/-! ## Claims on the window reader and the line counter -/

/-- C18: for a file made of a header line followed by data lines, each line shorter than
the 2048-byte buffer, `read_csv_chunk(start_line, count)` returns 0 and, in file order, the
records of the accepted lines among the data lines `[start_line, start_line + count)` that
exist in the file; `actual_read`, their number, is at most `count`. -/
theorem read_csv_chunk_spec {α : Type} (atoi : List Char → Int) (atof : List Char → α)
    (fp header : List Char) (data : List (List Char)) (start_line count : Nat)
    (hfile : file_lines fp = header :: data)
    (hlines : ∀ l ∈ file_lines fp, l.length < MAX_LINE_LEN) :
    read_csv_chunk atoi atof (some fp) start_line count =
      (0, ((data.drop start_line).take count).filterMap (parse_csv_line atoi atof)) ∧
    (((data.drop start_line).take count).filterMap (parse_csv_line atoi atof)).length ≤
      count := by
  constructor
  · unfold read_csv_chunk
    simp only
    rw [fgets_lines_eq fp hlines, hfile,
      skip_loop_spec (header :: data) (-1) start_line (by omega)]
    simp only [List.length_cons, Nat.cast_add, Nat.cast_one]
    have hdrop : (header :: data).drop ((start_line : Int) - -1).toNat = data.drop start_line := by
      have : ((start_line : Int) - -1).toNat = start_line + 1 := by omega
      rw [this, List.drop_succ_cons]
    rw [hdrop]
    by_cases hle : start_line ≤ data.length
    · have hmin : min (start_line : Int) (-1 + ((data.length : Int) + 1)) = start_line := by
        omega
      rw [hmin, chunk_loop_spec atoi atof _ _ _ _ [] (by
        intro _
        simp only [List.length_nil, Nat.cast_zero]
        omega)]
      have hk : ((start_line : Int) + (count : Int) - (start_line : Int)).toNat = count := by
        omega
      rw [hk, List.nil_append]
    · have hnil : data.drop start_line = [] := List.drop_eq_nil_of_le (by omega)
      rw [hnil]
      simp [chunk_loop]
  · calc (((data.drop start_line).take count).filterMap (parse_csv_line atoi atof)).length
        ≤ ((data.drop start_line).take count).length := List.length_filterMap_le _ _
      _ ≤ count := by rw [List.length_take]; exact Nat.min_le_left _ _

/-- C18 evaluated on `file_sample` (scenario 5 of the specification with a short line in
the middle): the chunk of data lines `[0, 3)` holds the two valid records. -/
theorem read_csv_chunk_spec_witness :
    file_lines file_sample = line_header :: [line_attack, line_short, line_benign] ∧
    (∀ l ∈ file_lines file_sample, l.length < MAX_LINE_LEN) ∧
    (read_csv_chunk atoi_zero atof_zero (some file_sample) (0 : Nat) (3 : Nat)).2.map
      FlowRecord.src_ip = ["10.0.0.1", "10.0.0.3"] := by
  have hfile : file_lines file_sample = line_header :: [line_attack, line_short, line_benign] := by
    set_option maxRecDepth 100000 in decide
  have hlines : ∀ l ∈ file_lines file_sample, l.length < MAX_LINE_LEN := by
    rw [hfile]
    set_option maxRecDepth 100000 in decide
  refine ⟨hfile, hlines, ?_⟩
  rw [(read_csv_chunk_spec atoi_zero atof_zero file_sample line_header _ 0 3 hfile hlines).1]
  set_option maxRecDepth 100000 in decide

/-- C19 on the code: `file_no_header` starts with a valid flow line from `10.0.0.1` whose
first byte is not `U`; `count_csv_lines` counts both lines as data, but
`read_csv_chunk` with `start_line = 0` skips the first line unconditionally and returns
the record of the second line only. -/
theorem read_csv_chunk_skips_first_line :
    file_lines file_no_header = [line_attack, line_benign] ∧
    line_attack.head? ≠ some 'U' ∧
    (parse_csv_line atoi_zero atof_zero line_attack).map FlowRecord.src_ip = some "10.0.0.1" ∧
    count_csv_lines (some file_no_header) = 2 ∧
    (read_csv_chunk atoi_zero atof_zero (some file_no_header) 0 2).2.map FlowRecord.src_ip =
      ["10.0.0.3"] := by
  refine ⟨?_, by decide, ?_, ?_, ?_⟩ <;> set_option maxRecDepth 100000 in decide

/-- The counting loop once `count` is positive: every further line is counted. -/
theorem count_foldl_pos (lines : List (List Char)) (c : Int) (hc : 0 < c) :
    lines.foldl
      (fun count line => if count > 0 ∨ line.head? ≠ some 'U' then count + 1 else count) c =
      c + (lines.length : Int) := by
  induction lines generalizing c with
  | nil => simp
  | cons l ls ih =>
    rw [List.foldl_cons, if_pos (Or.inl hc), ih (c + 1) (by omega)]
    simp only [List.length_cons, Nat.cast_add, Nat.cast_one]
    omega

/-- What `count_csv_lines` computes: the number of lines left after dropping every leading
line that starts with `U`. -/
theorem count_csv_lines_eq (fp : List Char) :
    count_csv_lines (some fp) =
      (((fgets_lines fp).dropWhile (fun l => decide (l.head? = some 'U'))).length : Int) := by
  unfold count_csv_lines
  simp only
  induction fgets_lines fp with
  | nil => simp
  | cons l ls ih =>
    rw [List.foldl_cons]
    by_cases hU : l.head? = some 'U'
    · simp only [hU, gt_iff_lt, lt_self_iff_false, ne_eq, not_true_eq_false, or_self, if_false,
        List.dropWhile_cons, decide_True, if_true]
      exact ih
    · simp only [hU, ne_eq, not_false_eq_true, or_true, if_true, List.dropWhile_cons,
        decide_False, Bool.false_eq_true, if_false, List.length_cons, Nat.cast_add,
        Nat.cast_one]
      rw [count_foldl_pos ls (0 + 1) (by omega)]
      omega

/-- C20 on the code: `file_two_headers` has three lines, the first two starting with `U`;
the claim gives 3 - 1 = 2, `count_csv_lines` returns 1 because the second line is skipped
as well (`count` is still 0 when it is read). -/
theorem count_csv_lines_two_headers :
    file_lines file_two_headers = [line_header, line_header, line_attack] ∧
    line_header.head? = some 'U' ∧
    count_csv_lines (some file_two_headers) = 1 := by
  refine ⟨?_, by decide, ?_⟩ <;> set_option maxRecDepth 100000 in decide

/-! ## The coordinator's stores -/

section master

variable {α : Type}

theorem blocklist_any_iff (bl : List (BlockedIP α)) (ip : String) :
    bl.any (fun b => b.ip == ip) = decide (ip ∈ bl.map BlockedIP.ip) := by
  induction bl with
  | nil => simp
  | cons b rest ih =>
    by_cases h : b.ip = ip
    · simp [h]
    · have h2 : ¬ ip = b.ip := fun e => h e.symm
      simp [h, h2, ih]

/-- The blocklist after one alert: the old list, extended by the alert's IP exactly when
that IP is new and the list is not full. -/
theorem master_alert_step_blocklist (size : Nat) (st : MasterState α) (alert : Alert α) :
    (master_alert_step size st alert).1.global_blocklist =
      if alert.src_ip ∉ st.global_blocklist.map BlockedIP.ip ∧
          st.global_blocklist.length < 1000 then
        st.global_blocklist ++ [{ ip := alert.src_ip, blocked_time := alert.timestamp }]
      else st.global_blocklist := by
  unfold master_alert_step
  simp only [blocklist_any_iff, MAX_BLOCKED_IPS, decide_eq_false_iff_not]
  split <;> rfl

/-- The messages sent for one alert. -/
theorem master_alert_step_sent (size : Nat) (st : MasterState α) (alert : Alert α) :
    (master_alert_step size st alert).2 =
      if alert.src_ip ∉ st.global_blocklist.map BlockedIP.ip ∧
          st.global_blocklist.length < 1000 then
        broadcast size
          (st.global_blocklist ++ [{ ip := alert.src_ip, blocked_time := alert.timestamp }])
      else [] := by
  unfold master_alert_step
  simp only [blocklist_any_iff, MAX_BLOCKED_IPS, decide_eq_false_iff_not]
  split <;> rfl

/-- The alert log after one alert. -/
theorem master_alert_step_alerts (size : Nat) (st : MasterState α) (alert : Alert α) :
    (master_alert_step size st alert).1.global_alerts =
      if st.global_alerts.length < 10000 then st.global_alerts ++ [alert]
      else st.global_alerts := by
  unfold master_alert_step
  simp only [MAX_ALERTS]
  split <;> rfl

theorem master_alert_step_nodup (size : Nat) (st : MasterState α) (alert : Alert α)
    (h : (st.global_blocklist.map BlockedIP.ip).Nodup) :
    ((master_alert_step size st alert).1.global_blocklist.map BlockedIP.ip).Nodup := by
  rw [master_alert_step_blocklist]
  split
  · rename_i hc
    rw [List.map_append, List.nodup_append]
    refine ⟨h, by simp, ?_⟩
    simpa [List.disjoint_singleton] using hc.1
  · exact h

/-- An invariant of the stores that holds initially and is kept by every alert step holds
after any sequence of alerts. -/
theorem master_run_inv (size : Nat) (inv : MasterState α → Prop)
    (h0 : inv master_init)
    (hstep : ∀ st alert, inv st → inv (master_alert_step size st alert).1)
    (alerts : List (Alert α)) : inv (master_run size alerts) := by
  unfold master_run
  generalize (master_init : MasterState α) = st at h0
  induction alerts generalizing st with
  | nil => exact h0
  | cons a rest ih =>
    rw [List.foldl_cons]
    exact ih _ (hstep st a h0)

/-- The messages of a broadcast that go to one worker. -/
theorem broadcast_filter (workers : List Nat) (hnd : workers.Nodup)
    (bl : List (BlockedIP α)) (w : Nat) :
    (workers.flatMap (fun worker => [Sent.count worker (bl.length : Int),
        Sent.entries worker bl])).filter (fun s => decide (s.worker = w)) =
      if w ∈ workers then [Sent.count w (bl.length : Int), Sent.entries w bl] else [] := by
  induction workers with
  | nil => simp
  | cons x rest ih =>
    rw [List.nodup_cons] at hnd
    rw [List.flatMap_cons, List.filter_append, ih hnd.2]
    by_cases hx : x = w
    · subst hx
      simp [Sent.worker, hnd.1]
    · have hx2 : ¬ w = x := fun e => hx e.symm
      simp [Sent.worker, hx, hx2]

end master

/-! ## Claims on the coordinator's stores -/

/-- C21: starting from the empty list, after any sequence of received alerts the IPs of the
coordinator's global blocklist are pairwise distinct. -/
theorem master_blocklist_nodup {α : Type} (size : Nat) (alerts : List (Alert α)) :
    ((master_run size alerts).global_blocklist.map BlockedIP.ip).Nodup :=
  master_run_inv size (fun st => (st.global_blocklist.map BlockedIP.ip).Nodup)
    (by simp [master_init]) (fun st alert h => master_alert_step_nodup size st alert h) alerts

/-- C22: after any sequence of received alerts the global blocklist holds at most 1000
entries and the alert log at most 10000; one alert step leaves the old contents of both
stores as a prefix of the new contents; and a store that is full is left exactly as it
is. -/
theorem master_stores_bounded {α : Type} (size : Nat) (alerts : List (Alert α))
    (st : MasterState α) (alert : Alert α) :
    ((master_run size alerts).global_blocklist.length ≤ 1000 ∧
      (master_run size alerts).global_alerts.length ≤ 10000) ∧
    (st.global_alerts <+: (master_alert_step size st alert).1.global_alerts ∧
      st.global_blocklist <+: (master_alert_step size st alert).1.global_blocklist) ∧
    (10000 ≤ st.global_alerts.length →
      (master_alert_step size st alert).1.global_alerts = st.global_alerts) ∧
    (1000 ≤ st.global_blocklist.length →
      (master_alert_step size st alert).1.global_blocklist = st.global_blocklist) := by
  refine ⟨?_, ⟨?_, ?_⟩, ?_, ?_⟩
  · refine master_run_inv size
      (fun s => s.global_blocklist.length ≤ 1000 ∧ s.global_alerts.length ≤ 10000)
      (by simp [master_init]) ?_ alerts
    intro s a hs
    rw [master_alert_step_blocklist, master_alert_step_alerts]
    constructor
    · split
      · rename_i hc
        simp only [List.length_append, List.length_singleton]
        omega
      · exact hs.1
    · split
      · rename_i hc
        simp only [List.length_append, List.length_singleton]
        omega
      · exact hs.2
  · rw [master_alert_step_alerts]
    split
    · exact List.prefix_append _ _
    · exact List.prefix_refl _
  · rw [master_alert_step_blocklist]
    split
    · exact List.prefix_append _ _
    · exact List.prefix_refl _
  · intro hfull
    rw [master_alert_step_alerts, if_neg (by omega)]
  · intro hfull
    rw [master_alert_step_blocklist, if_neg (by omega)]

/-- C22 evaluated on `master_state_log_full`, whose log holds 10000 alerts: a further alert
for a new IP leaves the log as it is and extends the blocklist. -/
theorem master_stores_bounded_witness :
    10000 ≤ master_state_log_full.global_alerts.length ∧
    (master_alert_step 3 master_state_log_full (sample_alert "10.0.0.2")).1.global_alerts =
      master_state_log_full.global_alerts ∧
    master_state_log_full.global_blocklist <+:
      (master_alert_step 3 master_state_log_full (sample_alert "10.0.0.2")).1.global_blocklist := by
  have hlen : 10000 ≤ master_state_log_full.global_alerts.length := by
    unfold master_state_log_full
    simp only [List.length_replicate]
    exact le_refl _
  have h := master_stores_bounded 3 [] master_state_log_full (sample_alert "10.0.0.2")
  exact ⟨hlen, h.2.2.1 hlen, h.2.1.2⟩

/-- C23: one alert step of the coordinator.  When the alert's IP is not in the global
blocklist and the list is not full, the list becomes the old list followed by
`{ip, alert.timestamp}`, every message goes to a worker `1 .. size - 1`, and each such worker
is sent exactly the count, equal to the new length, followed by the full new list.  When the
IP is already in the list, the list is unchanged and nothing is sent. -/
theorem master_alert_step_spec {α : Type} (size : Nat) (st : MasterState α)
    (alert : Alert α) :
    (alert.src_ip ∉ st.global_blocklist.map BlockedIP.ip →
      st.global_blocklist.length < 1000 →
      (master_alert_step size st alert).1.global_blocklist =
        st.global_blocklist ++ [{ ip := alert.src_ip, blocked_time := alert.timestamp }] ∧
      (∀ s ∈ (master_alert_step size st alert).2, 1 ≤ s.worker ∧ s.worker < size) ∧
      (∀ w, 1 ≤ w → w < size →
        (master_alert_step size st alert).2.filter (fun s => decide (s.worker = w)) =
          [Sent.count w ((st.global_blocklist.length : Int) + 1),
           Sent.entries w (st.global_blocklist ++
             [{ ip := alert.src_ip, blocked_time := alert.timestamp }])])) ∧
    (alert.src_ip ∈ st.global_blocklist.map BlockedIP.ip →
      (master_alert_step size st alert).1.global_blocklist = st.global_blocklist ∧
      (master_alert_step size st alert).2 = []) := by
  constructor
  · intro hnew hroom
    rw [master_alert_step_blocklist, master_alert_step_sent, if_pos ⟨hnew, hroom⟩,
      if_pos ⟨hnew, hroom⟩]
    refine ⟨rfl, ?_, ?_⟩
    · intro s hs
      unfold broadcast at hs
      rw [List.mem_flatMap] at hs
      obtain ⟨w, hw, hsw⟩ := hs
      rw [List.mem_range'_1] at hw
      simp only [List.mem_cons, List.mem_singleton, List.not_mem_nil, or_false] at hsw
      rcases hsw with rfl | rfl <;> simp only [Sent.worker] <;> omega
    · intro w hw1 hw2
      unfold broadcast
      rw [broadcast_filter _ (List.nodup_range' 1 (size - 1)) _ w,
        if_pos (by rw [List.mem_range'_1]; omega)]
      simp
  · intro hold
    rw [master_alert_step_blocklist, master_alert_step_sent, if_neg (fun h => h.1 hold),
      if_neg (fun h => h.1 hold)]
    exact ⟨rfl, rfl⟩

/-- C23 evaluated on `master_state_one` with three processes: an alert for the new IP
`10.0.0.2` is appended and worker 2 is sent the count 2 and the two-entry list; a second
alert for `10.0.0.1` sends nothing. -/
theorem master_alert_step_spec_witness :
    ("10.0.0.2" ∉ master_state_one.global_blocklist.map BlockedIP.ip ∧
      master_state_one.global_blocklist.length < 1000 ∧
      "10.0.0.1" ∈ master_state_one.global_blocklist.map BlockedIP.ip) ∧
    (master_alert_step 3 master_state_one (sample_alert "10.0.0.2")).1.global_blocklist.map
      BlockedIP.ip = ["10.0.0.1", "10.0.0.2"] ∧
    ((master_alert_step 3 master_state_one (sample_alert "10.0.0.2")).2.filter
      (fun s => decide (s.worker = 2))).length = 2 ∧
    (master_alert_step 3 master_state_one (sample_alert "10.0.0.1")).2 = [] := by
  have h2 := (master_alert_step_spec 3 master_state_one (sample_alert "10.0.0.2")).1
    (by decide) (by decide)
  have h1 := (master_alert_step_spec 3 master_state_one (sample_alert "10.0.0.1")).2
    (by decide)
  refine ⟨by decide, ?_, ?_, h1.2⟩
  · rw [h2.1]
    decide
  · rw [h2.2.2 2 (by decide) (by decide)]
    rfl

/-! ## The latency percentiles -/

section latency

variable {α : Type} [LinearOrderedField α]

theorem foldl_aggregate_p95 (ws : List (Metrics α)) (agg : Metrics α) :
    (ws.foldl aggregate_metrics agg).latency_p95_ms =
      agg.latency_p95_ms + (ws.map Metrics.latency_p95_ms).sum := by
  induction ws generalizing agg with
  | nil => simp
  | cons w rest ih =>
    rw [List.foldl_cons, ih, List.map_cons, List.sum_cons]
    simp only [aggregate_metrics]
    ring

theorem foldl_aggregate_p99 (ws : List (Metrics α)) (agg : Metrics α) :
    (ws.foldl aggregate_metrics agg).latency_p99_ms =
      agg.latency_p99_ms + (ws.map Metrics.latency_p99_ms).sum := by
  induction ws generalizing agg with
  | nil => simp
  | cons w rest ih =>
    rw [List.foldl_cons, ih, List.map_cons, List.sum_cons]
    simp only [aggregate_metrics]
    ring

theorem sum_map_mul_const {σ : Type} (g : σ → α) (c : α) (l : List σ) :
    (l.map (fun x => g x * c)).sum = c * (l.map g).sum := by
  induction l with
  | nil => simp
  | cons x rest ih =>
    simp only [List.map_cons, List.sum_cons, ih]
    ring

/-- The percentiles a worker stores are 1.2 and 2.0 times the average latency of its own
record. -/
theorem worker_finalize_percentiles (metrics : Metrics α) (total_time worker_total_time : α)
    (flows_processed : Int) (cpu memory : α) :
    (worker_finalize metrics total_time worker_total_time flows_processed cpu
        memory).latency_p95_ms =
      report_avg_latency
        (worker_finalize metrics total_time worker_total_time flows_processed cpu memory) *
        (6 / 5) ∧
    (worker_finalize metrics total_time worker_total_time flows_processed cpu
        memory).latency_p99_ms =
      report_avg_latency
        (worker_finalize metrics total_time worker_total_time flows_processed cpu memory) * 2 := by
  simp [worker_finalize, report_avg_latency]

end latency

/-- C24 as stated fails: with the two worker records `metrics_worker_a` (10 flows, 10 ms)
and `metrics_worker_b` (20 flows, 40 ms) the coordinator reports `latency_p95_ms = 9/5` and
`latency_p99_ms = 3`, while the average latency of the aggregated record is 50/30, so that
1.2 and 2.0 times it are 2 and 10/3. -/
theorem aggregated_percentiles_counterexample :
    (master_finalize ([metrics_worker_a, metrics_worker_b].foldl aggregate_metrics init_metrics)
      2).latency_p95_ms = 9 / 5 ∧
    (master_finalize ([metrics_worker_a, metrics_worker_b].foldl aggregate_metrics init_metrics)
      2).latency_p99_ms = 3 ∧
    report_avg_latency (master_finalize
      ([metrics_worker_a, metrics_worker_b].foldl aggregate_metrics init_metrics) 2) = 5 / 3 := by
  refine ⟨?_, ?_, ?_⟩ <;>
    norm_num [master_finalize, aggregate_metrics, init_metrics, metrics_worker_a,
      metrics_worker_b, worker_finalize, report_avg_latency]

/-- C24 (amended): every worker stores `latency_p95_ms = 1.2 * avg` and
`latency_p99_ms = 2.0 * avg` for the average latency `avg = total_latency_ms / total_flows`
of its own record (0 when `total_flows` is 0); for worker records of that form the
coordinator reports the mean of the workers' values, that is 1.2 and 2.0 times the mean
over the workers of their average latencies; with a single worker these are 1.2 and 2.0
times the average latency of the aggregated record. -/
theorem aggregated_percentiles {α : Type} [LinearOrderedField α] (ws : List (Metrics α))
    (hne : ws ≠ [])
    (hw : ∀ w ∈ ws, w.latency_p95_ms = report_avg_latency w * (6 / 5) ∧
      w.latency_p99_ms = report_avg_latency w * 2) :
    (master_finalize (ws.foldl aggregate_metrics init_metrics) ws.length).latency_p95_ms =
      6 / 5 * ((ws.map report_avg_latency).sum / (ws.length : α)) ∧
    (master_finalize (ws.foldl aggregate_metrics init_metrics) ws.length).latency_p99_ms =
      2 * ((ws.map report_avg_latency).sum / (ws.length : α)) ∧
    (∀ w, ws = [w] →
      (master_finalize (ws.foldl aggregate_metrics init_metrics) ws.length).latency_p95_ms =
        6 / 5 * report_avg_latency
          (master_finalize (ws.foldl aggregate_metrics init_metrics) ws.length) ∧
      (master_finalize (ws.foldl aggregate_metrics init_metrics) ws.length).latency_p99_ms =
        2 * report_avg_latency
          (master_finalize (ws.foldl aggregate_metrics init_metrics) ws.length)) := by
  have hpos : (0 : Int) < (ws.length : Int) := by
    have := List.length_pos.2 hne
    exact_mod_cast this
  have h95 : ws.map Metrics.latency_p95_ms =
      ws.map (fun w => report_avg_latency w * (6 / 5)) :=
    List.map_congr_left (fun w hwm => (hw w hwm).1)
  have h99 : ws.map Metrics.latency_p99_ms =
      ws.map (fun w => report_avg_latency w * 2) :=
    List.map_congr_left (fun w hwm => (hw w hwm).2)
  have e95 : (master_finalize (ws.foldl aggregate_metrics init_metrics)
      ws.length).latency_p95_ms =
      6 / 5 * ((ws.map report_avg_latency).sum / (ws.length : α)) := by
    unfold master_finalize
    rw [if_pos hpos]
    simp only [foldl_aggregate_p95, h95, sum_map_mul_const, init_metrics, zero_add,
      Int.cast_natCast]
    ring
  have e99 : (master_finalize (ws.foldl aggregate_metrics init_metrics)
      ws.length).latency_p99_ms =
      2 * ((ws.map report_avg_latency).sum / (ws.length : α)) := by
    unfold master_finalize
    rw [if_pos hpos]
    simp only [foldl_aggregate_p99, h99, sum_map_mul_const, init_metrics, zero_add,
      Int.cast_natCast]
    ring
  refine ⟨e95, e99, ?_⟩
  intro w hws
  have havg : report_avg_latency
      (master_finalize (ws.foldl aggregate_metrics init_metrics) ws.length) =
      (ws.map report_avg_latency).sum / (ws.length : α) := by
    subst hws
    simp [master_finalize, report_avg_latency, aggregate_metrics, init_metrics]
  rw [havg]
  exact ⟨e95, e99⟩

/-- C24 (amended) evaluated on the worker records `metrics_worker_a` and
`metrics_worker_b`: the coordinator reports 1.2 and 2.0 times the mean 3/2 of the two
average latencies 1 and 2. -/
theorem aggregated_percentiles_witness :
    (master_finalize ([metrics_worker_a, metrics_worker_b].foldl aggregate_metrics init_metrics)
      ([metrics_worker_a, metrics_worker_b].length)).latency_p95_ms =
      6 / 5 * (([metrics_worker_a, metrics_worker_b].map report_avg_latency).sum /
        (([metrics_worker_a, metrics_worker_b].length : Nat) : ℚ)) ∧
    ([metrics_worker_a, metrics_worker_b].map report_avg_latency).sum /
        (([metrics_worker_a, metrics_worker_b].length : Nat) : ℚ) = 3 / 2 := by
  have h := aggregated_percentiles [metrics_worker_a, metrics_worker_b] (by simp) (by
    intro w hw
    simp only [List.mem_cons, List.mem_singleton, List.not_mem_nil, or_false] at hw
    rcases hw with rfl | rfl
    · exact worker_finalize_percentiles _ _ _ _ _ _
    · exact worker_finalize_percentiles _ _ _ _ _ _)
  refine ⟨h.1, ?_⟩
  norm_num [metrics_worker_a, metrics_worker_b, worker_finalize, report_avg_latency,
    init_metrics]

/-! ## The per-class invariants of the metrics record -/

/-- Splitting the elements that pass a test along a second test. -/
theorem countP_split {γ : Type} (a d : γ → Prop) [DecidablePred a] [DecidablePred d]
    (l : List γ) :
    (l.countP (fun f => decide (a f ∧ d f)) : Int) + l.countP (fun f => decide (a f ∧ ¬ d f))
      = l.countP (fun f => decide (a f)) := by
  induction l with
  | nil => simp
  | cons f rest ih =>
    simp only [List.countP_cons]
    by_cases h1 : a f <;> by_cases h2 : d f <;> simp [h1, h2] at ih ⊢ <;> omega

theorem ClassInv.init {α : Type} [Zero α] : ClassInv (init_metrics : Metrics α) := by
  constructor <;> simp [init_metrics]

theorem update_metrics_ddos_sum {α : Type} (m : Metrics α) (flows : List (FlowRecord α))
    (alerts : List (Alert α)) (bl : List (BlockedIP α))
    (h : m.true_positives + m.false_negatives = m.ddos_flows) :
    (update_metrics m flows alerts bl).true_positives +
      (update_metrics m flows alerts bl).false_negatives =
      (update_metrics m flows alerts bl).ddos_flows := by
  have hs := countP_split (fun f : FlowRecord α => f.is_attack ≠ 0)
    (fun f => f.src_ip ∈ detected_ips_loop alerts []) flows
  rw [update_metrics_tp, update_metrics_fn, update_metrics_ddos]
  simp only [ne_eq] at hs ⊢
  omega

theorem update_metrics_benign_sum {α : Type} (m : Metrics α) (flows : List (FlowRecord α))
    (alerts : List (Alert α)) (bl : List (BlockedIP α))
    (h : m.false_positives + m.true_negatives = m.benign_flows) :
    (update_metrics m flows alerts bl).false_positives +
      (update_metrics m flows alerts bl).true_negatives =
      (update_metrics m flows alerts bl).benign_flows := by
  have hs := countP_split (fun f : FlowRecord α => f.is_attack = 0)
    (fun f => f.src_ip ∈ detected_ips_loop alerts []) flows
  rw [update_metrics_fp, update_metrics_tn, update_metrics_benign]
  omega

theorem ClassInv.update {α : Type} {m : Metrics α} (h : ClassInv m)
    (flows : List (FlowRecord α)) (alerts : List (Alert α)) (bl : List (BlockedIP α)) :
    ClassInv (update_metrics m flows alerts bl) := by
  refine ⟨update_metrics_ddos_sum m flows alerts bl h.ddos,
    update_metrics_benign_sum m flows alerts bl h.benign, ?_, ?_, ?_, ?_⟩
  · rw [update_metrics_tp]; have := h.tp_nonneg; omega
  · rw [update_metrics_fn]; have := h.fn_nonneg; omega
  · rw [update_metrics_fp]; have := h.fp_nonneg; omega
  · rw [update_metrics_tn]; have := h.tn_nonneg; omega

theorem ClassInv.window {α : Type} [Add α] {m : Metrics α} (h : ClassInv m)
    (w : WorkerWindow α) : ClassInv (worker_window m w) := by
  have h1 : ClassInv ({ m with mpi_communication_time_ms :=
      m.mpi_communication_time_ms + w.mpi_time } : Metrics α) :=
    ⟨h.ddos, h.benign, h.tp_nonneg, h.fn_nonneg, h.fp_nonneg, h.tn_nonneg⟩
  have h2 := h1.update w.flows w.alerts w.current_blocklist
  exact ⟨h2.ddos, h2.benign, h2.tp_nonneg, h2.fn_nonneg, h2.fp_nonneg, h2.tn_nonneg⟩

theorem ClassInv.worker {α : Type} [Zero α] [Add α] (windows : List (WorkerWindow α)) :
    ClassInv (worker_metrics windows : Metrics α) := by
  unfold worker_metrics
  have key : ∀ (ws : List (WorkerWindow α)) (m : Metrics α), ClassInv m →
      ClassInv (ws.foldl worker_window m) := by
    intro ws
    induction ws with
    | nil => intro m hm; exact hm
    | cons w rest ih => intro m hm; exact ih _ (hm.window w)
  exact key windows _ ClassInv.init

/-- The percentage the worker derives lies in `[0, 100]` when `0 ≤ TP ≤ ddos_flows`. -/
theorem worker_finalize_dropped_pct {α : Type} [LinearOrderedField α] (m : Metrics α)
    (h0 : 0 ≤ m.true_positives) (h1 : m.true_positives ≤ m.ddos_flows)
    (total_time worker_total_time : α) (flows_processed : Int) (cpu mem : α) :
    0 ≤ (worker_finalize m total_time worker_total_time flows_processed cpu
      mem).attack_traffic_dropped_pct ∧
    (worker_finalize m total_time worker_total_time flows_processed cpu
      mem).attack_traffic_dropped_pct ≤ 100 := by
  simp only [worker_finalize]
  by_cases hd : m.ddos_flows > 0
  · rw [if_pos hd]
    have hdpos : (0 : α) < (m.ddos_flows : α) := by exact_mod_cast hd
    have ht0 : (0 : α) ≤ (m.true_positives : α) := by exact_mod_cast h0
    have ht1 : (m.true_positives : α) ≤ (m.ddos_flows : α) := by exact_mod_cast h1
    constructor
    · exact div_nonneg (mul_nonneg ht0 (by norm_num)) hdpos.le
    · rw [div_le_iff₀ hdpos]
      nlinarith
  · rw [if_neg hd]
    exact ⟨le_refl _, by norm_num⟩

/-- C29: the per-class invariants `TP + FN = ddos_flows` and `FP + TN = benign_flows` hold
after `init_metrics` and are preserved by every `update_metrics` call; hence in the record
a worker holds after any sequence of windows they hold, `0 ≤ TP ≤ ddos_flows`, and the
`attack_traffic_dropped_pct` the worker derives lies in `[0, 100]`. -/
theorem metrics_class_sums {α : Type} [LinearOrderedField α] (windows : List (WorkerWindow α))
    (total_time worker_total_time : α) (flows_processed : Int) (cpu mem : α) :
    (init_metrics : Metrics α).class_sums_ok ∧
    (∀ (m : Metrics α) (flows : List (FlowRecord α)) (alerts : List (Alert α))
      (bl : List (BlockedIP α)), m.class_sums_ok →
      (update_metrics m flows alerts bl).class_sums_ok) ∧
    (worker_metrics windows : Metrics α).class_sums_ok ∧
    0 ≤ (worker_metrics windows : Metrics α).true_positives ∧
    (worker_metrics windows : Metrics α).true_positives ≤
      (worker_metrics windows : Metrics α).ddos_flows ∧
    0 ≤ (worker_finalize (worker_metrics windows) total_time worker_total_time
      flows_processed cpu mem).attack_traffic_dropped_pct ∧
    (worker_finalize (worker_metrics windows) total_time worker_total_time
      flows_processed cpu mem).attack_traffic_dropped_pct ≤ 100 := by
  have hw := @ClassInv.worker α _ _ windows
  have hle : (worker_metrics windows : Metrics α).true_positives ≤
      (worker_metrics windows : Metrics α).ddos_flows := by
    have h1 := hw.ddos
    have h2 := hw.fn_nonneg
    omega
  have hp := worker_finalize_dropped_pct (worker_metrics windows) hw.tp_nonneg hle
    total_time worker_total_time flows_processed cpu mem
  refine ⟨⟨ClassInv.init.ddos, ClassInv.init.benign⟩, ?_, ⟨hw.ddos, hw.benign⟩, hw.tp_nonneg, hle, hp.1, hp.2⟩
  intro m flows alerts bl h
  exact ⟨update_metrics_ddos_sum m flows alerts bl h.1,
    update_metrics_benign_sum m flows alerts bl h.2⟩

/-- C29 evaluated on one window of three attack flows from an alerted source: the record
holds `TP = ddos_flows = 3` and the derived percentage is 100. -/
theorem metrics_class_sums_witness :
    (worker_metrics [worker_window_sample]).true_positives = 3 ∧
    (worker_metrics [worker_window_sample]).ddos_flows = 3 ∧
    (worker_finalize (worker_metrics [worker_window_sample]) 10 12 3 50
      100).attack_traffic_dropped_pct ≤ 100 :=
  ⟨by decide, by decide,
    (metrics_class_sums [worker_window_sample] 10 12 3 50 100).2.2.2.2.2.2⟩

/-! ## The PCA detector on at most two source IPs -/

/-- Two values, their mean and the population standard deviation with the substitution
of 1 below 10^-6: each squared z-score is at most 1. -/
theorem two_point_z (v1 v2 : ℝ) :
    let m := (v1 + v2) / 2
    let s := Real.sqrt (((v1 - m) * (v1 - m) + (v2 - m) * (v2 - m)) / 2)
    let sd := if s < 1 / 1000000 then 1 else s
    (v1 - m) / sd * ((v1 - m) / sd) ≤ 1 ∧ (v2 - m) / sd * ((v2 - m) / sd) ≤ 1 := by
  intro m s sd
  have hs : s = |(v1 - v2) / 2| := by
    show Real.sqrt (((v1 - m) * (v1 - m) + (v2 - m) * (v2 - m)) / 2) = _
    rw [← Real.sqrt_sq_eq_abs]
    congr 1
    show ((v1 - (v1 + v2) / 2) * (v1 - (v1 + v2) / 2) +
      (v2 - (v1 + v2) / 2) * (v2 - (v1 + v2) / 2)) / 2 = _
    ring
  have h1 : v1 - m = (v1 - v2) / 2 := by
    show v1 - (v1 + v2) / 2 = _
    ring
  have h2 : v2 - m = -((v1 - v2) / 2) := by
    show v2 - (v1 + v2) / 2 = _
    ring
  rw [h1, h2]
  generalize (v1 - v2) / 2 = d at hs
  have key : d / sd * (d / sd) ≤ 1 := by
    show d / (if s < 1 / 1000000 then 1 else s) * (d / (if s < 1 / 1000000 then 1 else s)) ≤ 1
    by_cases hlt : s < 1 / 1000000
    · rw [if_pos hlt, div_one]
      rw [hs] at hlt
      have := abs_lt.1 hlt
      nlinarith
    · rw [if_neg hlt, hs]
      have hpos : 0 < |d| := by
        rw [hs] at hlt
        have : (1 : ℝ) / 1000000 ≤ |d| := not_lt.1 hlt
        linarith [show (0 : ℝ) < 1 / 1000000 by norm_num]
      rw [div_mul_div_comm, ← abs_mul_abs_self d, div_self (ne_of_gt (mul_pos hpos hpos))]
  refine ⟨key, ?_⟩
  have : -d / sd * (-d / sd) = d / sd * (d / sd) := by ring
  rw [this]
  exact key

/-- In a PCA table of at most two entries every squared normalised feature is at most 1. -/
theorem pca_normalized_le_one (t : List (IPFeatures ℝ)) (hlen : t.length ≤ 2)
    (e : IPFeatures ℝ) (he : e ∈ t) (f : Fin 5) :
    (e.features f / (e.flow_count : ℝ) - pca_mean t f) / pca_stddev Real.sqrt t f *
      ((e.features f / (e.flow_count : ℝ) - pca_mean t f) / pca_stddev Real.sqrt t f) ≤ 1 := by
  match t, hlen, he with
  | [e1], _, he =>
    simp only [List.mem_singleton] at he
    subst he
    have hm : pca_mean [e] f = e.features f / (e.flow_count : ℝ) := by
      simp [pca_mean]
    rw [hm, sub_self, zero_div, zero_mul]
    exact zero_le_one
  | [e1, e2], _, he =>
    have hm : pca_mean [e1, e2] f =
        (e1.features f / (e1.flow_count : ℝ) + e2.features f / (e2.flow_count : ℝ)) / 2 := by
      simp [pca_mean]
    have hsd : pca_stddev Real.sqrt [e1, e2] f =
        if Real.sqrt (((e1.features f / (e1.flow_count : ℝ) - pca_mean [e1, e2] f) *
            (e1.features f / (e1.flow_count : ℝ) - pca_mean [e1, e2] f) +
          (e2.features f / (e2.flow_count : ℝ) - pca_mean [e1, e2] f) *
            (e2.features f / (e2.flow_count : ℝ) - pca_mean [e1, e2] f)) / 2) < 1 / 1000000
        then 1
        else Real.sqrt (((e1.features f / (e1.flow_count : ℝ) - pca_mean [e1, e2] f) *
            (e1.features f / (e1.flow_count : ℝ) - pca_mean [e1, e2] f) +
          (e2.features f / (e2.flow_count : ℝ) - pca_mean [e1, e2] f) *
            (e2.features f / (e2.flow_count : ℝ) - pca_mean [e1, e2] f)) / 2) := by
      simp [pca_stddev]
    have h := two_point_z (e1.features f / (e1.flow_count : ℝ))
      (e2.features f / (e2.flow_count : ℝ))
    simp only at h
    rw [hsd, hm]
    simp only [List.mem_cons, List.mem_singleton, List.not_mem_nil, or_false] at he
    rcases he with rfl | rfl
    · exact h.1
    · exact h.2

/-- In a PCA table of one entry every normalised feature is 0. -/
theorem pca_normalized_one (t : List (IPFeatures ℝ)) (hlen : t.length ≤ 1)
    (e : IPFeatures ℝ) (he : e ∈ t) (f : Fin 5) :
    (e.features f / (e.flow_count : ℝ) - pca_mean t f) / pca_stddev Real.sqrt t f = 0 := by
  match t, hlen, he with
  | [e1], _, he =>
    simp only [List.mem_singleton] at he
    subst he
    have hm : pca_mean [e] f = e.features f / (e.flow_count : ℝ) := by
      simp [pca_mean]
    rw [hm, sub_self, zero_div]

/-- In a PCA table of at most two entries no distance exceeds the square root of 5. -/
theorem pca_distance_le_sqrt (t : List (IPFeatures ℝ)) (hlen : t.length ≤ 2)
    (e : IPFeatures ℝ) (he : e ∈ t) : pca_distance Real.sqrt t e ≤ Real.sqrt 5 := by
  unfold pca_distance
  rw [foldl_add_eq_sum, zero_add]
  apply Real.sqrt_le_sqrt
  have := List.sum_le_card_nsmul ((List.finRange 5).map (fun f =>
    (e.features f / (e.flow_count : ℝ) - pca_mean t f) / pca_stddev Real.sqrt t f *
      ((e.features f / (e.flow_count : ℝ) - pca_mean t f) /
        pca_stddev Real.sqrt t f))) 1 (by
      intro x hx
      obtain ⟨f, _, rfl⟩ := List.mem_map.1 hx
      exact pca_normalized_le_one t hlen e he f)
  simpa using this

/-- In a PCA table of at most two entries no distance exceeds 3. -/
theorem pca_distance_le (t : List (IPFeatures ℝ)) (hlen : t.length ≤ 2)
    (e : IPFeatures ℝ) (he : e ∈ t) : ¬ pca_distance Real.sqrt t e > 3 := by
  unfold pca_distance
  rw [foldl_add_eq_sum, zero_add]
  have hsum : ((List.finRange 5).map (fun f =>
      (e.features f / (e.flow_count : ℝ) - pca_mean t f) / pca_stddev Real.sqrt t f *
        ((e.features f / (e.flow_count : ℝ) - pca_mean t f) /
          pca_stddev Real.sqrt t f))).sum ≤ 5 := by
    have := List.sum_le_card_nsmul ((List.finRange 5).map (fun f =>
      (e.features f / (e.flow_count : ℝ) - pca_mean t f) / pca_stddev Real.sqrt t f *
        ((e.features f / (e.flow_count : ℝ) - pca_mean t f) /
          pca_stddev Real.sqrt t f))) 1 (by
        intro x hx
        obtain ⟨f, _, rfl⟩ := List.mem_map.1 hx
        exact pca_normalized_le_one t hlen e he f)
    simpa using this
  have h3 : Real.sqrt ((List.finRange 5).map (fun f =>
      (e.features f / (e.flow_count : ℝ) - pca_mean t f) / pca_stddev Real.sqrt t f *
        ((e.features f / (e.flow_count : ℝ) - pca_mean t f) /
          pca_stddev Real.sqrt t f))).sum < 3 := by
    rw [Real.sqrt_lt' (by norm_num : (0 : ℝ) < 3)]
    linarith
  exact not_lt.2 h3.le

/-- With at most two distinct source IPs the PCA detector leaves the alerts unchanged. -/
theorem detect_pca_based_small (flows : List (FlowRecord ℝ)) (alerts : List (Alert ℝ))
    (hd : distinct_ips flows ≤ 2) : detect_pca_based Real.sqrt flows alerts = alerts := by
  have hlen : (pca_aggregate flows).length ≤ 2 := by
    rw [(pca_aggregate_inv flows).length_eq]
    exact le_trans (Nat.min_le_left _ _) hd
  unfold detect_pca_based
  simp only
  rw [pca_decide_foldl]
  have hnil : (pca_aggregate flows).filter
      (fun e => decide (pca_distance Real.sqrt (pca_aggregate flows) e > 3)) = [] := by
    rw [List.filter_eq_nil_iff]
    intro e he
    simpa using not_lt.1 (pca_distance_le (pca_aggregate flows) hlen e he)
  rw [hnil, List.map_nil, List.append_nil]

/-- C28: over real arithmetic, on every window with at most two distinct source IPs
`detect_pca_based` emits no alert: every squared z-score of an entry is at most 1 (0 with
one IP), so no distance exceeds `sqrt 5 < 3`. -/
theorem detect_pca_based_two_ips (flows : List (FlowRecord ℝ)) (alerts : List (Alert ℝ))
    (hd : distinct_ips flows ≤ 2) :
    detect_pca_based Real.sqrt flows alerts = alerts ∧
    (∀ e ∈ pca_aggregate flows, ∀ f : Fin 5,
      ((e.features f / (e.flow_count : ℝ) - pca_mean (pca_aggregate flows) f) /
        pca_stddev Real.sqrt (pca_aggregate flows) f) ^ 2 ≤ 1) ∧
    (distinct_ips flows ≤ 1 → ∀ e ∈ pca_aggregate flows, ∀ f : Fin 5,
      (e.features f / (e.flow_count : ℝ) - pca_mean (pca_aggregate flows) f) /
        pca_stddev Real.sqrt (pca_aggregate flows) f = 0) ∧
    ∀ e ∈ pca_aggregate flows, pca_distance Real.sqrt (pca_aggregate flows) e ≤ Real.sqrt 5 := by
  have hlen : (pca_aggregate flows).length ≤ 2 := by
    rw [(pca_aggregate_inv flows).length_eq]
    exact le_trans (Nat.min_le_left _ _) hd
  refine ⟨detect_pca_based_small flows alerts hd, ?_, ?_, ?_⟩
  · intro e he f
    rw [sq]
    exact pca_normalized_le_one _ hlen e he f
  · intro h1 e he f
    have hlen1 : (pca_aggregate flows).length ≤ 1 := by
      rw [(pca_aggregate_inv flows).length_eq]
      exact le_trans (Nat.min_le_left _ _) h1
    exact pca_normalized_one _ hlen1 e he f
  · intro e he
    exact pca_distance_le_sqrt _ hlen e he

/-- C28 evaluated on `window_two_ips`: two sources at 10^7 and 10^3 bytes per second, no
PCA alert. -/
theorem detect_pca_based_two_ips_witness :
    distinct_ips (window_two_ips : List (FlowRecord ℝ)) ≤ 2 ∧
    detect_pca_based Real.sqrt (window_two_ips : List (FlowRecord ℝ)) [] = [] :=
  ⟨by decide, (detect_pca_based_two_ips window_two_ips [] (by decide)).1⟩

/-! ## Overflow flows -/

section overflow

variable {α σ : Type} (key : σ → String) (upd : FlowRecord α → σ → σ)
  (fresh : FlowRecord α → σ)

/-- The search loop leaves the IPs of the table as they are, and fails exactly when the
IP is absent. -/
theorem update_first_keys (u : σ → σ) (hu : ∀ e, key (u e) = key e) (ip : String)
    (table : List σ) :
    (∀ t, update_first key u ip table = some t →
      t.map key = table.map key ∧ ip ∈ table.map key) ∧
    (update_first key u ip table = none → ip ∉ table.map key) := by
  induction table with
  | nil => simp [update_first]
  | cons e rest ih =>
    by_cases h1 : key e = ip
    · simp [update_first, h1, hu]
    · have h1b : ¬ ip = key e := fun x => h1 x.symm
      constructor
      · intro t ht
        simp only [update_first, h1, if_false, Option.map_eq_some'] at ht
        obtain ⟨t1, ht1, rfl⟩ := ht
        obtain ⟨hk, hm⟩ := ih.1 t1 ht1
        simp [hk, hm]
      · intro hn
        simp only [update_first, h1, if_false, Option.map_eq_none'] at hn
        simp [h1b, ih.2 hn]

/-- One step of the aggregation loop seen on the IPs of the table. -/
theorem tally_keys (hupd : ∀ f e, key (upd f e) = key e) (hfresh : ∀ f, key (fresh f) = f.src_ip)
    (table : List σ) (f : FlowRecord α) :
    (tally key upd fresh table f).map key = track_keys (table.map key) f.src_ip := by
  have hk := update_first_keys key (upd f) (hupd f) f.src_ip table
  unfold tally track_keys
  cases h : update_first key (upd f) f.src_ip table with
  | some t =>
    obtain ⟨h1, h2⟩ := hk.1 t h
    simp [h1, h2]
  | none =>
    have h2 := hk.2 h
    rw [if_neg h2, List.length_map]
    by_cases hl : table.length < MAX_UNIQUE_IPS
    · simp [hl, hfresh]
    · simp [hl]

/-- A flow whose IP is absent from the table after its step left the table untouched. -/
theorem tally_dropped (hupd : ∀ f e, key (upd f e) = key e)
    (hfresh : ∀ f, key (fresh f) = f.src_ip) (table : List σ) (f : FlowRecord α)
    (h : f.src_ip ∉ (tally key upd fresh table f).map key) :
    tally key upd fresh table f = table := by
  have hk := update_first_keys key (upd f) (hupd f) f.src_ip table
  unfold tally at h ⊢
  cases hu : update_first key (upd f) f.src_ip table with
  | some t =>
    rw [hu] at h
    obtain ⟨h1, h2⟩ := hk.1 t hu
    simp only at h
    rw [h1] at h
    exact absurd h2 h
  | none =>
    rw [hu] at h
    simp only at h ⊢
    by_cases hl : table.length < MAX_UNIQUE_IPS
    · rw [if_pos hl] at h
      simp [hfresh] at h
    · rw [if_neg hl]

theorem foldl_tally_keys (hupd : ∀ f e, key (upd f e) = key e)
    (hfresh : ∀ f, key (fresh f) = f.src_ip) (flows : List (FlowRecord α)) (table : List σ) :
    (flows.foldl (tally key upd fresh) table).map key =
      (flows.map FlowRecord.src_ip).foldl track_keys (table.map key) := by
  induction flows generalizing table with
  | nil => rfl
  | cons f rest ih =>
    rw [List.foldl_cons, ih, tally_keys key upd fresh hupd hfresh, List.map_cons,
      List.foldl_cons]

theorem track_keys_subset (ks : List String) (ip : String) : ks ⊆ track_keys ks ip := by
  unfold track_keys
  split
  · exact List.Subset.refl _
  · split
    · exact List.subset_append_left _ _
    · exact List.Subset.refl _

theorem foldl_track_keys_subset (ips ks : List String) : ks ⊆ ips.foldl track_keys ks := by
  induction ips generalizing ks with
  | nil => exact List.Subset.refl _
  | cons x rest ih => exact List.Subset.trans (track_keys_subset ks x) (ih _)

/-- Deleting the flows whose IP is absent from the final table gives the same table. -/
theorem foldl_tally_filter (hupd : ∀ f e, key (upd f e) = key e)
    (hfresh : ∀ f, key (fresh f) = f.src_ip) (flows : List (FlowRecord α)) (table : List σ)
    (keys : List String) (hkeys : (flows.foldl (tally key upd fresh) table).map key = keys) :
    (flows.filter (fun f => decide (f.src_ip ∈ keys))).foldl (tally key upd fresh) table =
      flows.foldl (tally key upd fresh) table := by
  induction flows generalizing table with
  | nil => rfl
  | cons f rest ih =>
    rw [List.foldl_cons] at hkeys ⊢
    by_cases hf : f.src_ip ∈ keys
    · rw [List.filter_cons_of_pos (by simpa using hf), List.foldl_cons]
      exact ih _ hkeys
    · rw [List.filter_cons_of_neg (by simpa using hf)]
      have hnot : f.src_ip ∉ (tally key upd fresh table f).map key := by
        intro hmem
        apply hf
        rw [← hkeys, foldl_tally_keys key upd fresh hupd hfresh]
        exact foldl_track_keys_subset _ _ hmem
      have htab := tally_dropped key upd fresh hupd hfresh table f hnot
      rw [htab] at hkeys ⊢
      exact ih _ hkeys

end overflow

theorem filter_ne_of_not_mem (ks l : List String) (x : String) (hx : x ∈ ks) :
    (l.filter (fun y => decide (y ≠ x))).filter (fun y => decide (y ∉ ks)) =
      l.filter (fun y => decide (y ∉ ks)) := by
  rw [List.filter_filter]
  apply List.filter_congr
  intro y _
  by_cases hy : y ∈ ks
  · simp [hy]
  · have : y ≠ x := fun h => hy (h ▸ hx)
    simp [hy, this]

theorem filter_ne_append (ks l : List String) (x : String) :
    (l.filter (fun y => decide (y ≠ x))).filter (fun y => decide (y ∉ ks)) =
      l.filter (fun y => decide (y ∉ ks ++ [x])) := by
  rw [List.filter_filter]
  apply List.filter_congr
  intro y _
  by_cases hy : y ∈ ks <;> by_cases hyx : y = x <;> simp [hy, hyx]

/-- The IPs a table tracks: those it had, then the new ones in the order of their first
occurrence, as long as there is room. -/
theorem foldl_track_keys (ips ks : List String) :
    ips.foldl track_keys ks =
      ks ++ ((first_distinct ips).filter (fun y => decide (y ∉ ks))).take
        (MAX_UNIQUE_IPS - ks.length) := by
  induction ips generalizing ks with
  | nil => simp [first_distinct]
  | cons x rest ih =>
    rw [List.foldl_cons, ih]
    unfold track_keys
    by_cases hx : x ∈ ks
    · rw [if_pos hx]
      simp only [first_distinct]
      rw [List.filter_cons_of_neg (by simpa using hx), filter_ne_of_not_mem ks _ x hx]
    · rw [if_neg hx]
      simp only [first_distinct]
      rw [List.filter_cons_of_pos (by simpa using hx), filter_ne_append]
      by_cases hl : ks.length < MAX_UNIQUE_IPS
      · rw [if_pos hl]
        obtain ⟨n, hn⟩ : ∃ n, MAX_UNIQUE_IPS - ks.length = n + 1 :=
          ⟨MAX_UNIQUE_IPS - ks.length - 1, by omega⟩
        rw [hn, List.take_succ_cons, List.length_append, List.length_singleton,
          show MAX_UNIQUE_IPS - (ks.length + 1) = n by omega, List.append_assoc,
          List.singleton_append]
      · rw [if_neg hl]
        have h0 : MAX_UNIQUE_IPS - ks.length = 0 := by omega
        rw [h0, List.take_zero, List.take_zero]

theorem pca_keys {α : Type} [LinearOrderedField α] (flows : List (FlowRecord α)) :
    (pca_aggregate flows).map IPFeatures.ip = tracked_ips flows := by
  unfold pca_aggregate tracked_ips
  rw [foldl_tally_keys IPFeatures.ip
    (fun (f : FlowRecord α) (e : IPFeatures α) =>
      { e with features := fun k => e.features k + flow_features f k,
               flow_count := e.flow_count + 1 })
    (fun f => { ip := f.src_ip, features := flow_features f, flow_count := 1 })
    (fun _ _ => rfl) (fun _ => rfl), foldl_track_keys]
  simp

theorem cusum_keys {α : Type} [LinearOrderedField α] (flows : List (FlowRecord α)) :
    (cusum_aggregate flows).map CUSUMState.ip = tracked_ips flows := by
  unfold cusum_aggregate tracked_ips
  rw [foldl_tally_keys CUSUMState.ip
    (fun (f : FlowRecord α) (e : CUSUMState α) =>
      { e with total_bytes_per_sec := e.total_bytes_per_sec + f.flow_bytes_per_sec,
               flow_count := e.flow_count + 1 })
    (fun f => { ip := f.src_ip, cusum_high := 0, cusum_low := 0, flow_count := 1,
                total_bytes_per_sec := f.flow_bytes_per_sec })
    (fun _ _ => rfl) (fun _ => rfl), foldl_track_keys]
  simp

theorem pca_aggregate_drop_overflow {α : Type} [LinearOrderedField α]
    (flows : List (FlowRecord α)) : pca_aggregate (drop_overflow flows) = pca_aggregate flows := by
  unfold drop_overflow
  exact foldl_tally_filter IPFeatures.ip
    (fun (f : FlowRecord α) (e : IPFeatures α) =>
      { e with features := fun k => e.features k + flow_features f k,
               flow_count := e.flow_count + 1 })
    (fun f => { ip := f.src_ip, features := flow_features f, flow_count := 1 })
    (fun _ _ => rfl) (fun _ => rfl) flows [] _ (pca_keys flows)

theorem cusum_aggregate_drop_overflow {α : Type} [LinearOrderedField α]
    (flows : List (FlowRecord α)) :
    cusum_aggregate (drop_overflow flows) = cusum_aggregate flows := by
  unfold drop_overflow
  exact foldl_tally_filter CUSUMState.ip
    (fun (f : FlowRecord α) (e : CUSUMState α) =>
      { e with total_bytes_per_sec := e.total_bytes_per_sec + f.flow_bytes_per_sec,
               flow_count := e.flow_count + 1 })
    (fun f => { ip := f.src_ip, cusum_high := 0, cusum_low := 0, flow_count := 1,
                total_bytes_per_sec := f.flow_bytes_per_sec })
    (fun _ _ => rfl) (fun _ => rfl) flows [] _ (cusum_keys flows)

/-- C25: the PCA and CUSUM tables hold exactly the first 1000 distinct source IPs of the
window; deleting the flows of every other source IP leaves both tables, and hence the
alert lists of `detect_pca_based` and `detect_cusum_based`, unchanged, and every alert
either detector appends is for one of the first 1000 distinct source IPs. -/
theorem overflow_flows_ignored {α : Type} [LinearOrderedField α] (sqrt : α → α)
    (flows : List (FlowRecord α)) (alerts : List (Alert α)) :
    (pca_aggregate flows).map IPFeatures.ip = tracked_ips flows ∧
    (cusum_aggregate flows).map CUSUMState.ip = tracked_ips flows ∧
    pca_aggregate (drop_overflow flows) = pca_aggregate flows ∧
    cusum_aggregate (drop_overflow flows) = cusum_aggregate flows ∧
    detect_pca_based sqrt (drop_overflow flows) alerts = detect_pca_based sqrt flows alerts ∧
    detect_cusum_based (drop_overflow flows) alerts = detect_cusum_based flows alerts ∧
    (∃ emitted : List (Alert α), detect_pca_based sqrt flows alerts = alerts ++ emitted ∧
      ∀ a ∈ emitted, a.src_ip ∈ tracked_ips flows) ∧
    (∃ emitted : List (Alert α), detect_cusum_based flows alerts = alerts ++ emitted ∧
      ∀ a ∈ emitted, a.src_ip ∈ tracked_ips flows) := by
  refine ⟨pca_keys flows, cusum_keys flows, pca_aggregate_drop_overflow flows,
    cusum_aggregate_drop_overflow flows, ?_, ?_, ?_, ?_⟩
  · unfold detect_pca_based
    simp only
    rw [pca_aggregate_drop_overflow]
  · unfold detect_cusum_based
    rw [cusum_aggregate_drop_overflow]
  · refine ⟨_, pca_decide_foldl sqrt (pca_aggregate flows) (pca_aggregate flows) alerts, ?_⟩
    intro a ha
    simp only [List.mem_map, List.mem_filter] at ha
    obtain ⟨e, ⟨he, _⟩, rfl⟩ := ha
    rw [← pca_keys flows]
    exact List.mem_map_of_mem _ he
  · refine ⟨_, cusum_decide_foldl (cusum_aggregate flows) alerts, ?_⟩
    intro a ha
    simp only [List.mem_map, List.mem_filter] at ha
    obtain ⟨e, ⟨he, _⟩, rfl⟩ := ha
    rw [← cusum_keys flows]
    exact List.mem_map_of_mem _ he

theorem mem_first_distinct (l : List String) (x : String) : x ∈ first_distinct l ↔ x ∈ l := by
  induction l with
  | nil => simp [first_distinct]
  | cons y rest ih =>
    simp only [first_distinct, List.mem_cons, List.mem_filter, decide_eq_true_eq, ih]
    by_cases h : x = y <;> simp [h]

theorem first_distinct_nodup (l : List String) : (first_distinct l).Nodup := by
  induction l with
  | nil => simp [first_distinct]
  | cons y rest ih =>
    simp only [first_distinct, List.nodup_cons, List.mem_filter, decide_eq_true_eq]
    exact ⟨fun h => h.2 rfl, ih.filter _⟩

/-! ## The number of alerts of one window -/

/-- The counting table depends on the source IPs of the window only. -/
theorem count_ips_congr {α : Type} (flows flows2 : List (FlowRecord α))
    (h : flows.map FlowRecord.src_ip = flows2.map FlowRecord.src_ip) :
    count_ips flows = count_ips flows2 := by
  unfold count_ips
  generalize ([] : List IPCount) = table
  induction flows generalizing flows2 table with
  | nil =>
    have : flows2 = [] := by
      cases flows2 with
      | nil => rfl
      | cons _ _ => simp at h
    rw [this]
  | cons f rest ih =>
    cases flows2 with
    | nil => simp at h
    | cons f2 rest2 =>
      simp only [List.map_cons, List.cons.injEq] at h
      rw [List.foldl_cons, List.foldl_cons]
      have hstep : tally IPCount.ip (fun (_ : FlowRecord α) (e : IPCount) =>
            { e with count := e.count + 1 })
          (fun f => { ip := f.src_ip, count := 1 }) table f =
          tally IPCount.ip (fun (_ : FlowRecord α) (e : IPCount) =>
            { e with count := e.count + 1 })
          (fun f => { ip := f.src_ip, count := 1 }) table f2 := by
        unfold tally
        simp only [h.1]
      rw [hstep]
      exact ih rest2 h.2 _

theorem sum_map_const_of_forall {α γ : Type} [LinearOrderedField α] (g : γ → α) (r : α)
    (l : List γ) (h : ∀ x ∈ l, g x = r) : (l.map g).sum = (l.length : α) * r := by
  induction l with
  | nil => simp
  | cons x rest ih =>
    rw [List.map_cons, List.sum_cons, h x (by simp), ih (fun y hy => h y (by simp [hy])),
      List.length_cons]
    push_cast
    ring

/-- When every flow of the window has the rate `r`, so has the average of every source. -/
theorem ip_avg_rate_const {α : Type} [LinearOrderedField α] (flows : List (FlowRecord α))
    (r : α) (hr : ∀ f ∈ flows, f.flow_bytes_per_sec = r) (ip : String)
    (hip : ip ∈ flows.map FlowRecord.src_ip) : ip_avg_rate flows ip = r := by
  unfold ip_avg_rate ip_count
  rw [List.countP_eq_length_filter,
    sum_map_const_of_forall _ r _ (fun f hf => hr f (List.mem_filter.1 hf).1)]
  obtain ⟨f, hf, hfip⟩ := List.mem_map.1 hip
  have hmem : f ∈ flows.filter (fun f => decide (f.src_ip = ip)) :=
    List.mem_filter.2 ⟨hf, by simpa using hfip⟩
  have hpos : 0 < (flows.filter (fun f => decide (f.src_ip = ip))).length :=
    List.length_pos_of_mem hmem
  have hne : (((flows.filter (fun f => decide (f.src_ip = ip))).length : Nat) : α) ≠ 0 := by
    exact_mod_cast hpos.ne'
  field_simp

/-- When every flow of the window is at 10^6 bytes per second the CUSUM detector appends
one alert per entry of its table. -/
theorem detect_cusum_based_flood {α : Type} [LinearOrderedField α]
    (flows : List (FlowRecord α)) (alerts : List (Alert α))
    (hr : ∀ f ∈ flows, f.flow_bytes_per_sec = 1000000) :
    (detect_cusum_based flows alerts).length =
      alerts.length + (cusum_aggregate flows).length := by
  unfold detect_cusum_based
  rw [cusum_decide_foldl, List.length_append, List.length_map]
  congr 2
  rw [List.filter_eq_self]
  intro e he
  have hk := (cusum_aggregate_inv flows).key_mem _ _ _ e.ip (List.mem_map_of_mem _ he)
  rw [decide_eq_true_eq, cusum_high_of_entry flows e he, cusum_threshold_iff,
    ip_avg_rate_const flows 1000000 hr e.ip hk]
  norm_num

theorem distinct_ips_append_le {α : Type} (l1 l2 : List (FlowRecord α)) :
    distinct_ips l1 ≤ distinct_ips (l1 ++ l2) := by
  unfold distinct_ips
  rw [← List.card_toFinset, ← List.card_toFinset]
  apply Finset.card_le_card
  intro x hx
  rw [List.mem_toFinset] at hx ⊢
  rw [List.map_append]
  exact List.mem_append_left _ hx

theorem window_flood_ips {α : Type} [LinearOrderedField α] :
    (window_flood : List (FlowRecord α)).map FlowRecord.src_ip =
      (window_overflow : List (FlowRecord α)).map FlowRecord.src_ip := by
  unfold window_flood window_overflow
  rw [List.map_append, List.map_append, window_distinct_ips, List.map_map, List.map_replicate]
  congr 1

theorem window_flood_length {α : Type} [LinearOrderedField α] :
    (window_flood : List (FlowRecord α)).length = 10000 := by
  unfold window_flood
  rw [List.length_append, List.length_map, List.length_range, List.length_replicate]

theorem window_flood_rate {α : Type} [LinearOrderedField α] :
    ∀ f ∈ (window_flood : List (FlowRecord α)), f.flow_bytes_per_sec = 1000000 := by
  intro f hf
  unfold window_flood at hf
  rw [List.mem_append] at hf
  rcases hf with hf | hf
  · obtain ⟨i, _, rfl⟩ := List.mem_map.1 hf
    rfl
  · rw [(List.mem_replicate.1 hf).2]
    rfl

theorem window_flood_table_length {α : Type} [LinearOrderedField α] :
    (cusum_aggregate (window_flood : List (FlowRecord α))).length = 1000 := by
  rw [(cusum_aggregate_inv _).length_eq]
  have h1 : distinct_ips ((List.range 1000).map
      (fun i => (sample_flow (sample_ip i) 1000000 1 : FlowRecord α))) = 1000 := by
    rw [distinct_ips_of_nodup]
    · rw [List.length_map, List.length_range]
    · rw [List.map_map]
      exact @window_distinct_nodup α _ 1000 (by norm_num) |> fun h => by
        rw [window_distinct_ips] at h
        exact h
  have h2 := distinct_ips_append_le ((List.range 1000).map
      (fun i => (sample_flow (sample_ip i) 1000000 1 : FlowRecord α)))
    (List.replicate 9000 (sample_flow (sample_ip 1000) 1000000 1))
  rw [h1] at h2
  have h3 : MAX_UNIQUE_IPS = 1000 := rfl
  unfold window_flood
  omega

/-- The entropy detector raises its alert on `window_flood`. -/
theorem detect_entropy_based_flood :
    (detect_entropy_based (Real.logb 2) (window_flood : List (FlowRecord ℝ)) []).length = 1 := by
  have hc : count_ips (window_flood : List (FlowRecord ℝ)) = count_ips window_overflow :=
    count_ips_congr _ _ window_flood_ips
  have hH : calculate_entropy (Real.logb 2) (window_flood : List (FlowRecord ℝ)) =
      calculate_entropy (Real.logb 2) (window_overflow : List (FlowRecord ℝ)) := by
    unfold calculate_entropy
    rw [hc, window_flood_length, window_overflow_length]
  have hlt : calculate_entropy (Real.logb 2) (window_flood : List (FlowRecord ℝ)) < 3 / 2 := by
    rw [hH, entropy_window_overflow.1]
    have := logb_two_10000
    linarith
  have hn : 10 ≤ (window_flood : List (FlowRecord ℝ)).length := by
    rw [window_flood_length]; norm_num
  obtain ⟨e, _, hdet⟩ := detect_entropy_based_fires (Real.logb 2)
    (window_flood : List (FlowRecord ℝ)) [] hn hlt
  rw [hdet]
  rfl

/-- C27 fails on `window_flood`, a window of 10000 flows (at most `WINDOW_SIZE`): the
entropy detector appends one alert (the entropy is `0.1 * log2 10000 < 1.5`) and the CUSUM
detector one for each of its 1000 table entries, so `run_detection` writes more than
`MAX_ALERTS` alerts. -/
theorem run_detection_exceeds_MAX_ALERTS :
    (window_flood : List (FlowRecord ℝ)).length ≤ WINDOW_SIZE ∧
    (detect_entropy_based (Real.logb 2) (window_flood : List (FlowRecord ℝ)) []).length = 1 ∧
    MAX_ALERTS <
      (run_detection (Real.logb 2) Real.sqrt (window_flood : List (FlowRecord ℝ))).length := by
  refine ⟨?_, detect_entropy_based_flood, ?_⟩
  · rw [window_flood_length]
    decide
  · unfold run_detection
    rw [detect_cusum_based_flood _ _ window_flood_rate, window_flood_table_length]
    obtain ⟨emitted, hp, _⟩ := detect_pca_based_shape Real.sqrt
      (window_flood : List (FlowRecord ℝ))
      (detect_entropy_based (Real.logb 2) (window_flood : List (FlowRecord ℝ)) [])
    rw [hp, List.length_append, detect_entropy_based_flood]
    have : MAX_ALERTS = 1000 := rfl
    omega

/-! ## The detectors in `double` arithmetic -/

/-- The rounding of 1/10, of two ties (to the even neighbour below and above), of a
negative number and of an integer. -/
theorem round_double_examples :
    round_double (1 / 10) = 3602879701896397 / 36028797018963968 ∧
    round_double (1 + 1 / 9007199254740992) = 1 ∧
    round_double (1 + 3 / 9007199254740992) = 1 + 1 / 2251799813685248 ∧
    round_double (-(413004 / 10)) = -(5676283753974989 / 137438953472) ∧
    round_double 404004 = 404004 := by
  decide!

/-- The rounded square roots of 2, of 9 and of 1/4. -/
theorem sqrt_double_examples :
    sqrt_double 2 = 6369051672525773 / 4503599627370496 ∧ sqrt_double 9 = 3 ∧
    sqrt_double (1 / 4) = 1 / 2 := by
  decide!

/-- Without rounding the `double` version of the CUSUM detector is the exact one. -/
theorem detect_cusum_based_rnd_id {α : Type} [LinearOrderedField α]
    (flows : List (FlowRecord α)) (alerts : List (Alert α)) :
    detect_cusum_based_rnd id flows alerts = detect_cusum_based flows alerts := rfl

/-- Without rounding the `double` version of the PCA detector is the exact one. -/
theorem detect_pca_based_rnd_id {α : Type} [LinearOrderedField α] (sqrt : α → α)
    (flows : List (FlowRecord α)) (alerts : List (Alert α)) :
    detect_pca_based_rnd id sqrt flows alerts = detect_pca_based sqrt flows alerts := rfl

end DDoS
